import Mathlib

/-! # File-Metadata-Analyser: type detection, the metadata map and the decoders

A shallow embedding of

* `determineFileType` (src/src/FileMetaDataAnalyzer.cpp) together with the
  signature constants of src/include/FileMetaDataAnalyzer.h,
* `CustomMap` (src/include/CustomMap.h) together with `mergeMap`
  (src/include/FileMetaDataAnalyzer.h, src/src/main.cpp), and
* the decoders `analyzeMetadataHelper<T>`, the coordinator
  `FileMetaDataAnalyzer<T...>::analyzeMetadata` and the loop of `main`,

followed by the properties established about them.

Modelling conventions.

* A byte is a `Fin 256`; a file is the list of its bytes; a file system maps a
  path to `none` (the stream fails to open) or to `some bytes`.
* `uint8_t signature[8];` is declared without an initialiser.  What the array
  holds before `file.read` is therefore a parameter (`stale`) of the model, and
  `istreamRead` overwrites only as many leading bytes as the file supplies.
* A `CustomMap` is its vector `pairs`; an iterator is an index into the vector
  and `end()` is the vector's length; a `ValueType&` returned by `operator[]`
  is the index of the slot it refers to.
* The decoders (`analyzeMetadataHelper`), the coordinator (`analyzeMetadata`)
  and the loop of `main` run in a `World`: the file system, `stat`, `ctime`,
  the PDF and ZIP libraries as services that answer each call, and the content
  of every object the program reads without having initialised it.
* A call ends as an `Outcome`: it returns, it is left by the
  `std::runtime_error` of `custom_assert`, it is left by an exception of
  another class thrown inside the standard library, or the process faults.
* `std::ctime` answers with a null pointer for a time it cannot render, and
  building a `std::string` from a null pointer throws `std::logic_error`.
  Two facts about the operating system are part of a `World`: a path that
  opens can be examined with `stat`, and the three times `stat` reports for an
  existing file are times `std::ctime` renders.  Nothing is assumed about the
  times found in a `struct stat` that `stat` did not fill.
* The PDF decoder builds six strings from `begin()` of one temporary and
  `end()` of another.  What such a construction does depends on where the two
  temporaries lie; it is a parameter of the model (`World.mixedRange`).
* The host is taken to be little-endian with the usual alignment of scalars
  (a 2-byte or 4-byte integer is aligned to its size) and `/` as the directory
  separator; the header structs carry no packing directive, so their layout
  is computed by `layoutFrom` under that alignment.
* A `std::string` of raw bytes is the `String` with one character per byte.
-/

namespace FileMeta

/-! ## Data model -/

/-- One octet. -/
abbrev Byte := Fin 256

/-- The `enum class FileType` of FileMetaDataAnalyzer.h. -/
inductive FileType where
  | PDF
  | TXT
  | JPEG
  | PNG
  | BMP
  | GIF
  | ZIP
  | WAV
  | UNKNOWN
  deriving DecidableEq, Repr

/-- A file system as seen by `std::ifstream`: `none` when the path cannot be
opened, otherwise the bytes of the file. -/
abbrev FileSystem := String → Option (List Byte)

/-! ## Signature constants (FileMetaDataAnalyzer.h, lines 123-129) -/

def JPEGSignature : List Byte := [0xFF, 0xD8, 0xFF]

def PNGSignature : List Byte := [0x89, 0x50, 0x4E, 0x47, 0x0D, 0x0A, 0x1A, 0x0A]

def BMPSignature : List Byte := [0x42, 0x4D]

def PDFSignature : List Byte := [0x25, 0x50, 0x44, 0x46]

def ZIPSignature : List Byte := [0x50, 0x4B, 0x03, 0x04]

def WAVSignature : List Byte := [0x52, 0x49, 0x46, 0x46]

def GIFSignature : List Byte := [0x47, 0x49, 0x46]

/-! ## Library routines used by `determineFileType` -/

/-- The C routine `memcmp(s1, s2, n)`: zero when the first `n` bytes agree,
otherwise the difference of the first pair of bytes that differ.  Both regions
hold at least `n` bytes at every call site, so the last equation is never
reached. -/
def memcmp : List Byte → List Byte → Nat → Int
  | _, _, 0 => 0
  | a :: s1, b :: s2, n + 1 =>
      if a = b then memcmp s1 s2 n else (a.val : Int) - (b.val : Int)
  | _, _, _ + 1 => 0

/-- The call `file.read(dst, count)`: the stream stores the bytes it can
extract, at most `count`, at the start of `dst`; the rest of `dst` is left as
it was. -/
def istreamRead (dst : List Byte) (content : List Byte) (count : Nat) : List Byte :=
  let got := content.take count
  got ++ dst.drop got.length

/-! ## `determineFileType` (FileMetaDataAnalyzer.cpp, lines 331-357) -/

/-- The function `determineFileType`.  `stale` is the content of the
uninitialised array `signature` at the point of its declaration. -/
def determineFileType (fs : FileSystem) (stale : Fin 8 → Byte) (filePath : String) :
    FileType :=
  match fs filePath with
  | none => FileType.UNKNOWN
  | some content =>
    let signature := istreamRead (List.ofFn stale) content 8
    if memcmp signature JPEGSignature JPEGSignature.length = 0 then FileType.JPEG
    else if memcmp signature PNGSignature PNGSignature.length = 0 then FileType.PNG
    else if memcmp signature BMPSignature BMPSignature.length = 0 then FileType.BMP
    else if signature.getD 0 0 = 0x25 ∧ signature.getD 1 0 = 0x50 ∧
        signature.getD 2 0 = 0x44 ∧ signature.getD 3 0 = 0x46 then FileType.PDF
    else if memcmp signature ZIPSignature ZIPSignature.length = 0 then FileType.ZIP
    else if memcmp signature WAVSignature WAVSignature.length = 0 then FileType.WAV
    else if memcmp signature GIFSignature GIFSignature.length = 0 then FileType.GIF
    else FileType.TXT

/-! ## The detection contract in the words of the specification -/

/-- The magic byte table of the specification, in its priority order. -/
def specMagicTable : List (List Byte × FileType) :=
  [ (JPEGSignature, FileType.JPEG),
    (PNGSignature, FileType.PNG),
    (BMPSignature, FileType.BMP),
    (PDFSignature, FileType.PDF),
    (ZIPSignature, FileType.ZIP),
    (WAVSignature, FileType.WAV),
    (GIFSignature, FileType.GIF) ]

/-- The type of the first table entry, in priority order, whose pattern is a
prefix of the given bytes. -/
def specFirstMatch (bytes : List Byte) : Option FileType :=
  (specMagicTable.find? (fun entry => decide (entry.1 <+: bytes))).map (fun entry => entry.2)

/-- The contract `detect` of the specification, on the outcome of opening the
file. -/
def specDetect : Option (List Byte) → FileType
  | none => FileType.UNKNOWN
  | some bytes => (specFirstMatch (bytes.take 8)).getD FileType.TXT

/-- A file system holding a single file. -/
def singleFile (path : String) (content : List Byte) : FileSystem :=
  fun p => if p = path then some content else none

/-- An all-zero buffer. -/
def zeroBuffer : Fin 8 → Byte := fun _ => 0

/-- A buffer that holds the given bytes, zero where the list ends. -/
def bufferOf (bytes : List Byte) : Fin 8 → Byte := fun i => bytes.getD i.val 0

/-! ## `CustomMap` (CustomMap.h) -/

/-- The private `struct Pair` of `CustomMap`. -/
structure Pair (κ : Type) (ν : Type) where
  key : κ
  value : ν
  deriving DecidableEq, Repr

/-- The class `CustomMap`: its only data member is the vector `pairs`. -/
structure CustomMap (κ : Type) (ν : Type) where
  pairs : List (Pair κ ν)
  deriving DecidableEq, Repr

namespace CustomMap

variable {κ ν : Type} [DecidableEq κ]

/-- The default constructor: no pairs. -/
def new : CustomMap κ ν := ⟨[]⟩

/-- The member `find`, which is also the `std::find_if` call that opens
`insert`, `operator[]` and `erase`: the position of the first pair whose key
equals `key`, or `pairs.size()` (the iterator `end()`) when there is none. -/
def find (m : CustomMap κ ν) (key : κ) : Nat :=
  m.pairs.findIdx (fun pair => decide (pair.key = key))

/-- The member `size`. -/
def size (m : CustomMap κ ν) : Nat := m.pairs.length

/-- The member `empty`. -/
def empty (m : CustomMap κ ν) : Bool := m.pairs.isEmpty

/-- The member `insert`. -/
def insert (m : CustomMap κ ν) (key : κ) (value : ν) : CustomMap κ ν :=
  let it := m.find key
  if it ≠ m.pairs.length then
    ⟨m.pairs.modify (fun pair => { pair with value := value }) it⟩
  else
    ⟨m.pairs ++ [⟨key, value⟩]⟩

/-- The member `operator[]`: the map after the call and the slot the returned
reference points to.  A missing key is appended with a value-initialised
`ValueType` and the reference is `pairs.back().value`. -/
def subscript [Inhabited ν] (m : CustomMap κ ν) (key : κ) : CustomMap κ ν × Nat :=
  let it := m.find key
  if it ≠ m.pairs.length then
    (m, it)
  else
    let m1 : CustomMap κ ν := ⟨m.pairs ++ [⟨key, default⟩]⟩
    (m1, m1.pairs.length - 1)

/-- Writing `value` through a reference obtained from `operator[]`. -/
def store (m : CustomMap κ ν) (slot : Nat) (value : ν) : CustomMap κ ν :=
  ⟨m.pairs.modify (fun pair => { pair with value := value }) slot⟩

/-- Reading through a reference obtained from `operator[]`. -/
def load [Inhabited ν] (m : CustomMap κ ν) (slot : Nat) : ν :=
  (m.pairs[slot]?.map (fun pair => pair.value)).getD default

/-- The statement `m[key] = value;`. -/
def assign [Inhabited ν] (m : CustomMap κ ν) (key : κ) (value : ν) : CustomMap κ ν :=
  let r := m.subscript key
  r.1.store r.2 value

/-- The member `erase`. -/
def erase (m : CustomMap κ ν) (key : κ) : CustomMap κ ν :=
  let it := m.find key
  if it ≠ m.pairs.length then ⟨m.pairs.eraseIdx it⟩ else m

/-- The member `clear`. -/
def clear (_m : CustomMap κ ν) : CustomMap κ ν := ⟨[]⟩

/-- The member `operator==`: equality of the two vectors, pairs compared member
by member. -/
def eq [DecidableEq ν] (m other : CustomMap κ ν) : Bool := decide (m.pairs = other.pairs)

/-- The keys in iteration order (`begin()` to `end()`). -/
def keys (m : CustomMap κ ν) : List κ := m.pairs.map (fun pair => pair.key)

/-- Dereferencing `find(key)`: the value stored under `key`, `none` at `end()`. -/
def valueAt (m : CustomMap κ ν) (key : κ) : Option ν :=
  m.pairs[m.find key]?.map (fun pair => pair.value)

end CustomMap

/-- The function `mergeMap` (main.cpp, lines 23-27, and the private static
member of `FileMetaDataAnalyzer`): `dest[key] = value` for every pair of `src`
in iteration order.  `src` is a value of its own, as at every call site. -/
def mergeMap {κ ν : Type} [DecidableEq κ] [Inhabited ν]
    (dest src : CustomMap κ ν) : CustomMap κ ν :=
  src.pairs.foldl (fun d pair => d.assign pair.key pair.value) dest

/-- The call `mergeMap(m, m)`, both parameters bound to the same object: the
range-for walks the very vector that `dest[key] = value` writes to, so the
pair of step `i` is read from the current state.  Every key read this way is
present, hence nothing is appended and the loop makes `size()` steps. -/
def mergeMapAliased {κ ν : Type} [DecidableEq κ] [Inhabited ν]
    (m : CustomMap κ ν) : CustomMap κ ν :=
  (List.range m.size).foldl
    (fun d i =>
      match d.pairs[i]? with
      | some pair => d.assign pair.key pair.value
      | none => d)
    m

/-- The maps a program can build: start from the default-constructed map and
apply the mutating operations of the class and `mergeMap` any number of
times. -/
inductive Reachable {κ ν : Type} [DecidableEq κ] [Inhabited ν] : CustomMap κ ν → Prop
  | new : Reachable CustomMap.new
  | insert {m : CustomMap κ ν} (key : κ) (value : ν) :
      Reachable m → Reachable (m.insert key value)
  | subscript {m : CustomMap κ ν} (key : κ) :
      Reachable m → Reachable (m.subscript key).1
  | assign {m : CustomMap κ ν} (key : κ) (value : ν) :
      Reachable m → Reachable (m.assign key value)
  | erase {m : CustomMap κ ν} (key : κ) :
      Reachable m → Reachable (m.erase key)
  | clear {m : CustomMap κ ν} :
      Reachable m → Reachable m.clear
  | mergeMap {dest src : CustomMap κ ν} :
      Reachable dest → Reachable src → Reachable (mergeMap dest src)

/-- A sequence of `insert(k_i, v_i)` calls applied to a default-constructed
map. -/
def insertAll {κ ν : Type} [DecidableEq κ] (calls : List (κ × ν)) : CustomMap κ ν :=
  calls.foldl (fun m call => m.insert call.1 call.2) CustomMap.new

/-! ## The map contract in the words of the specification -/

/-- The distinct elements of a list in the order of their first occurrence. -/
def specFirstOccurrences {κ : Type} [DecidableEq κ] : List κ → List κ
  | [] => []
  | k :: ks => k :: (specFirstOccurrences ks).filter (fun k1 => decide (k1 ≠ k))

/-- The value of the last call that names `key`. -/
def specLastValue {κ ν : Type} [DecidableEq κ] (calls : List (κ × ν)) (key : κ) : Option ν :=
  (calls.reverse.find? (fun call => decide (call.1 = key))).map (fun call => call.2)

/-! ## List-level forms of `insert` and of dereferencing `find` -/

/-- The list-level form of `insert`: walk to the first pair with the key and
replace its value, or append at the end. -/
def upsert {κ ν : Type} [DecidableEq κ] : List (Pair κ ν) → κ → ν → List (Pair κ ν)
  | [], key, value => [⟨key, value⟩]
  | pair :: rest, key, value =>
      if pair.key = key then { pair with value := value } :: rest
      else pair :: upsert rest key value

/-- The list-level form of dereferencing `find`: the value of the first pair
with the key. -/
def lookup {κ ν : Type} [DecidableEq κ] : List (Pair κ ν) → κ → Option ν
  | [], _ => none
  | pair :: rest, key => if pair.key = key then some pair.value else lookup rest key

/-! ## Outcomes of a call -/

/-- How a call ends: it returns a value; it is left by a `std::runtime_error`,
the class `custom_assert` throws (its `what()` is kept); it is left by an
exception of another class thrown inside the standard library
(`std::logic_error`, `std::length_error`, `std::bad_alloc`; its `what()` is
kept); or the process faults on an invalid memory access. -/
inductive Outcome (α : Type) where
  | returned (value : α)
  | raised (what : String)
  | libraryError (what : String)
  | crashed
  deriving DecidableEq, Repr

/-- Sequencing: the rest of the computation runs only when the first part
returns. -/
def Outcome.bind {α β : Type} : Outcome α → (α → Outcome β) → Outcome β
  | Outcome.returned value, f => f value
  | Outcome.raised what, _ => Outcome.raised what
  | Outcome.libraryError what, _ => Outcome.libraryError what
  | Outcome.crashed, _ => Outcome.crashed

/-- The function `custom_assert` (FileMetaDataAnalyzer.cpp, lines 61-69): it
throws `std::runtime_error("Assertion failed")` when the condition is false. -/
def custom_assert (condition : Bool) (_message : String) : Outcome Unit :=
  if condition then Outcome.returned () else Outcome.raised "Assertion failed"

/-! ## Library routines used by the decoders -/

/-- The characters of `path::filename()`: what follows the last directory
separator. -/
def filenameChars (path : List Char) : List Char :=
  (path.reverse.takeWhile (fun c => decide (c ≠ '/'))).reverse

/-- The characters of `path::extension()` for a given filename: from the
rightmost period to the end; empty for the names dot and dot-dot, for a name
without a period and for a name whose only period is its first character. -/
def extensionChars (name : List Char) : List Char :=
  if name = ['.'] ∨ name = ['.', '.'] then []
  else
    let afterPeriod := (name.reverse.takeWhile (fun c => decide (c ≠ '.'))).reverse
    if afterPeriod.length = name.length then []
    else if afterPeriod.length + 1 = name.length then []
    else '.' :: afterPeriod

/-- The call `filePath.filename().string()`. -/
def pathFilename (filePath : String) : String :=
  String.mk (filenameChars filePath.data)

/-- The call `filePath.extension().string()`. -/
def pathExtension (filePath : String) : String :=
  String.mk (extensionChars (filenameChars filePath.data))

/-- The value of a little-endian byte sequence, the native integer layout of
the hosts the model describes. -/
def le : List Byte → Nat
  | [] => 0
  | b :: rest => b.val + 256 * le rest

/-- The bytes of an object from `offset` on, `size` of them. -/
def field (memory : List Byte) (offset size : Nat) : List Byte :=
  (memory.drop offset).take size

/-- The value of a 32-bit pattern read as `int32_t`. -/
def toInt32 (n : Nat) : Int :=
  if n < 2 ^ 31 then (n : Int) else (n : Int) - 2 ^ 32

/-- The routine `std::to_string` on an unsigned value: its decimal text. -/
def to_string (n : Nat) : String := toString n

/-- The routine `std::to_string` on a signed value: its decimal text. -/
def to_string_int (i : Int) : String := toString i

/-- The constructor `std::string(ptr, count)` on raw bytes: one character per
byte. -/
def bytesToString (bytes : List Byte) : String :=
  String.mk (bytes.map (fun b => Char.ofNat b.val))

/-- An object declared without an initialiser: `size` bytes of whatever the
storage held. -/
def uninitialised (garbage : Nat → Byte) (size : Nat) : List Byte :=
  (List.range size).map garbage

/-! ## Layout of the header structs

The structs of FileMetaDataAnalyzer.h carry no packing directive, so every
member sits at the next multiple of its alignment and the size of the struct
is rounded up to the largest member alignment.  On the hosts the model
describes the alignment of a 1, 2 or 4 byte scalar is its size. -/

/-- A data member: the size of its scalar type and the number of elements (one
for a scalar, the bound for an array). -/
structure Member where
  size : Nat
  count : Nat
  deriving DecidableEq, Repr

/-- The least multiple of `align` that is not below `offset`. -/
def alignUp (offset align : Nat) : Nat :=
  (offset + align - 1) / align * align

/-- The offsets of the members laid out one after the other from `cur`. -/
def layoutFrom (alignof : Nat → Nat) : Nat → List Member → List Nat
  | _, [] => []
  | cur, m :: rest =>
      let offset := alignUp cur (alignof m.size)
      offset :: layoutFrom alignof (offset + m.size * m.count) rest

/-- The offset just behind the last member. -/
def layoutEnd (alignof : Nat → Nat) : Nat → List Member → Nat
  | cur, [] => cur
  | cur, m :: rest =>
      layoutEnd alignof (alignUp cur (alignof m.size) + m.size * m.count) rest

/-- The size of a struct under a given alignment rule. -/
def sizeofWith (alignof : Nat → Nat) (members : List Member) : Nat :=
  alignUp (layoutEnd alignof 0 members)
    ((members.map (fun m => alignof m.size)).foldl max 1)

/-- The alignment rule of the compiler: a scalar is aligned to its size. -/
def naturalAlign (size : Nat) : Nat := size

/-- The alignment rule a packing directive would give: no padding at all. -/
def packedAlign (_size : Nat) : Nat := 1

/-- The operator `offsetof`, for the member number `i` of a struct. -/
def offsetof (members : List Member) (i : Nat) : Nat :=
  (layoutFrom naturalAlign 0 members).getD i 0

/-- The operator `sizeof` on a struct. -/
def sizeof (members : List Member) : Nat := sizeofWith naturalAlign members

/-- The bytes of member number `i` inside an object of the struct. -/
def memberBytes (members : List Member) (object : List Byte) (i : Nat) : List Byte :=
  match members.get? i with
  | some m => field object (offsetof members i) (m.size * m.count)
  | none => []

/-- The value of the integer member number `i` inside an object of the
struct. -/
def memberValue (members : List Member) (object : List Byte) (i : Nat) : Nat :=
  le (memberBytes members object i)

/-- The members of `struct JPEGHeader`: marker, length, identifier[5], version,
units, xDensity, yDensity, thumbWidth, thumbHeight. -/
def JPEGHeader.members : List Member :=
  [⟨2, 1⟩, ⟨2, 1⟩, ⟨1, 5⟩, ⟨2, 1⟩, ⟨1, 1⟩, ⟨2, 1⟩, ⟨2, 1⟩, ⟨1, 1⟩, ⟨1, 1⟩]

/-- The members of `struct PNGHeader`: signature[8], width, height. -/
def PNGHeader.members : List Member :=
  [⟨1, 8⟩, ⟨4, 1⟩, ⟨4, 1⟩]

/-- The members of `struct BMPHeader`: signature[2], fileSize, reserved1,
reserved2, dataOffset, headerSize, width, height, planes, bitCount,
compression, imageSize, xPixelsPerMeter, yPixelsPerMeter, colorsUsed,
colorsImportant. -/
def BMPHeader.members : List Member :=
  [⟨1, 2⟩, ⟨4, 1⟩, ⟨2, 1⟩, ⟨2, 1⟩, ⟨4, 1⟩, ⟨4, 1⟩, ⟨4, 1⟩, ⟨4, 1⟩, ⟨2, 1⟩, ⟨2, 1⟩, ⟨4, 1⟩,
    ⟨4, 1⟩, ⟨4, 1⟩, ⟨4, 1⟩, ⟨4, 1⟩, ⟨4, 1⟩]

/-- The members of `struct ZIPHeader`: signature, versionMadeBy, versionNeeded,
flags, compressionMethod, lastModTime, lastModDate, crc32, compressedSize,
uncompressedSize, fileNameLength, extraFieldLength. -/
def ZIPHeader.members : List Member :=
  [⟨4, 1⟩, ⟨2, 1⟩, ⟨2, 1⟩, ⟨2, 1⟩, ⟨2, 1⟩, ⟨2, 1⟩, ⟨2, 1⟩, ⟨4, 1⟩, ⟨4, 1⟩, ⟨4, 1⟩, ⟨2, 1⟩,
    ⟨2, 1⟩]

/-- The members of `struct WAVHeader`: riffTag[4], riffSize, waveTag[4],
fmtTag[4], fmtSize, audioFormat, numChannels, sampleRate, byteRate, blockAlign,
bitsPerSample, dataTag[4], dataSize. -/
def WAVHeader.members : List Member :=
  [⟨1, 4⟩, ⟨4, 1⟩, ⟨1, 4⟩, ⟨1, 4⟩, ⟨4, 1⟩, ⟨2, 1⟩, ⟨2, 1⟩, ⟨4, 1⟩, ⟨4, 1⟩, ⟨2, 1⟩, ⟨2, 1⟩,
    ⟨1, 4⟩, ⟨4, 1⟩]

/-- The members of `struct GIFHeader`: signature[3], version[3]. -/
def GIFHeader.members : List Member :=
  [⟨1, 3⟩, ⟨1, 3⟩]

/-- The members of `struct LogicalScreenDescriptor`: width, height,
packedFields, backgroundColorIndex, pixelAspectRatio. -/
def LogicalScreenDescriptor.members : List Member :=
  [⟨2, 1⟩, ⟨2, 1⟩, ⟨1, 1⟩, ⟨1, 1⟩, ⟨1, 1⟩]

/-! ## The environment of a run -/

/-- The map type of the engine, `CustomMap<std::string, std::string>`. -/
abbrev Metadata := CustomMap String String

/-- The fields of `struct stat` that `extractBasicMetadata` reads. -/
structure StatBuf where
  st_size : Nat
  st_ctime : Nat
  st_mtime : Nat
  st_atime : Nat
  deriving DecidableEq, Repr

/-- What the accessors of a loaded `poppler::document` return.  The six text
values reach the map only through strings built from two temporaries, see
`World.mixedRange`. -/
structure PdfDocument where
  is_locked : Bool
  title : String
  author : String
  subject : String
  keywords : String
  creator : String
  producer : String
  creation_date : Nat
  modification_date : Nat
  deriving DecidableEq, Repr

/-- What the libzip calls on an opened archive return: `zip_stat` on the empty
name (the size on success), `zip_get_archive_comment` (the comment and the
length it reports) and `zip_fopen_index` on entry 0 (the entry's data). -/
structure ZipArchive where
  stat : Option Nat
  comment : List Byte
  commentLength : Int
  firstEntry : Option (List Byte)
  deriving DecidableEq, Repr

/-- What `std::string(a.begin(), b.end())` does when `a` and `b` are two
distinct temporaries (FileMetaDataAnalyzer.cpp, lines 111-116).  The distance
between the two iterators is the distance between two unrelated buffers:
negative or too large, the constructor throws; otherwise it copies whatever
lies between them, or faults on the way. -/
inductive RangeResult where
  /-- The constructor returns a string. -/
  | text (value : String)
  /-- The constructor throws (`std::length_error`, `std::bad_alloc`). -/
  | exception (what : String)
  /-- The copy reads storage that is not mapped. -/
  | fault
  deriving DecidableEq, Repr

/-- Everything outside the program that a run depends on: the file system, the
operating system, the two external libraries, and the content of storage that
the program reads without having written it. -/
structure World where
  /-- Opening a path with `std::ifstream`. -/
  fs : FileSystem
  /-- The call `stat(path, &fileStat)`, `none` when it fails. -/
  stat : String → Option StatBuf
  /-- The content of `fileStat` when `stat` did not fill it. -/
  statGarbage : String → StatBuf
  /-- The routine `std::ctime`, `none` for a null result (a time it cannot
  render). -/
  ctime : Nat → Option String
  /-- The text `what()` of the `std::logic_error` thrown when a `std::string`
  is built from a null pointer. -/
  nullStringWhat : String
  /-- For a path and a key of the PDF decoder, what building the string from
  the iterators of two temporaries does. -/
  mixedRange : String → String → RangeResult
  /-- The content of the array `signature` before the read. -/
  signatureGarbage : String → Fin 8 → Byte
  /-- The content of a local header object before the read. -/
  headerGarbage : String → Nat → Byte
  /-- The call `poppler::document::load_from_file`, `none` for a null result. -/
  pdf : String → Option PdfDocument
  /-- The call `zip_open`, `none` for a null result. -/
  zip : String → Option ZipArchive
  /-- Reading `count` bytes at an address the program made up from an integer,
  `none` when the access faults. -/
  peek : Nat → Nat → Option (List Byte)
  /-- A path that opens names an existing file, so `stat` succeeds on it. -/
  stat_of_open : ∀ filePath, fs filePath ≠ none → stat filePath ≠ none
  /-- The times `stat` reports for an existing file are rendered by
  `std::ctime`. -/
  ctime_of_stat : ∀ filePath fileStat, stat filePath = some fileStat →
    ctime fileStat.st_ctime ≠ none ∧ ctime fileStat.st_mtime ≠ none ∧
      ctime fileStat.st_atime ≠ none

/-- The template arguments accepted by the concept `FileHeader`. -/
inductive HeaderType where
  | BasicMetadata
  | popplerDocument
  | ifstream
  | JPEGHeader
  | PNGHeader
  | BMPHeader
  | ZIPHeader
  | WAVHeader
  | GIFHeader
  | LogicalScreenDescriptor
  deriving DecidableEq, Repr

/-! ## Stream operations used by the text decoder -/

/-- An input stream: the bytes not yet consumed and whether `good()` holds. -/
structure IStream where
  rest : List Byte
  good : Bool
  deriving DecidableEq, Repr

/-- The statement `buffer << file.rdbuf()`: the stream buffer is emptied into
`buffer`; the state flags of `file` are not touched. -/
def IStream.drain (file : IStream) : List Byte × IStream :=
  (file.rest, { rest := [], good := file.good })

/-- The call `std::getline(file, line)`: when the stream is not good the
string is left as it is; otherwise the string is erased and filled up to the
next newline, which is consumed; reaching the end of the input sets
`eofbit`, and extracting nothing sets `failbit` as well. -/
def getline (file : IStream) (line : List Byte) : List Byte × IStream :=
  if file.good then
    let text := file.rest.takeWhile (fun b => decide (b ≠ 10))
    match file.rest.dropWhile (fun b => decide (b ≠ 10)) with
    | [] => (text, { rest := [], good := false })
    | _ :: rest => (text, { rest := rest, good := true })
  else (line, file)

/-! ## The decoders: `analyzeMetadataHelper` (FileMetaDataAnalyzer.cpp, lines 80-320) -/

/-- The struct `BasicMetadata`. -/
structure BasicMetadata where
  fileName : String
  fileSize : String
  fileType : String
  creationTime : String
  lastModified : String
  lastAccess : String
  deriving DecidableEq, Repr

/-- The conversion of a `char*` to `std::string`: a null pointer makes the
constructor throw `std::logic_error`. -/
def stringFromPointer (w : World) : Option String → Outcome String
  | some text => Outcome.returned text
  | none => Outcome.libraryError w.nullStringWhat

/-- The function `extractBasicMetadata` (lines 16-46).  The object `fileStat`
has no initialiser: when `stat` fails the three calls of `std::ctime` read
what the storage held. -/
def extractBasicMetadata (w : World) (filePath : String) : Outcome BasicMetadata :=
  let status := w.stat filePath
  let fileStat := status.getD (w.statGarbage filePath)
  let fileSize :=
    match status with
    | some st => to_string st.st_size ++ " bytes"
    | none => ""
  (stringFromPointer w (w.ctime fileStat.st_ctime)).bind fun creationTime =>
  (stringFromPointer w (w.ctime fileStat.st_mtime)).bind fun lastModified =>
  (stringFromPointer w (w.ctime fileStat.st_atime)).bind fun lastAccess =>
  Outcome.returned
    { fileName := pathFilename filePath
      fileSize := fileSize
      fileType := pathExtension filePath
      creationTime := creationTime
      lastModified := lastModified
      lastAccess := lastAccess }

/-- A local header object after `file.read(&header, sizeof(header))`. -/
def readHeader (w : World) (filePath : String) (content : List Byte)
    (members : List Member) : List Byte :=
  istreamRead (uninitialised (w.headerGarbage filePath) (sizeof members)) content
    (sizeof members)

/-- The branch for `BasicMetadata` (lines 85-100). -/
def analyzeBasic (w : World) (filePath : String) : Outcome Metadata :=
  (extractBasicMetadata w filePath).bind fun basicMetadata =>
  Outcome.returned
    ((((((CustomMap.new.assign "FileName" basicMetadata.fileName).assign
      "FileSize" basicMetadata.fileSize).assign
      "FileType" basicMetadata.fileType).assign
      "CreationTime" basicMetadata.creationTime).assign
      "LastModified" basicMetadata.lastModified).assign
      "LastAccess" basicMetadata.lastAccess)

/-- The expression `std::string(doc->get_x().begin(), doc->get_x().end())` for
the key `key`: each call of the accessor returns a temporary of its own, so
the range runs from one buffer to another. -/
def stringFromMixedRange (w : World) (filePath key : String) : Outcome String :=
  match w.mixedRange filePath key with
  | RangeResult.text value => Outcome.returned value
  | RangeResult.exception what => Outcome.libraryError what
  | RangeResult.fault => Outcome.crashed

/-- The branch for `poppler::document` (lines 101-120).  The six text values
are built by `stringFromMixedRange`, one statement after the other.  The two
dates are integers; assigning one to a `std::string` stores the single
character with that code. -/
def analyzePDF (w : World) (filePath : String) : Outcome Metadata :=
  (custom_assert (decide (pathExtension filePath = ".pdf"))
    "Unexpected file extension for PDF metadata").bind fun _ =>
  match w.pdf filePath with
  | none => Outcome.returned CustomMap.new
  | some doc =>
    if doc.is_locked then Outcome.returned CustomMap.new
    else
      (stringFromMixedRange w filePath "Title").bind fun title =>
      (stringFromMixedRange w filePath "Author").bind fun author =>
      (stringFromMixedRange w filePath "Subject").bind fun subject =>
      (stringFromMixedRange w filePath "Keywords").bind fun keywords =>
      (stringFromMixedRange w filePath "Creator").bind fun creator =>
      (stringFromMixedRange w filePath "Producer").bind fun producer =>
      Outcome.returned
        (((((((((CustomMap.new.assign "Title" title).assign
          "Author" author).assign
          "Subject" subject).assign
          "Keywords" keywords).assign
          "Creator" creator).assign
          "Producer" producer).assign
          "CreationDate" (String.mk [Char.ofNat (doc.creation_date % 256)])).assign
          "ModificationDate" (String.mk [Char.ofNat (doc.modification_date % 256)])).assign
          "FileType" "PDF")

/-- The branch for `std::ifstream` (lines 121-151). -/
def analyzeTXT (w : World) (filePath : String) : Outcome Metadata :=
  (custom_assert (decide (pathExtension filePath = ".txt"))
    "Unexpected file extension for TXT metadata").bind fun _ =>
  match w.fs filePath with
  | none => Outcome.returned CustomMap.new
  | some content =>
    let file : IStream := { rest := content, good := true }
    let drained := file.drain
    let fileContent := drained.1
    let first := getline drained.2 []
    let metadata1 : Metadata :=
      if first.1 ≠ [] then CustomMap.new.assign "Title" (bytesToString first.1)
      else CustomMap.new
    let second := getline first.2 first.1
    let metadata2 : Metadata :=
      if second.1 ≠ [] then metadata1.assign "Author" (bytesToString second.1)
      else metadata1
    Outcome.returned
      (((metadata2.assign "FileName" (pathFilename filePath)).assign
        "FileSize" (to_string fileContent.length ++ " bytes")).assign
        "FileType" "TXT")

/-- The branch for `JPEGHeader` (lines 152-175). -/
def analyzeJPEG (w : World) (filePath : String) : Outcome Metadata :=
  (custom_assert (decide (pathExtension filePath = ".jpg"))
    "Unexpected file extension for JPEG metadata").bind fun _ =>
  match w.fs filePath with
  | none => Outcome.returned CustomMap.new
  | some content =>
    let header := readHeader w filePath content JPEGHeader.members
    Outcome.returned
      ((((((((((CustomMap.new.assign "FileType" "JPEG").assign
        "Marker" (to_string (memberValue JPEGHeader.members header 0))).assign
        "Length" (to_string (memberValue JPEGHeader.members header 1))).assign
        "Identifier" (bytesToString (memberBytes JPEGHeader.members header 2))).assign
        "Version" (to_string (memberValue JPEGHeader.members header 3))).assign
        "Units" (to_string (memberValue JPEGHeader.members header 4))).assign
        "XDensity" (to_string (memberValue JPEGHeader.members header 5))).assign
        "YDensity" (to_string (memberValue JPEGHeader.members header 6))).assign
        "ThumbnailWidth" (to_string (memberValue JPEGHeader.members header 7))).assign
        "ThumbnailHeight" (to_string (memberValue JPEGHeader.members header 8)))

/-- The branch for `PNGHeader` (lines 176-192). -/
def analyzePNG (w : World) (filePath : String) : Outcome Metadata :=
  (custom_assert (decide (pathExtension filePath = ".png"))
    "Unexpected file extension for PNG metadata").bind fun _ =>
  match w.fs filePath with
  | none => Outcome.returned CustomMap.new
  | some content =>
    let header := readHeader w filePath content PNGHeader.members
    Outcome.returned
      ((((CustomMap.new.assign "FileType" "PNG").assign
        "Signature" (bytesToString (memberBytes PNGHeader.members header 0))).assign
        "Width" (to_string (memberValue PNGHeader.members header 1))).assign
        "Height" (to_string (memberValue PNGHeader.members header 2)))

/-- The branch for `BMPHeader` (lines 193-211). -/
def analyzeBMP (w : World) (filePath : String) : Outcome Metadata :=
  (custom_assert (decide (pathExtension filePath = ".bmp"))
    "Unexpected file extension for BMP metadata").bind fun _ =>
  match w.fs filePath with
  | none => Outcome.returned CustomMap.new
  | some content =>
    let header := readHeader w filePath content BMPHeader.members
    Outcome.returned
      (((((CustomMap.new.assign "FileType" "BMP").assign
        "Signature" (bytesToString (memberBytes BMPHeader.members header 0))).assign
        "FileSize" (to_string (memberValue BMPHeader.members header 1))).assign
        "Width" (to_string_int (toInt32 (memberValue BMPHeader.members header 6)))).assign
        "Height" (to_string_int (toInt32 (memberValue BMPHeader.members header 7))))

/-- The branch for `ZIPHeader` (lines 212-256).  The file name is built by
`std::string(reinterpret_cast<char*>(header.fileNameLength + 1),
header.fileNameLength)`: the integer itself serves as the address; with a
count of zero nothing is read. -/
def analyzeZIP (w : World) (filePath : String) : Outcome Metadata :=
  (custom_assert (decide (pathExtension filePath = ".zip"))
    "Unexpected file extension for ZIP metadata").bind fun _ =>
  match w.zip filePath with
  | none => Outcome.returned CustomMap.new
  | some zip =>
    let metadata1 : Metadata :=
      match zip.stat with
      | some size =>
          (CustomMap.new.assign "FileType" "ZIP").assign "FileSize" (to_string size ++ " bytes")
      | none => CustomMap.new
    let metadata2 : Metadata :=
      if zip.commentLength > 0 then
        metadata1.assign "Comment" (bytesToString (zip.comment.take zip.commentLength.toNat))
      else metadata1
    match zip.firstEntry with
    | none => Outcome.returned metadata2
    | some data =>
      let header :=
        istreamRead (uninitialised (w.headerGarbage filePath) (sizeof ZIPHeader.members)) data
          (sizeof ZIPHeader.members)
      let fileNameLength := memberValue ZIPHeader.members header 10
      let name : Option (List Byte) :=
        if fileNameLength = 0 then some [] else w.peek (fileNameLength + 1) fileNameLength
      match name with
      | none => Outcome.crashed
      | some nameBytes =>
        Outcome.returned
          (((((((metadata2.assign "FileName" (bytesToString nameBytes)).assign
            "CompressedSize"
              (to_string (memberValue ZIPHeader.members header 8) ++ " bytes")).assign
            "CompressionMethod" (to_string (memberValue ZIPHeader.members header 4))).assign
            "LastModificationTime" (to_string (memberValue ZIPHeader.members header 5))).assign
            "LastModificationDate" (to_string (memberValue ZIPHeader.members header 6))).assign
            "CRC32" (to_string (memberValue ZIPHeader.members header 7))).assign
            "UncompressedSize"
              (to_string (memberValue ZIPHeader.members header 9) ++ " bytes"))

/-- The branch for `WAVHeader` (lines 257-284). -/
def analyzeWAV (w : World) (filePath : String) : Outcome Metadata :=
  (custom_assert (decide (pathExtension filePath = ".wav"))
    "Unexpected file extension for WAV metadata").bind fun _ =>
  match w.fs filePath with
  | none => Outcome.returned CustomMap.new
  | some content =>
    let header := readHeader w filePath content WAVHeader.members
    Outcome.returned
      ((((((((((((((CustomMap.new.assign "FileType" "WAV").assign
        "RIFFTag" (bytesToString (memberBytes WAVHeader.members header 0))).assign
        "RIFFSize" (to_string (memberValue WAVHeader.members header 1))).assign
        "WAVETag" (bytesToString (memberBytes WAVHeader.members header 2))).assign
        "FMTTag" (bytesToString (memberBytes WAVHeader.members header 3))).assign
        "FMTSize" (to_string (memberValue WAVHeader.members header 4))).assign
        "AudioFormat" (to_string (memberValue WAVHeader.members header 5))).assign
        "NumChannels" (to_string (memberValue WAVHeader.members header 6))).assign
        "SampleRate" (to_string (memberValue WAVHeader.members header 7))).assign
        "ByteRate" (to_string (memberValue WAVHeader.members header 8))).assign
        "BlockAlign" (to_string (memberValue WAVHeader.members header 9))).assign
        "BitsPerSample" (to_string (memberValue WAVHeader.members header 10))).assign
        "DataTag" (bytesToString (memberBytes WAVHeader.members header 11))).assign
        "DataSize" (to_string (memberValue WAVHeader.members header 12)))

/-- The branch for `GIFHeader` (lines 285-301). -/
def analyzeGIF (w : World) (filePath : String) : Outcome Metadata :=
  (custom_assert (decide (pathExtension filePath = ".gif"))
    "Unexpected file extension for GIF metadata").bind fun _ =>
  match w.fs filePath with
  | none => Outcome.returned CustomMap.new
  | some content =>
    let header := readHeader w filePath content GIFHeader.members
    Outcome.returned
      (((CustomMap.new.assign "FileType" "GIF").assign
        "Signature" (bytesToString (memberBytes GIFHeader.members header 0))).assign
        "Version" (bytesToString (memberBytes GIFHeader.members header 1)))

/-- The function `readGifLogicalScreenDescriptor` (lines 48-59): `none` for
the result `false`, otherwise the object `lsd` after the read. -/
def readGifLogicalScreenDescriptor (w : World) (filePath : String) : Option (List Byte) :=
  match w.fs filePath with
  | none => none
  | some content => some (readHeader w filePath content LogicalScreenDescriptor.members)

/-- The branch for `LogicalScreenDescriptor` (lines 302-317). -/
def analyzeLSD (w : World) (filePath : String) : Outcome Metadata :=
  (custom_assert (decide (pathExtension filePath = ".gif"))
    "Unexpected file extension for GIF metadata").bind fun _ =>
  match readGifLogicalScreenDescriptor w filePath with
  | none => Outcome.returned CustomMap.new
  | some lsd =>
    Outcome.returned
      ((((((CustomMap.new.assign "FileType" "GIF").assign
        "Width" (to_string (memberValue LogicalScreenDescriptor.members lsd 0))).assign
        "Height" (to_string (memberValue LogicalScreenDescriptor.members lsd 1))).assign
        "PackedFields" (to_string (memberValue LogicalScreenDescriptor.members lsd 2))).assign
        "BackgroundColorIndex"
          (to_string (memberValue LogicalScreenDescriptor.members lsd 3))).assign
        "PixelAspectRatio" (to_string (memberValue LogicalScreenDescriptor.members lsd 4)))

/-- The function template `analyzeMetadataHelper<T>`. -/
def analyzeMetadataHelper (w : World) (T : HeaderType) (filePath : String) :
    Outcome Metadata :=
  match T with
  | HeaderType.BasicMetadata => analyzeBasic w filePath
  | HeaderType.popplerDocument => analyzePDF w filePath
  | HeaderType.ifstream => analyzeTXT w filePath
  | HeaderType.JPEGHeader => analyzeJPEG w filePath
  | HeaderType.PNGHeader => analyzePNG w filePath
  | HeaderType.BMPHeader => analyzeBMP w filePath
  | HeaderType.ZIPHeader => analyzeZIP w filePath
  | HeaderType.WAVHeader => analyzeWAV w filePath
  | HeaderType.GIFHeader => analyzeGIF w filePath
  | HeaderType.LogicalScreenDescriptor => analyzeLSD w filePath

/-! ## The coordinator and the command line -/

/-- The member `FileMetaDataAnalyzer<T...>::analyzeMetadata`
(FileMetaDataAnalyzer.h, lines 198-203): the comma fold runs the helpers from
left to right and merges each result into `metadata`. -/
def analyzeMetadata (w : World) (Ts : List HeaderType) (filePath : String) :
    Outcome Metadata :=
  Ts.foldl
    (fun acc T =>
      acc.bind fun metadata =>
        (analyzeMetadataHelper w T filePath).bind fun result =>
          Outcome.returned (mergeMap metadata result))
    (Outcome.returned CustomMap.new)

/-- The `switch (fileType)` of `main` (main.cpp, lines 59-98), entered with the
map built so far: the map after the selected case, or `none` after the
`default` case. -/
def switchFileType (w : World) (fileType : FileType) (metadata : Metadata)
    (filePath : String) : Outcome (Option Metadata) :=
  match fileType with
  | FileType.PDF =>
      (analyzeMetadata w [HeaderType.popplerDocument] filePath).bind fun first =>
        let _merged := mergeMap metadata first
        (analyzeMetadata w [HeaderType.popplerDocument] filePath).bind fun second =>
          Outcome.returned (some second)
  | FileType.TXT =>
      (analyzeMetadata w [HeaderType.ifstream] filePath).bind fun result =>
        Outcome.returned (some (mergeMap metadata result))
  | FileType.JPEG =>
      (analyzeMetadata w [HeaderType.JPEGHeader] filePath).bind fun result =>
        Outcome.returned (some (mergeMap metadata result))
  | FileType.PNG =>
      (analyzeMetadata w [HeaderType.PNGHeader] filePath).bind fun result =>
        Outcome.returned (some (mergeMap metadata result))
  | FileType.BMP =>
      (analyzeMetadata w [HeaderType.BMPHeader] filePath).bind fun result =>
        Outcome.returned (some (mergeMap metadata result))
  | FileType.ZIP =>
      (analyzeMetadata w [HeaderType.ZIPHeader] filePath).bind fun result =>
        Outcome.returned (some (mergeMap metadata result))
  | FileType.WAV =>
      (analyzeMetadata w [HeaderType.WAVHeader] filePath).bind fun result =>
        Outcome.returned (some (mergeMap metadata result))
  | FileType.GIF =>
      (analyzeMetadata w [HeaderType.GIFHeader, HeaderType.LogicalScreenDescriptor]
        filePath).bind fun result =>
        Outcome.returned (some (mergeMap metadata result))
  | FileType.UNKNOWN => Outcome.returned none

/-- How one iteration of the loop of `main` ends. -/
inductive FileResult where
  /-- The call `printMetadata(metadata)` is reached; the loop goes on. -/
  | printed (metadata : Metadata)
  /-- An exception is caught, `e.what()` is written to `std::cerr` and the
  `continue` statement is taken. -/
  | caught (what : String)
  /-- The `default` case: "Unsupported file format." is written to `std::cerr`
  and `main` executes `return 1`. -/
  | unsupported
  /-- The process ends abnormally. -/
  | crashed
  deriving DecidableEq, Repr

/-- One iteration of the loop of `main` (main.cpp, lines 34-107) for the path
`filePath` and the number `choice` read from `std::cin`. -/
def processFile (w : World) (filePath : String) (choice : Int) : FileResult :=
  let fileType := determineFileType w.fs (w.signatureGarbage filePath) filePath
  let basic : Outcome Metadata :=
    if choice = 1 ∨ choice = 3 then analyzeMetadata w [HeaderType.BasicMetadata] filePath
    else Outcome.returned CustomMap.new
  match basic with
  | Outcome.raised _ => FileResult.crashed
  | Outcome.libraryError _ => FileResult.crashed
  | Outcome.crashed => FileResult.crashed
  | Outcome.returned metadata =>
    if choice = 2 ∨ choice = 3 then
      match switchFileType w fileType metadata filePath with
      | Outcome.returned (some result) => FileResult.printed result
      | Outcome.returned none => FileResult.unsupported
      | Outcome.raised what => FileResult.caught what
      | Outcome.libraryError what => FileResult.caught what
      | Outcome.crashed => FileResult.crashed
    else FileResult.printed metadata

/-- How the process ends. -/
inductive Exit where
  | status (code : Nat)
  | abnormal
  deriving DecidableEq, Repr

/-- The loop of `main` over the paths of the command line, each with the
choice entered for it: what happened to the files that were processed, and
how the process ended. -/
def runLoop (w : World) : List (String × Int) → List FileResult × Exit
  | [] => ([], Exit.status 0)
  | (filePath, choice) :: rest =>
      match processFile w filePath choice with
      | FileResult.printed metadata =>
          let later := runLoop w rest
          (FileResult.printed metadata :: later.1, later.2)
      | FileResult.caught what =>
          let later := runLoop w rest
          (FileResult.caught what :: later.1, later.2)
      | FileResult.unsupported => ([FileResult.unsupported], Exit.status 1)
      | FileResult.crashed => ([FileResult.crashed], Exit.abnormal)

/-- The function `main`: without a path it prints the usage line and returns
1. -/
def main (w : World) (args : List (String × Int)) : List FileResult × Exit :=
  if args.isEmpty then ([], Exit.status 1) else runLoop w args

/-! ## The decoder contract in the words of the specification -/

/-- The extension each format decoder asserts; the Basic decoder asserts
none. -/
def expectedExtension : HeaderType → Option String
  | HeaderType.BasicMetadata => none
  | HeaderType.popplerDocument => some ".pdf"
  | HeaderType.ifstream => some ".txt"
  | HeaderType.JPEGHeader => some ".jpg"
  | HeaderType.PNGHeader => some ".png"
  | HeaderType.BMPHeader => some ".bmp"
  | HeaderType.ZIPHeader => some ".zip"
  | HeaderType.WAVHeader => some ".wav"
  | HeaderType.GIFHeader => some ".gif"
  | HeaderType.LogicalScreenDescriptor => some ".gif"

/-- The struct a fixed-header decoder reads from the start of the file; `none`
for the decoders that read no such struct from the file. -/
def fixedHeader : HeaderType → Option (List Member)
  | HeaderType.JPEGHeader => some JPEGHeader.members
  | HeaderType.PNGHeader => some PNGHeader.members
  | HeaderType.BMPHeader => some BMPHeader.members
  | HeaderType.WAVHeader => some WAVHeader.members
  | HeaderType.GIFHeader => some GIFHeader.members
  | HeaderType.LogicalScreenDescriptor => some LogicalScreenDescriptor.members
  | _ => none

/-- The field list the specification gives for each fixed-header decoder. -/
def specFieldList : HeaderType → List String
  | HeaderType.JPEGHeader =>
      ["FileType", "Marker", "Length", "Identifier", "Version", "Units", "XDensity",
        "YDensity", "ThumbnailWidth", "ThumbnailHeight"]
  | HeaderType.PNGHeader => ["FileType", "Signature", "Width", "Height"]
  | HeaderType.BMPHeader => ["FileType", "Signature", "FileSize", "Width", "Height"]
  | HeaderType.WAVHeader =>
      ["FileType", "RIFFTag", "RIFFSize", "WAVETag", "FMTTag", "FMTSize", "AudioFormat",
        "NumChannels", "SampleRate", "ByteRate", "BlockAlign", "BitsPerSample", "DataTag",
        "DataSize"]
  | HeaderType.GIFHeader => ["FileType", "Signature", "Version"]
  | HeaderType.LogicalScreenDescriptor =>
      ["FileType", "Width", "Height", "PackedFields", "BackgroundColorIndex",
        "PixelAspectRatio"]
  | _ => []

/-- The format tag the specification gives for each fixed-header decoder. -/
def specFormatTag : HeaderType → String
  | HeaderType.JPEGHeader => "JPEG"
  | HeaderType.PNGHeader => "PNG"
  | HeaderType.BMPHeader => "BMP"
  | HeaderType.WAVHeader => "WAV"
  | HeaderType.GIFHeader => "GIF"
  | HeaderType.LogicalScreenDescriptor => "GIF"
  | _ => ""

/-- The value of a big-endian byte sequence, the order in which the PNG format
stores its integers. -/
def be (bytes : List Byte) : Nat := le bytes.reverse

/-! ## Sample environments -/

/-- An environment in which only the file system holds anything: `stat`
succeeds on the paths that open (the size is the length of the content, the
three times are zero), `std::ctime` renders every time, both libraries fail,
a string built from two temporaries throws, and unwritten storage reads as
zero. -/
def worldOf (fs : FileSystem) : World :=
  { fs := fs
    stat := fun p => (fs p).map fun content => ⟨content.length, 0, 0, 0⟩
    statGarbage := fun _ => ⟨0, 0, 0, 0⟩
    ctime := fun _ => some "Thu Jan  1 00:00:00 1970\n"
    nullStringWhat := "basic_string: construction from null is not valid"
    mixedRange := fun _ _ => RangeResult.exception "basic_string::_M_create"
    signatureGarbage := fun _ => zeroBuffer
    headerGarbage := fun _ _ => 0
    pdf := fun _ => none
    zip := fun _ => none
    peek := fun _ _ => none
    stat_of_open := by
      intro filePath hopen
      simpa using hopen
    ctime_of_stat := by
      intro filePath fileStat _
      simp }

/-- A PNG header as the specification pictures it: the signature, then the
width 800 and the height 600 as big-endian 4-byte fields. -/
def samplePng : List Byte :=
  PNGSignature ++ [0x00, 0x00, 0x03, 0x20, 0x00, 0x00, 0x02, 0x58]

/-- A canonical 44-byte WAV header: PCM, 2 channels, 44100 Hz, 16 bits. -/
def sampleWav : List Byte :=
  [0x52, 0x49, 0x46, 0x46, 0x24, 0x00, 0x00, 0x00, 0x57, 0x41, 0x56, 0x45,
   0x66, 0x6D, 0x74, 0x20, 0x10, 0x00, 0x00, 0x00, 0x01, 0x00, 0x02, 0x00,
   0x44, 0xAC, 0x00, 0x00, 0x10, 0xB1, 0x02, 0x00, 0x04, 0x00, 0x10, 0x00,
   0x64, 0x61, 0x74, 0x61, 0x00, 0x00, 0x00, 0x00]

/-- A 70-byte BMP file: the 14-byte file header (size 70, data offset 54), the
40-byte info header (width 2, height 2, 1 plane, 24 bits) and 16 bytes of
pixel data. -/
def sampleBmp : List Byte :=
  [0x42, 0x4D, 0x46, 0x00, 0x00, 0x00, 0x00, 0x00, 0x00, 0x00, 0x36, 0x00, 0x00, 0x00,
   0x28, 0x00, 0x00, 0x00, 0x02, 0x00, 0x00, 0x00, 0x02, 0x00, 0x00, 0x00, 0x01, 0x00,
   0x18, 0x00, 0x00, 0x00, 0x00, 0x00, 0x10, 0x00, 0x00, 0x00, 0x13, 0x0B, 0x00, 0x00,
   0x13, 0x0B, 0x00, 0x00, 0x00, 0x00, 0x00, 0x00, 0x00, 0x00, 0x00, 0x00] ++
  List.replicate 16 0xFF

/-- The first 20 bytes of a JFIF file: SOI, APP0 marker, length 16, the
identifier, version 1.1, units 0, densities 1 and 1, no thumbnail. -/
def sampleJpeg : List Byte :=
  [0xFF, 0xD8, 0xFF, 0xE0, 0x00, 0x10, 0x4A, 0x46, 0x49, 0x46, 0x00, 0x01, 0x01, 0x00,
   0x00, 0x01, 0x00, 0x01, 0x00, 0x00]

/-- The left-to-right merge of a sequence of decoder outputs into an empty
map. -/
def specMergeAll (outputs : List Metadata) : Metadata :=
  outputs.foldl mergeMap CustomMap.new

/-- A file that starts like a PDF document and breaks off after the version
line, so that the PDF library cannot load it. -/
def sampleBrokenPdf : List Byte := PDFSignature ++ [0x2D, 0x31, 0x2E, 0x37, 0x0A]

/-- The first 13 bytes of a GIF file: signature, version and a logical screen
descriptor for a 10 by 10 image. -/
def sampleGif : List Byte :=
  [0x47, 0x49, 0x46, 0x38, 0x39, 0x61, 0x0A, 0x00, 0x0A, 0x00, 0x80, 0x00, 0x00]

/-! ## The signature tests of `determineFileType`, one by one -/

/-- The seven conditions of the conditional chain of `determineFileType`, in
the order of the source, each with the type it selects. -/
def signatureTests : List ((List Byte → Bool) × FileType) :=
  [ (fun signature => decide (memcmp signature JPEGSignature JPEGSignature.length = 0),
      FileType.JPEG),
    (fun signature => decide (memcmp signature PNGSignature PNGSignature.length = 0),
      FileType.PNG),
    (fun signature => decide (memcmp signature BMPSignature BMPSignature.length = 0),
      FileType.BMP),
    (fun signature => decide (signature.getD 0 0 = 0x25 ∧ signature.getD 1 0 = 0x50 ∧
        signature.getD 2 0 = 0x44 ∧ signature.getD 3 0 = 0x46),
      FileType.PDF),
    (fun signature => decide (memcmp signature ZIPSignature ZIPSignature.length = 0),
      FileType.ZIP),
    (fun signature => decide (memcmp signature WAVSignature WAVSignature.length = 0),
      FileType.WAV),
    (fun signature => decide (memcmp signature GIFSignature GIFSignature.length = 0),
      FileType.GIF) ]

/-- A conditional chain over a list of tests: the type of the first test, in
the order of the list, that succeeds on the array, and `TXT` when none does. -/
def classifyIn (tests : List ((List Byte → Bool) × FileType)) (signature : List Byte) :
    FileType :=
  ((tests.find? (fun test => test.1 signature)).map (fun test => test.2)).getD FileType.TXT

/-! ## Further sample environments -/

/-- The bytes of an ASCII text. -/
def asciiBytes (text : String) : List Byte :=
  text.data.map (fun c => Fin.ofNat c.toNat)

/-- A text file of three lines. -/
def sampleTxt : List Byte := asciiBytes "My Title\nAn Author\nbody\n"

/-- An environment in which `zip_open` succeeds on `a.zip` with the given
answers of the archive library, and nothing else exists. -/
def zipWorld (archive : ZipArchive) : World :=
  { worldOf (fun _ => none) with
    zip := fun p => if p = "a.zip" then some archive else none }

/-- An archive on which `zip_stat` for the empty name fails, which has the
comment "backup" and whose entry 0 cannot be opened. -/
def sampleZipCommentOnly : ZipArchive :=
  { stat := none
    comment := asciiBytes "backup"
    commentLength := 6
    firstEntry := none }

/-- An archive on which `zip_stat` for the empty name fails, without a
comment, whose entry 0 holds 32 zero bytes. -/
def sampleZipEntryOnly : ZipArchive :=
  { stat := none
    comment := []
    commentLength := 0
    firstEntry := some (List.replicate 32 0) }

/-- The first 13 bytes of a second GIF file, with a logical screen of 320 by
240. -/
def sampleGifWide : List Byte :=
  [0x47, 0x49, 0x46, 0x38, 0x39, 0x61, 0x40, 0x01, 0xF0, 0x00, 0x80, 0x00, 0x00]

end FileMeta

namespace FileMeta

/-! ## Facts about the library routines -/

/-- The routine `memcmp` returns zero exactly when the two regions agree on their first
`n` bytes. -/
theorem memcmp_eq_zero_iff (s1 s2 : List Byte) (n : Nat)
    (h1 : n ≤ s1.length) (h2 : n ≤ s2.length) :
    memcmp s1 s2 n = 0 ↔ s1.take n = s2.take n := by
  induction n generalizing s1 s2 with
  | zero => simp [memcmp]
  | succ n ih =>
    cases s1 with
    | nil => simp at h1
    | cons a s1 =>
      cases s2 with
      | nil => simp at h2
      | cons b s2 =>
        simp only [List.length_cons, Nat.add_le_add_iff_right] at h1 h2
        by_cases hab : a = b
        · simp [memcmp, hab, ih s1 s2 h1 h2]
        · have hne : ¬ ((a.val : Int) - (b.val : Int) = 0) := by
            intro e
            apply hab
            apply Fin.ext
            omega
          simp [memcmp, hab, hne]

/-- After `file.read(signature, 8)` the array still has its eight bytes. -/
theorem istreamRead_length (stale : Fin 8 → Byte) (content : List Byte) :
    (istreamRead (List.ofFn stale) content 8).length = 8 := by
  simp only [istreamRead, List.length_append, List.length_take, List.length_drop,
    List.length_ofFn]
  omega

/-- A read that the file can satisfy in full overwrites the whole array. -/
theorem istreamRead_full (stale : Fin 8 → Byte) (content : List Byte)
    (h : 8 ≤ content.length) : istreamRead (List.ofFn stale) content 8 = content.take 8 := by
  have hl : (content.take 8).length = 8 := by
    rw [List.length_take]
    omega
  simp [istreamRead, hl]

/-! ## Facts about `determineFileType` -/

/-- The comparison `memcmp(signature, Sig, sizeof(Sig)) == 0` holds exactly
when `Sig` is an initial segment of the array. -/
theorem memcmp_zero_iff_isPrefix (buf sig : List Byte) (h : sig.length ≤ buf.length) :
    memcmp buf sig sig.length = 0 ↔ sig <+: buf := by
  rw [memcmp_eq_zero_iff buf sig sig.length h (le_refl _), List.take_length,
    List.prefix_iff_eq_take]
  exact eq_comm

/-- The four byte tests of the PDF branch hold exactly when `PDFSignature` is
an initial segment of the array. -/
theorem pdf_test_iff_isPrefix (buf : List Byte) (h : 4 ≤ buf.length) :
    (buf.getD 0 0 = 0x25 ∧ buf.getD 1 0 = 0x50 ∧ buf.getD 2 0 = 0x44 ∧ buf.getD 3 0 = 0x46) ↔
      PDFSignature <+: buf := by
  rcases buf with _ | ⟨b0, _ | ⟨b1, _ | ⟨b2, _ | ⟨b3, tl⟩⟩⟩⟩
  · simp at h
  · simp at h
  · simp at h
  · simp at h
  · simp only [PDFSignature, List.cons_prefix_cons, List.nil_prefix, and_true,
      List.getD_cons_zero, List.getD_cons_succ]
    constructor
    · rintro ⟨e0, e1, e2, e3⟩
      exact ⟨e0.symm, e1.symm, e2.symm, e3.symm⟩
    · rintro ⟨e0, e1, e2, e3⟩
      exact ⟨e0.symm, e1.symm, e2.symm, e3.symm⟩

/-- On an openable file the result is the first table entry that matches the
array `signature` as it stands after the read, and `TXT` when none does. -/
theorem determineFileType_eq_firstMatch (fs : FileSystem) (stale : Fin 8 → Byte)
    (filePath : String) (content : List Byte) (hopen : fs filePath = some content) :
    determineFileType fs stale filePath =
      (specFirstMatch (istreamRead (List.ofFn stale) content 8)).getD FileType.TXT := by
  have hlen := istreamRead_length stale content
  simp only [determineFileType, hopen]
  generalize istreamRead (List.ofFn stale) content 8 = buf at hlen
  have h3 : JPEGSignature.length ≤ buf.length := by rw [hlen]; decide
  have h8 : PNGSignature.length ≤ buf.length := by rw [hlen]; decide
  have h2 : BMPSignature.length ≤ buf.length := by rw [hlen]; decide
  have h4 : 4 ≤ buf.length := by rw [hlen]; decide
  have hz : ZIPSignature.length ≤ buf.length := by rw [hlen]; decide
  have hw : WAVSignature.length ≤ buf.length := by rw [hlen]; decide
  have hg : GIFSignature.length ≤ buf.length := by rw [hlen]; decide
  simp only [memcmp_zero_iff_isPrefix buf _ h3, memcmp_zero_iff_isPrefix buf _ h8,
    memcmp_zero_iff_isPrefix buf _ h2, memcmp_zero_iff_isPrefix buf _ hz,
    memcmp_zero_iff_isPrefix buf _ hw, memcmp_zero_iff_isPrefix buf _ hg,
    pdf_test_iff_isPrefix buf h4, specFirstMatch, specMagicTable, List.find?_cons]
  by_cases c1 : JPEGSignature <+: buf
  · simp [c1]
  by_cases c2 : PNGSignature <+: buf
  · simp [c1, c2]
  by_cases c3 : BMPSignature <+: buf
  · simp [c1, c2, c3]
  by_cases c4 : PDFSignature <+: buf
  · simp [c1, c2, c3, c4]
  by_cases c5 : ZIPSignature <+: buf
  · simp [c1, c2, c3, c4, c5]
  by_cases c6 : WAVSignature <+: buf
  · simp [c1, c2, c3, c4, c5, c6]
  by_cases c7 : GIFSignature <+: buf
  · simp [c1, c2, c3, c4, c5, c6, c7]
  · simp [c1, c2, c3, c4, c5, c6, c7]

/-- An openable file is never classified `UNKNOWN`. -/
theorem determineFileType_ne_unknown (fs : FileSystem) (stale : Fin 8 → Byte)
    (filePath : String) (content : List Byte) (hopen : fs filePath = some content) :
    determineFileType fs stale filePath ≠ FileType.UNKNOWN := by
  simp only [determineFileType, hopen]
  split_ifs <;> simp

/-- A file that begins with a table pattern gets that pattern's type, whatever
the array held before the read. -/
theorem determineFileType_of_pattern (fs : FileSystem) (stale : Fin 8 → Byte)
    (filePath : String) (content sig : List Byte) (t : FileType)
    (hopen : fs filePath = some content)
    (hentry : (sig, t) ∈ specMagicTable) (hmatch : sig <+: content) :
    determineFileType fs stale filePath = t := by
  obtain ⟨rest, rfl⟩ := hmatch
  simp only [specMagicTable, List.mem_cons, Prod.mk.injEq, List.mem_singleton,
    List.not_mem_nil, or_false] at hentry
  rcases hentry with ⟨rfl, rfl⟩ | ⟨rfl, rfl⟩ | ⟨rfl, rfl⟩ | ⟨rfl, rfl⟩ | ⟨rfl, rfl⟩ |
    ⟨rfl, rfl⟩ | ⟨rfl, rfl⟩ <;>
  simp [determineFileType, hopen, istreamRead, memcmp, sub_eq_zero, Nat.cast_inj, Fin.val_inj,
    JPEGSignature, PNGSignature, BMPSignature, PDFSignature, ZIPSignature, WAVSignature,
    GIFSignature]

/-- When the file holds at least eight bytes the code meets the contract
`specDetect`. -/
theorem determineFileType_full_read (fs : FileSystem) (stale : Fin 8 → Byte)
    (filePath : String) (content : List Byte) (hopen : fs filePath = some content)
    (hlen : 8 ≤ content.length) :
    determineFileType fs stale filePath = specDetect (some content) := by
  rw [determineFileType_eq_firstMatch fs stale filePath content hopen,
    istreamRead_full stale content hlen]
  rfl

/-- Every pattern of the table has at least two bytes. -/
theorem pattern_length_ge_two (entry : List Byte × FileType) (h : entry ∈ specMagicTable) :
    2 ≤ entry.1.length := by
  simp only [specMagicTable, List.mem_cons, List.mem_singleton, List.not_mem_nil,
    or_false] at h
  rcases h with rfl | rfl | rfl | rfl | rfl | rfl | rfl <;> decide

/-! ## Type detection: the claims -/

/-- C1: for every openable file whose leading bytes are one of the seven magic
patterns, `determineFileType` returns the type that the table gives for that
pattern, and that type is the first one, in the priority order JPEG, PNG, BMP,
PDF, ZIP, WAV, GIF, whose pattern is an initial segment of the bytes read.
This holds for every prior content of the array `signature`. -/
theorem C1_magic_pattern_detected (fs : FileSystem) (stale : Fin 8 → Byte)
    (filePath : String) (content sig : List Byte) (t : FileType)
    (hopen : fs filePath = some content)
    (hentry : (sig, t) ∈ specMagicTable) (hmatch : sig <+: content) :
    determineFileType fs stale filePath = t ∧ specFirstMatch (content.take 8) = some t := by
  refine ⟨determineFileType_of_pattern fs stale filePath content sig t hopen hentry hmatch, ?_⟩
  obtain ⟨rest, rfl⟩ := hmatch
  simp only [specMagicTable, List.mem_cons, Prod.mk.injEq, List.mem_singleton,
    List.not_mem_nil, or_false] at hentry
  rcases hentry with ⟨rfl, rfl⟩ | ⟨rfl, rfl⟩ | ⟨rfl, rfl⟩ | ⟨rfl, rfl⟩ | ⟨rfl, rfl⟩ |
    ⟨rfl, rfl⟩ | ⟨rfl, rfl⟩ <;>
  simp [specFirstMatch, specMagicTable, JPEGSignature, PNGSignature, BMPSignature,
    PDFSignature, ZIPSignature, WAVSignature, GIFSignature]

/-- C1 at a ten-byte file that starts with the PNG signature. -/
theorem C1_magic_pattern_detected_witness :
    singleFile "a.png" (PNGSignature ++ [0, 0]) "a.png" = some (PNGSignature ++ [0, 0]) ∧
    (PNGSignature, FileType.PNG) ∈ specMagicTable ∧
    PNGSignature <+: PNGSignature ++ [0, 0] ∧
    determineFileType (singleFile "a.png" (PNGSignature ++ [0, 0])) zeroBuffer "a.png" =
      FileType.PNG ∧
    specFirstMatch ((PNGSignature ++ [0, 0]).take 8) = some FileType.PNG :=
  ⟨by decide, by decide, List.prefix_append _ _,
    C1_magic_pattern_detected (singleFile "a.png" (PNGSignature ++ [0, 0])) zeroBuffer "a.png"
      (PNGSignature ++ [0, 0]) PNGSignature FileType.PNG (by decide) (by decide)
      (List.prefix_append _ _)⟩

/-- C2, evaluated where the code departs from it: a zero-byte file begins with
none of the seven patterns, yet when the array `signature` still holds the
first eight bytes of a JPEG file the code answers `JPEG`, not `TXT`. -/
theorem C2_short_file_stale_buffer :
    singleFile "empty.txt" [] "empty.txt" = some [] ∧
    (∀ entry ∈ specMagicTable, ¬ entry.1 <+: ([] : List Byte)) ∧
    specDetect (some []) = FileType.TXT ∧
    determineFileType (singleFile "empty.txt" [])
      (bufferOf [0xFF, 0xD8, 0xFF, 0xE0, 0x00, 0x10, 0x4A, 0x46]) "empty.txt" =
        FileType.JPEG := by
  refine ⟨by decide, by decide, by decide, by decide⟩

/-- C3: `determineFileType` returns `UNKNOWN` if and only if the file cannot
be opened; no openable file, whatever its content or length, is classified
`UNKNOWN`. -/
theorem C3_unknown_iff_unopenable (fs : FileSystem) (stale : Fin 8 → Byte)
    (filePath : String) :
    determineFileType fs stale filePath = FileType.UNKNOWN ↔ fs filePath = none := by
  constructor
  · intro h
    cases hopen : fs filePath with
    | none => rfl
    | some content => exact absurd h (determineFileType_ne_unknown fs stale filePath content hopen)
  · intro h
    simp [determineFileType, h]

/-- C4 as stated fails: an openable zero-byte file, shorter than every
signature, is classified `TXT`, not `UNKNOWN`. -/
theorem C4_counterexample :
    singleFile "empty.dat" [] "empty.dat" = some [] ∧
    ([] : List Byte).length < 2 ∧
    determineFileType (singleFile "empty.dat" []) zeroBuffer "empty.dat" = FileType.TXT ∧
    determineFileType (singleFile "empty.dat" []) zeroBuffer "empty.dat" ≠ FileType.UNKNOWN := by
  refine ⟨by decide, by decide, by decide, by decide⟩

/-- C4, amended: every openable file of fewer than two bytes is shorter than
each of the seven patterns, so it begins with none of them, and
`determineFileType` returns for it a type other than `UNKNOWN`. -/
theorem C4_short_file_not_unknown (fs : FileSystem) (stale : Fin 8 → Byte)
    (filePath : String) (content : List Byte)
    (hopen : fs filePath = some content) (hshort : content.length < 2) :
    (∀ entry ∈ specMagicTable, ¬ entry.1 <+: content) ∧
    determineFileType fs stale filePath ≠ FileType.UNKNOWN := by
  refine ⟨?_, determineFileType_ne_unknown fs stale filePath content hopen⟩
  intro entry hentry hmatch
  have hlen := hmatch.length_le
  have h2 : 2 ≤ entry.1.length := pattern_length_ge_two entry hentry
  omega

/-- C4, amended, at a one-byte file. -/
theorem C4_short_file_not_unknown_witness :
    singleFile "one.dat" [0x42] "one.dat" = some [0x42] ∧
    ([0x42] : List Byte).length < 2 ∧
    ¬ BMPSignature <+: ([0x42] : List Byte) ∧
    determineFileType (singleFile "one.dat" [0x42]) zeroBuffer "one.dat" ≠ FileType.UNKNOWN :=
  ⟨by decide, by decide,
    (C4_short_file_not_unknown (singleFile "one.dat" [0x42]) zeroBuffer "one.dat" [0x42]
      (by decide) (by decide)).1 (BMPSignature, FileType.BMP) (by decide),
    (C4_short_file_not_unknown (singleFile "one.dat" [0x42]) zeroBuffer "one.dat" [0x42]
      (by decide) (by decide)).2⟩

/-- C5 as stated fails: the two-byte file `42 4D` is shorter than eight bytes
and is classified `BMP`, neither `TXT` nor `UNKNOWN`; and the class of a
zero-byte file changes with what the array `signature` held before the read. -/
theorem C5_counterexample :
    ([0x42, 0x4D] : List Byte).length < 8 ∧
    determineFileType (singleFile "s.bmp" [0x42, 0x4D]) zeroBuffer "s.bmp" = FileType.BMP ∧
    ¬ (determineFileType (singleFile "s.bmp" [0x42, 0x4D]) zeroBuffer "s.bmp" = FileType.TXT ∨
       determineFileType (singleFile "s.bmp" [0x42, 0x4D]) zeroBuffer "s.bmp" =
         FileType.UNKNOWN) ∧
    determineFileType (singleFile "e" []) zeroBuffer "e" ≠
      determineFileType (singleFile "e" []) (bufferOf JPEGSignature) "e" := by
  refine ⟨by decide, by decide, by decide, by decide⟩

/-- C5, amended: for every openable file shorter than eight bytes
`determineFileType` returns a type other than `UNKNOWN`, and whenever the
file's own bytes begin with one of the magic patterns, which is then one of
the patterns of two to four bytes and not the PNG pattern, the result is that
pattern's type, whatever the unfilled tail of the array holds. -/
theorem C5_short_file_defined (fs : FileSystem) (stale : Fin 8 → Byte)
    (filePath : String) (content : List Byte)
    (hopen : fs filePath = some content) (hshort : content.length < 8) :
    determineFileType fs stale filePath ≠ FileType.UNKNOWN ∧
    ∀ sig t, (sig, t) ∈ specMagicTable → sig <+: content →
      determineFileType fs stale filePath = t ∧ sig.length ≤ 4 ∧ t ≠ FileType.PNG := by
  refine ⟨determineFileType_ne_unknown fs stale filePath content hopen, ?_⟩
  intro sig t hentry hmatch
  refine ⟨determineFileType_of_pattern fs stale filePath content sig t hopen hentry hmatch, ?_⟩
  have hlen := hmatch.length_le
  simp only [specMagicTable, List.mem_cons, Prod.mk.injEq, List.mem_singleton,
    List.not_mem_nil, or_false] at hentry
  rcases hentry with ⟨rfl, rfl⟩ | ⟨rfl, rfl⟩ | ⟨rfl, rfl⟩ | ⟨rfl, rfl⟩ | ⟨rfl, rfl⟩ |
    ⟨rfl, rfl⟩ | ⟨rfl, rfl⟩
  · exact ⟨by decide, by decide⟩
  · exfalso
    have h8 : PNGSignature.length = 8 := by decide
    omega
  · exact ⟨by decide, by decide⟩
  · exact ⟨by decide, by decide⟩
  · exact ⟨by decide, by decide⟩
  · exact ⟨by decide, by decide⟩
  · exact ⟨by decide, by decide⟩

/-- C5, amended, at the three-byte file `47 49 46`. -/
theorem C5_short_file_defined_witness :
    singleFile "s.gif" GIFSignature "s.gif" = some GIFSignature ∧
    GIFSignature.length < 8 ∧
    determineFileType (singleFile "s.gif" GIFSignature) (bufferOf JPEGSignature) "s.gif" ≠
      FileType.UNKNOWN ∧
    determineFileType (singleFile "s.gif" GIFSignature) (bufferOf JPEGSignature) "s.gif" =
      FileType.GIF :=
  ⟨by decide, by decide,
    (C5_short_file_defined (singleFile "s.gif" GIFSignature) (bufferOf JPEGSignature) "s.gif"
      GIFSignature (by decide) (by decide)).1,
    ((C5_short_file_defined (singleFile "s.gif" GIFSignature) (bufferOf JPEGSignature) "s.gif"
      GIFSignature (by decide) (by decide)).2 GIFSignature FileType.GIF (by decide)
      (List.prefix_refl _)).1⟩

/-! ## Facts about `CustomMap` and `mergeMap` -/

section Map

variable {κ ν : Type} [DecidableEq κ]

/-- The member `insert` acts on the vector as `upsert`. -/
theorem insert_pairs (m : CustomMap κ ν) (key : κ) (value : ν) :
    (m.insert key value).pairs = upsert m.pairs key value := by
  obtain ⟨l⟩ := m
  induction l with
  | nil => simp [CustomMap.insert, CustomMap.find, upsert]
  | cons p rest ih =>
    by_cases hk : p.key = key
    · simp [CustomMap.insert, CustomMap.find, upsert, List.findIdx_cons, hk, List.modify]
    · have ih1 := ih
      simp only [CustomMap.insert, CustomMap.find] at ih1
      simp only [CustomMap.insert, CustomMap.find, upsert, List.findIdx_cons, hk, decide_False,
        cond_false, List.length_cons, ne_eq, add_left_inj, if_false]
      by_cases hf : List.findIdx (fun pair => decide (pair.key = key)) rest = rest.length
      · simp [hf] at ih1 ⊢
        exact ih1
      · simp [hf] at ih1 ⊢
        simpa [List.modify] using ih1

/-- The assignment `m[key] = value` acts on the vector as `upsert`. -/
theorem assign_pairs [Inhabited ν] (m : CustomMap κ ν) (key : κ) (value : ν) :
    (m.assign key value).pairs = upsert m.pairs key value := by
  obtain ⟨l⟩ := m
  induction l with
  | nil =>
    simp [CustomMap.assign, CustomMap.subscript, CustomMap.store, CustomMap.find, upsert,
      List.modify]
  | cons p rest ih =>
    by_cases hk : p.key = key
    · simp [CustomMap.assign, CustomMap.subscript, CustomMap.store, CustomMap.find, upsert,
        List.findIdx_cons, hk, List.modify]
    · have ih1 := ih
      simp only [CustomMap.assign, CustomMap.subscript, CustomMap.store, CustomMap.find] at ih1
      simp only [CustomMap.assign, CustomMap.subscript, CustomMap.store, CustomMap.find, upsert,
        List.findIdx_cons, hk, decide_False, cond_false, List.length_cons, ne_eq, add_left_inj,
        if_false]
      by_cases hf : List.findIdx (fun pair => decide (pair.key = key)) rest = rest.length
      · simp [hf] at ih1 ⊢
        simpa [List.modify] using ih1
      · simp [hf] at ih1 ⊢
        simpa [List.modify] using ih1

theorem upsert_of_not_mem (l : List (Pair κ ν)) (key : κ) (value : ν)
    (h : key ∉ l.map (fun pair => pair.key)) : upsert l key value = l ++ [⟨key, value⟩] := by
  induction l with
  | nil => rfl
  | cons p rest ih =>
    simp only [List.map_cons, List.mem_cons, not_or] at h
    have hk : ¬ p.key = key := fun e => h.1 e.symm
    simp [upsert, hk, ih h.2]

theorem upsert_keys_of_mem (l : List (Pair κ ν)) (key : κ) (value : ν)
    (h : key ∈ l.map (fun pair => pair.key)) :
    (upsert l key value).map (fun pair => pair.key) = l.map (fun pair => pair.key) := by
  induction l with
  | nil => simp at h
  | cons p rest ih =>
    by_cases hk : p.key = key
    · simp [upsert, hk]
    · have hr : key ∈ rest.map (fun pair => pair.key) := by
        simp only [List.map_cons, List.mem_cons] at h
        rcases h with h | h
        · exact absurd h.symm hk
        · exact h
      simp [upsert, hk, ih hr]

theorem upsert_keys (l : List (Pair κ ν)) (key : κ) (value : ν) :
    (upsert l key value).map (fun pair => pair.key) =
      if key ∈ l.map (fun pair => pair.key) then l.map (fun pair => pair.key)
      else l.map (fun pair => pair.key) ++ [key] := by
  by_cases h : key ∈ l.map (fun pair => pair.key)
  · rw [if_pos h, upsert_keys_of_mem l key value h]
  · rw [if_neg h, upsert_of_not_mem l key value h]
    simp

theorem upsert_nodup (l : List (Pair κ ν)) (key : κ) (value : ν)
    (h : (l.map (fun pair => pair.key)).Nodup) :
    ((upsert l key value).map (fun pair => pair.key)).Nodup := by
  rw [upsert_keys]
  split
  · exact h
  · rename_i hk
    rw [List.nodup_append]
    refine ⟨h, List.nodup_singleton key, ?_⟩
    intro a ha hb
    simp only [List.mem_singleton] at hb
    subst hb
    exact hk ha

theorem lookup_upsert (l : List (Pair κ ν)) (key : κ) (value : ν) (k : κ) :
    lookup (upsert l key value) k = if k = key then some value else lookup l k := by
  induction l with
  | nil =>
    by_cases hk : k = key
    · simp [upsert, lookup, hk]
    · have hk1 : ¬ key = k := fun e => hk e.symm
      simp [upsert, lookup, hk, hk1]
  | cons p rest ih =>
    by_cases hp : p.key = key
    · by_cases hk : k = key
      · simp [upsert, lookup, hp, hk]
      · have hk1 : ¬ key = k := fun e => hk e.symm
        simp [upsert, lookup, hp, hk, hk1]
    · by_cases hpk : p.key = k
      · have hk : ¬ k = key := fun e => hp (hpk.trans e)
        simp [upsert, lookup, hp, hpk, hk]
      · simp [upsert, lookup, hp, hpk, ih]

theorem lookup_eq_none_iff (l : List (Pair κ ν)) (k : κ) :
    lookup l k = none ↔ k ∉ l.map (fun pair => pair.key) := by
  induction l with
  | nil => simp [lookup]
  | cons p rest ih =>
    by_cases hp : p.key = k
    · simp [lookup, hp]
    · have hp1 : ¬ k = p.key := fun e => hp e.symm
      simp [lookup, hp, hp1, ih]

theorem mem_iff_lookup (l : List (Pair κ ν)) (h : (l.map (fun pair => pair.key)).Nodup)
    (k : κ) (v : ν) : (⟨k, v⟩ : Pair κ ν) ∈ l ↔ lookup l k = some v := by
  induction l with
  | nil => simp [lookup]
  | cons p rest ih =>
    simp only [List.map_cons, List.nodup_cons] at h
    by_cases hp : p.key = k
    · have hnot : ∀ w, (⟨k, w⟩ : Pair κ ν) ∉ rest := by
        intro w hw
        apply h.1
        rw [hp]
        exact List.mem_map.mpr ⟨⟨k, w⟩, hw, rfl⟩
      obtain ⟨pk, pv⟩ := p
      simp only at hp
      subst hp
      simp [lookup, hnot v]
      exact eq_comm
    · have hne : (⟨k, v⟩ : Pair κ ν) ≠ p := by
        intro e
        apply hp
        rw [← e]
      simp [lookup, hp, hne, ih h.2]

theorem valueAt_eq_lookup (m : CustomMap κ ν) (k : κ) : m.valueAt k = lookup m.pairs k := by
  obtain ⟨l⟩ := m
  induction l with
  | nil => simp [CustomMap.valueAt, CustomMap.find, lookup]
  | cons p rest ih =>
    by_cases hp : p.key = k
    · simp [CustomMap.valueAt, CustomMap.find, lookup, List.findIdx_cons, hp]
    · simp only [CustomMap.valueAt, CustomMap.find] at ih
      simp [CustomMap.valueAt, CustomMap.find, lookup, List.findIdx_cons, hp, ih]

omit [DecidableEq κ] in
theorem CustomMap.eq_of_pairs {m1 m2 : CustomMap κ ν} (h : m1.pairs = m2.pairs) : m1 = m2 := by
  obtain ⟨l1⟩ := m1
  obtain ⟨l2⟩ := m2
  simp only at h
  rw [h]

/-- The vector after `mergeMap`: one `upsert` per pair of `src`. -/
theorem mergeMap_pairs [Inhabited ν] (dest src : CustomMap κ ν) :
    (mergeMap dest src).pairs =
      src.pairs.foldl (fun l pair => upsert l pair.key pair.value) dest.pairs := by
  obtain ⟨s⟩ := src
  simp only [mergeMap]
  induction s generalizing dest with
  | nil => rfl
  | cons p rest ih =>
    simp only [List.foldl_cons]
    rw [ih (dest.assign p.key p.value), assign_pairs]

theorem foldl_upsert_nodup (l s : List (Pair κ ν))
    (h : (l.map (fun pair => pair.key)).Nodup) :
    ((s.foldl (fun l pair => upsert l pair.key pair.value) l).map
      (fun pair => pair.key)).Nodup := by
  induction s generalizing l with
  | nil => exact h
  | cons p rest ih => exact ih _ (upsert_nodup l p.key p.value h)

theorem lookup_foldl_upsert (l s : List (Pair κ ν))
    (hs : (s.map (fun pair => pair.key)).Nodup) (k : κ) :
    lookup (s.foldl (fun l pair => upsert l pair.key pair.value) l) k =
      match lookup s k with
      | some v => some v
      | none => lookup l k := by
  induction s generalizing l with
  | nil => simp [lookup]
  | cons p rest ih =>
    simp only [List.map_cons, List.nodup_cons] at hs
    simp only [List.foldl_cons]
    rw [ih _ hs.2, lookup_upsert]
    by_cases hp : p.key = k
    · have hnone : lookup rest k = none := by
        rw [lookup_eq_none_iff, ← hp]
        exact hs.1
      simp [lookup, hp, hnone]
    · have hp1 : ¬ k = p.key := fun e => hp e.symm
      simp [lookup, hp, hp1]

theorem foldl_upsert_keys_subset (l s : List (Pair κ ν)) (k : κ)
    (h : k ∈ (s.foldl (fun l pair => upsert l pair.key pair.value) l).map
      (fun pair => pair.key)) :
    k ∈ l.map (fun pair => pair.key) ∨ k ∈ s.map (fun pair => pair.key) := by
  induction s generalizing l with
  | nil => exact Or.inl h
  | cons p rest ih =>
    simp only [List.foldl_cons] at h
    rcases ih _ h with h1 | h1
    · rw [upsert_keys] at h1
      split at h1
      · exact Or.inl h1
      · rw [List.mem_append, List.mem_singleton] at h1
        rcases h1 with h1 | h1
        · exact Or.inl h1
        · right
          simp [h1]
    · right
      simp only [List.map_cons, List.mem_cons]
      exact Or.inr h1

/-- Writing back a pair the vector already holds changes nothing. -/
theorem upsert_of_mem (l : List (Pair κ ν)) (h : (l.map (fun pair => pair.key)).Nodup)
    (p : Pair κ ν) (hp : p ∈ l) : upsert l p.key p.value = l := by
  induction l with
  | nil => simp at hp
  | cons q rest ih =>
    simp only [List.map_cons, List.nodup_cons] at h
    by_cases hq : q.key = p.key
    · have hqp : p = q := by
        rcases List.mem_cons.mp hp with e | hmem
        · exact e
        · exfalso
          apply h.1
          rw [hq]
          exact List.mem_map.mpr ⟨p, hmem, rfl⟩
      subst hqp
      simp [upsert]
    · have hmem : p ∈ rest := by
        rcases List.mem_cons.mp hp with e | hmem
        · exact absurd (by rw [e]) hq
        · exact hmem
      simp [upsert, hq, ih h.2 hmem]

theorem foldl_upsert_self (l s : List (Pair κ ν)) (h : (l.map (fun pair => pair.key)).Nodup)
    (hs : ∀ p ∈ s, p ∈ l) :
    s.foldl (fun l pair => upsert l pair.key pair.value) l = l := by
  induction s with
  | nil => rfl
  | cons p rest ih =>
    simp only [List.foldl_cons]
    rw [upsert_of_mem l h p (hs p (List.mem_cons_self p rest))]
    exact ih (fun q hq => hs q (List.mem_cons_of_mem p hq))

theorem mergeMap_self_of_nodup [Inhabited ν] (m : CustomMap κ ν) (h : m.keys.Nodup) :
    mergeMap m m = m := by
  apply CustomMap.eq_of_pairs
  rw [mergeMap_pairs]
  exact foldl_upsert_self m.pairs m.pairs h (fun p hp => hp)

theorem mergeMapAliased_of_nodup [Inhabited ν] (m : CustomMap κ ν) (h : m.keys.Nodup) :
    mergeMapAliased m = m := by
  have step : ∀ idxs : List Nat,
      idxs.foldl
        (fun (d : CustomMap κ ν) i =>
          match d.pairs[i]? with
          | some pair => d.assign pair.key pair.value
          | none => d) m = m := by
    intro idxs
    induction idxs with
    | nil => rfl
    | cons i rest ih =>
      simp only [List.foldl_cons]
      cases hi : m.pairs[i]? with
      | none => simpa using ih
      | some pair =>
        have hmem : pair ∈ m.pairs := List.getElem?_mem hi
        have hfix : m.assign pair.key pair.value = m := by
          apply CustomMap.eq_of_pairs
          rw [assign_pairs]
          exact upsert_of_mem m.pairs h pair hmem
        simp only [hfix]
        exact ih
  exact step _

theorem subscript_pairs [Inhabited ν] (m : CustomMap κ ν) (key : κ) :
    (m.subscript key).1.pairs =
      if key ∈ m.keys then m.pairs else m.pairs ++ [⟨key, default⟩] := by
  have hfind : m.find key = m.pairs.length ↔ key ∉ m.keys := by
    simp [CustomMap.find, CustomMap.keys, List.findIdx_eq_length]
  by_cases hk : key ∈ m.keys
  · have : ¬ m.find key = m.pairs.length := fun e => (hfind.mp e) hk
    simp [CustomMap.subscript, this, hk]
  · have : m.find key = m.pairs.length := hfind.mpr hk
    simp [CustomMap.subscript, this, hk]

theorem erase_nodup (m : CustomMap κ ν) (key : κ) (h : m.keys.Nodup) :
    (m.erase key).keys.Nodup := by
  simp only [CustomMap.erase]
  split
  · simp only [CustomMap.keys]
    exact List.Nodup.sublist ((List.eraseIdx_sublist m.pairs _).map _) h
  · exact h

/-- Every map a program can build has pairwise distinct keys. -/
theorem nodup_of_reachable [Inhabited ν] (m : CustomMap κ ν) (h : Reachable m) :
    m.keys.Nodup := by
  induction h with
  | new => simp [CustomMap.new, CustomMap.keys]
  | insert key value _ ih =>
    simp only [CustomMap.keys, insert_pairs]
    exact upsert_nodup _ key value ih
  | @subscript m0 key _ ih =>
    simp only [CustomMap.keys, subscript_pairs]
    split
    · exact ih
    · rename_i hk
      have := upsert_nodup m0.pairs key default ih
      rw [upsert_of_not_mem _ _ _ hk] at this
      exact this
  | assign key value _ ih =>
    simp only [CustomMap.keys, assign_pairs]
    exact upsert_nodup _ key value ih
  | erase key _ ih => exact erase_nodup _ key ih
  | clear _ _ => simp [CustomMap.clear, CustomMap.keys]
  | mergeMap _ _ ih1 _ =>
    simp only [CustomMap.keys, mergeMap_pairs]
    exact foldl_upsert_nodup _ _ ih1

theorem find_eq_size_iff (m : CustomMap κ ν) (key : κ) :
    m.find key = m.pairs.length ↔ key ∉ m.keys := by
  simp [CustomMap.find, CustomMap.keys, List.findIdx_eq_length]

theorem findIdx_upsert (l : List (Pair κ ν)) (key : κ) (value : ν) :
    (upsert l key value).findIdx (fun pair => decide (pair.key = key)) =
      l.findIdx (fun pair => decide (pair.key = key)) := by
  induction l with
  | nil => simp [upsert, List.findIdx_cons]
  | cons p rest ih =>
    by_cases hp : p.key = key
    · simp [upsert, List.findIdx_cons, hp]
    · simp [upsert, List.findIdx_cons, hp, ih]

theorem specFirstOccurrences_mem (ks : List κ) (k : κ) :
    k ∈ specFirstOccurrences ks ↔ k ∈ ks := by
  induction ks with
  | nil => simp [specFirstOccurrences]
  | cons x rest ih =>
    by_cases hk : k = x
    · simp [specFirstOccurrences, hk]
    · simp [specFirstOccurrences, hk, ih]

theorem specFirstOccurrences_snoc (ks : List κ) (k : κ) :
    specFirstOccurrences (ks ++ [k]) =
      if k ∈ ks then specFirstOccurrences ks else specFirstOccurrences ks ++ [k] := by
  induction ks with
  | nil => simp [specFirstOccurrences]
  | cons x rest ih =>
    simp only [List.cons_append, specFirstOccurrences, List.append_eq]
    rw [ih]
    by_cases hk : k = x
    · subst hk
      by_cases hr : k ∈ rest
      · simp [hr]
      · simp [hr, List.filter_append]
    · by_cases hr : k ∈ rest
      · simp [hr, hk]
      · simp [hr, hk, List.filter_append]

theorem specLastValue_snoc (calls : List (κ × ν)) (call : κ × ν) (k : κ) :
    specLastValue (calls ++ [call]) k =
      if k = call.1 then some call.2 else specLastValue calls k := by
  by_cases hk : k = call.1
  · simp [specLastValue, List.find?_cons, hk]
  · have hk1 : ¬ call.1 = k := fun e => hk e.symm
    simp [specLastValue, List.find?_cons, hk, hk1]

theorem insertAll_snoc (calls : List (κ × ν)) (call : κ × ν) :
    (insertAll (calls ++ [call]) : CustomMap κ ν) = (insertAll calls).insert call.1 call.2 := by
  simp [insertAll, List.foldl_append]

theorem insertAll_keys (calls : List (κ × ν)) :
    (insertAll calls).keys = specFirstOccurrences (calls.map Prod.fst) := by
  induction calls using List.reverseRecOn with
  | nil => simp [insertAll, CustomMap.new, CustomMap.keys, specFirstOccurrences]
  | append_singleton calls call ih =>
    simp only [CustomMap.keys] at ih
    simp only [insertAll_snoc, CustomMap.keys, insert_pairs, upsert_keys, List.map_append,
      List.map_cons, List.map_nil, specFirstOccurrences_snoc, ih, specFirstOccurrences_mem]

theorem insertAll_lookup (calls : List (κ × ν)) (k : κ) :
    lookup (insertAll calls).pairs k = specLastValue calls k := by
  induction calls using List.reverseRecOn with
  | nil => simp [insertAll, CustomMap.new, lookup, specLastValue]
  | append_singleton calls call ih =>
    rw [insertAll_snoc, insert_pairs, lookup_upsert, specLastValue_snoc, ih]

theorem map_pairs_eq_map_keys (l : List (Pair κ ν)) (h : (l.map (fun pair => pair.key)).Nodup) :
    l.map (fun pair => (pair.key, some pair.value)) =
      (l.map (fun pair => pair.key)).map (fun k => (k, lookup l k)) := by
  rw [List.map_map]
  apply List.map_congr_left
  intro p hp
  have := (mem_iff_lookup l h p.key p.value).mp hp
  simp [this]

theorem specFirstOccurrences_nodup (ks : List κ) : (specFirstOccurrences ks).Nodup := by
  induction ks with
  | nil => simp [specFirstOccurrences]
  | cons x rest ih =>
    simp only [specFirstOccurrences, List.nodup_cons]
    refine ⟨?_, ih.filter _⟩
    simp [List.mem_filter]

/-! ## The metadata map: the claims -/

/-- The vector after `insert`, in closed form: the pair at the position of the
key is overwritten, or the new pair is appended. -/
theorem upsert_eq_set (l : List (Pair κ ν)) (key : κ) (value : ν) :
    upsert l key value =
      if key ∈ l.map (fun pair => pair.key) then
        l.set (l.findIdx (fun pair => decide (pair.key = key))) ⟨key, value⟩
      else l ++ [⟨key, value⟩] := by
  induction l with
  | nil => simp [upsert]
  | cons p rest ih =>
    by_cases hp : p.key = key
    · simp [upsert, List.findIdx_cons, hp]
    · have hp1 : ¬ key = p.key := fun e => hp e.symm
      by_cases hr : key ∈ rest.map (fun pair => pair.key)
      · rw [if_pos hr] at ih
        have hr1 : ∃ a ∈ rest, a.key = key := by simpa using hr
        simp [upsert, List.findIdx_cons, hp, hp1, hr1, ih]
      · rw [if_neg hr] at ih
        have hr1 : ¬ ∃ a ∈ rest, a.key = key := by simpa using hr
        simp [upsert, hp, hp1, hr1, ih]

/-- C6: for all maps `a` and `b` with unique keys, `mergeMap(a, b)` leaves a
map in which every pair of `b` is present (the second map wins on overlap),
every pair of `a` whose key is not in `b` is present, every key comes from `a`
or from `b`, and keys stay unique, so that each key carries exactly one value:
`b`'s value when `b` has the key and `a`'s value otherwise. -/
theorem C6_mergeMap_second_wins [Inhabited ν] (a b : CustomMap κ ν)
    (ha : a.keys.Nodup) (hb : b.keys.Nodup) :
    (∀ k v, (⟨k, v⟩ : Pair κ ν) ∈ b.pairs → (⟨k, v⟩ : Pair κ ν) ∈ (mergeMap a b).pairs) ∧
    (∀ k v, (⟨k, v⟩ : Pair κ ν) ∈ a.pairs → k ∉ b.keys →
      (⟨k, v⟩ : Pair κ ν) ∈ (mergeMap a b).pairs) ∧
    (∀ k, k ∈ (mergeMap a b).keys → k ∈ a.keys ∨ k ∈ b.keys) ∧
    (mergeMap a b).keys.Nodup ∧
    (∀ k, (mergeMap a b).valueAt k =
      match b.valueAt k with
      | some v => some v
      | none => a.valueAt k) := by
  have hnodup : ((mergeMap a b).pairs.map (fun pair => pair.key)).Nodup := by
    rw [mergeMap_pairs]
    exact foldl_upsert_nodup _ _ ha
  have hlook : ∀ k, lookup (mergeMap a b).pairs k =
      match lookup b.pairs k with
      | some v => some v
      | none => lookup a.pairs k := by
    intro k
    rw [mergeMap_pairs]
    exact lookup_foldl_upsert a.pairs b.pairs hb k
  refine ⟨?_, ?_, ?_, hnodup, ?_⟩
  · intro k v hmem
    rw [mem_iff_lookup _ hnodup, hlook k, (mem_iff_lookup _ hb k v).mp hmem]
  · intro k v hmem hk
    rw [mem_iff_lookup _ hnodup, hlook k, (lookup_eq_none_iff b.pairs k).mpr hk]
    exact (mem_iff_lookup _ ha k v).mp hmem
  · intro k hk
    simp only [CustomMap.keys, mergeMap_pairs] at hk
    exact foldl_upsert_keys_subset a.pairs b.pairs k hk
  · intro k
    rw [valueAt_eq_lookup, valueAt_eq_lookup, valueAt_eq_lookup]
    exact hlook k

/-- C6 at the Basic map of a `.jpg` path merged with a JPEG decoder map. -/
theorem C6_mergeMap_second_wins_witness :
    (insertAll [("FileName", "a.jpg"), ("FileType", ".jpg")]).keys.Nodup ∧
    (insertAll [("FileType", "JPEG"), ("Marker", "55551")]).keys.Nodup ∧
    (mergeMap (insertAll [("FileName", "a.jpg"), ("FileType", ".jpg")])
      (insertAll [("FileType", "JPEG"), ("Marker", "55551")])).valueAt "FileType" =
        some "JPEG" :=
  ⟨by decide, by decide,
    ((C6_mergeMap_second_wins (insertAll [("FileName", "a.jpg"), ("FileType", ".jpg")])
      (insertAll [("FileType", "JPEG"), ("Marker", "55551")]) (by decide) (by decide)).2.2.2.2
        "FileType").trans (by decide)⟩

/-- C7: merging is idempotent: for every map `m` produced by the map
operations, `mergeMap(m, m)` is `m` again, the same pairs in the same order,
and `operator==` confirms it; this holds both when the second argument is a
copy of `m` and when both parameters are bound to the object `m` itself. -/
theorem C7_mergeMap_idempotent [Inhabited ν] [DecidableEq ν] (m : CustomMap κ ν)
    (h : Reachable m) :
    mergeMap m m = m ∧ (mergeMap m m).eq m = true ∧
    mergeMapAliased m = m ∧ (mergeMapAliased m).eq m = true := by
  have hm := mergeMap_self_of_nodup m (nodup_of_reachable m h)
  have ha := mergeMapAliased_of_nodup m (nodup_of_reachable m h)
  refine ⟨hm, ?_, ha, ?_⟩
  · rw [hm]
    simp [CustomMap.eq]
  · rw [ha]
    simp [CustomMap.eq]

/-- C7 at a map built by two assignments. -/
theorem C7_mergeMap_idempotent_witness :
    Reachable (((CustomMap.new : CustomMap String String).assign "FileType" "PNG").assign
      "Width" "800") ∧
    mergeMap (((CustomMap.new : CustomMap String String).assign "FileType" "PNG").assign
        "Width" "800")
      (((CustomMap.new : CustomMap String String).assign "FileType" "PNG").assign
        "Width" "800") =
      ((CustomMap.new : CustomMap String String).assign "FileType" "PNG").assign
        "Width" "800" :=
  ⟨Reachable.assign "Width" "800" (Reachable.assign "FileType" "PNG" Reachable.new),
    (C7_mergeMap_idempotent _
      (Reachable.assign "Width" "800" (Reachable.assign "FileType" "PNG" Reachable.new))).1⟩

/-- C8: `insert(k, v)` and the assignment `m[k] = v` are the same upsert.  If
`k` is present its pair, at the position `find(k)`, becomes `(k, v)` and the
vector is otherwise unchanged (same size, same other pairs, `k` at the same
position); if `k` is absent the pair `(k, v)` is appended at the end and the
existing pairs are unchanged. -/
theorem C8_insert_is_upsert [Inhabited ν] (m : CustomMap κ ν) (key : κ) (value : ν) :
    m.assign key value = m.insert key value ∧
    (m.insert key value).find key = m.find key ∧
    (m.insert key value).pairs =
      (if key ∈ m.keys then m.pairs.set (m.find key) ⟨key, value⟩
       else m.pairs ++ [⟨key, value⟩]) ∧
    (m.insert key value).size = (if key ∈ m.keys then m.size else m.size + 1) := by
  have hpairs : (m.insert key value).pairs =
      (if key ∈ m.keys then m.pairs.set (m.find key) ⟨key, value⟩
       else m.pairs ++ [⟨key, value⟩]) := by
    rw [insert_pairs, upsert_eq_set]
    rfl
  refine ⟨CustomMap.eq_of_pairs ?_, ?_, hpairs, ?_⟩
  · rw [assign_pairs, insert_pairs]
  · simp only [CustomMap.find, insert_pairs]
    exact findIdx_upsert m.pairs key value
  · simp only [CustomMap.size, hpairs]
    split <;> simp

/-- C9: no duplicate keys: starting from the empty map, after any sequence of
`insert`, `operator[]` (read or assignment), `erase`, `clear` and `mergeMap`
operations the stored pairs have pairwise distinct keys. -/
theorem C9_no_duplicate_keys [Inhabited ν] (m : CustomMap κ ν) (h : Reachable m) :
    m.keys.Nodup ∧ m.pairs.Pairwise (fun p q => p.key ≠ q.key) := by
  have hn := nodup_of_reachable m h
  refine ⟨hn, ?_⟩
  simp only [CustomMap.keys, List.Nodup, List.pairwise_map] at hn
  exact hn

/-- C9 at a map built by an insert, a repeated assignment, a read of a missing
key and an erase. -/
theorem C9_no_duplicate_keys_witness :
    Reachable ((((((CustomMap.new : CustomMap String String).insert "a" "1").assign
      "a" "2").subscript "b").1).erase "c") ∧
    ((((((CustomMap.new : CustomMap String String).insert "a" "1").assign
      "a" "2").subscript "b").1).erase "c").keys.Nodup :=
  ⟨Reachable.erase "c" (Reachable.subscript "b" (Reachable.assign "a" "2"
      (Reachable.insert "a" "1" Reachable.new))),
    (C9_no_duplicate_keys _ (Reachable.erase "c" (Reachable.subscript "b"
      (Reachable.assign "a" "2" (Reachable.insert "a" "1" Reachable.new))))).1⟩

/-- C10: iteration order is first-insertion order: after any sequence of
`insert(k_i, v_i)` calls on an empty map, iterating the map yields the distinct
keys in the order of their first occurrence in the sequence, each paired with
the value of its last insertion. -/
theorem C10_iteration_order (calls : List (κ × ν)) :
    (insertAll calls).keys = specFirstOccurrences (calls.map Prod.fst) ∧
    (insertAll calls).pairs.map (fun pair => (pair.key, some pair.value)) =
      (specFirstOccurrences (calls.map Prod.fst)).map (fun k => (k, specLastValue calls k)) := by
  have hk := insertAll_keys calls
  refine ⟨hk, ?_⟩
  have hn : ((insertAll calls).pairs.map (fun pair => pair.key)).Nodup := by
    have := specFirstOccurrences_nodup (calls.map Prod.fst)
    rw [← hk] at this
    exact this
  rw [map_pairs_eq_map_keys _ hn]
  simp only [CustomMap.keys] at hk
  rw [hk]
  apply List.map_congr_left
  intro k _
  rw [insertAll_lookup]

end Map

/-! ## Facts about the decoders -/

theorem sizeof_JPEGHeader : sizeof JPEGHeader.members = 20 := by decide

theorem sizeof_PNGHeader : sizeof PNGHeader.members = 16 := by decide

theorem sizeof_BMPHeader : sizeof BMPHeader.members = 56 := by decide

theorem sizeof_WAVHeader : sizeof WAVHeader.members = 44 := by decide

theorem sizeof_GIFHeader : sizeof GIFHeader.members = 6 := by decide

theorem sizeof_LogicalScreenDescriptor : sizeof LogicalScreenDescriptor.members = 8 := by
  decide

/-- A read that the file can satisfy in full replaces the whole object. -/
theorem istreamRead_of_le (dst content : List Byte) (count : Nat)
    (hdst : dst.length ≤ count) (h : count ≤ content.length) :
    istreamRead dst content count = content.take count := by
  have hl : (content.take count).length = count := by
    rw [List.length_take]
    omega
  have hd : dst.drop count = [] := List.drop_eq_nil_of_le hdst
  simp only [istreamRead, hl, hd, List.append_nil]

/-- A header object that the file fills completely holds the first
`sizeof` bytes of the file, whatever it held before. -/
theorem readHeader_full (w : World) (filePath : String) (content : List Byte)
    (members : List Member) (h : sizeof members ≤ content.length) :
    readHeader w filePath content members = content.take (sizeof members) := by
  apply istreamRead_of_le _ _ _ _ h
  simp [uninitialised]

/-- A field that lies inside the first `n` bytes is the same in the whole
file and in its first `n` bytes. -/
theorem field_take (content : List Byte) (n offset size : Nat) (h : offset + size ≤ n) :
    field (content.take n) offset size = field content offset size := by
  simp only [field, List.drop_take, List.take_take]
  congr 1
  omega

/-- A guarded computation returns exactly when the assertion holds and the
guarded part returns. -/
theorem custom_assert_bind_returned {α : Type} (condition : Bool) (message : String)
    (f : Unit → Outcome α) (a : α) :
    (custom_assert condition message).bind f = Outcome.returned a ↔
      condition = true ∧ f () = Outcome.returned a := by
  cases condition <;> simp [custom_assert, Outcome.bind]

/-- A guarded computation whose assertion holds is the guarded part. -/
theorem custom_assert_bind_true {α : Type} (message : String) (f : Unit → Outcome α) :
    (custom_assert true message).bind f = f () := by
  simp [custom_assert, Outcome.bind]

/-- A guarded computation whose assertion fails raises. -/
theorem custom_assert_bind_false {α : Type} (message : String) (f : Unit → Outcome α) :
    (custom_assert false message).bind f = Outcome.raised "Assertion failed" := by
  simp [custom_assert, Outcome.bind]

/-- A sequence of two steps returns exactly when the first step returns and
the second one, run on its result, returns. -/
theorem bind_returned_iff {α β : Type} (o : Outcome α) (f : α → Outcome β) (b : β) :
    o.bind f = Outcome.returned b ↔ ∃ a, o = Outcome.returned a ∧ f a = Outcome.returned b := by
  cases o <;> simp [Outcome.bind]

/-- The Basic decoder in terms of the three calls of `std::ctime`: it returns
its six keys when all three give a string, and it is left by the
`std::logic_error` of the string constructor as soon as one gives a null
pointer. -/
theorem analyzeBasic_eq (w : World) (filePath : String) :
    analyzeBasic w filePath =
      match w.ctime ((w.stat filePath).getD (w.statGarbage filePath)).st_ctime,
        w.ctime ((w.stat filePath).getD (w.statGarbage filePath)).st_mtime,
        w.ctime ((w.stat filePath).getD (w.statGarbage filePath)).st_atime with
      | some creationTime, some lastModified, some lastAccess =>
        Outcome.returned
          ((((((CustomMap.new.assign "FileName" (pathFilename filePath)).assign
            "FileSize"
              (match w.stat filePath with
              | some st => to_string st.st_size ++ " bytes"
              | none => "")).assign
            "FileType" (pathExtension filePath)).assign
            "CreationTime" creationTime).assign
            "LastModified" lastModified).assign
            "LastAccess" lastAccess)
      | _, _, _ => Outcome.libraryError w.nullStringWhat := by
  simp only [analyzeBasic, extractBasicMetadata]
  cases w.ctime ((w.stat filePath).getD (w.statGarbage filePath)).st_ctime <;>
    cases w.ctime ((w.stat filePath).getD (w.statGarbage filePath)).st_mtime <;>
      cases w.ctime ((w.stat filePath).getD (w.statGarbage filePath)).st_atime <;> rfl

theorem analyzeBasic_reachable (w : World) (filePath : String) (m : Metadata)
    (h : analyzeBasic w filePath = Outcome.returned m) : Reachable m := by
  simp only [analyzeBasic, bind_returned_iff, Outcome.returned.injEq] at h
  obtain ⟨basicMetadata, _, h⟩ := h
  subst h
  repeat apply Reachable.assign
  exact Reachable.new

theorem analyzePDF_reachable (w : World) (filePath : String) (m : Metadata)
    (h : analyzePDF w filePath = Outcome.returned m) : Reachable m := by
  simp only [analyzePDF, custom_assert_bind_returned] at h
  obtain ⟨_, h⟩ := h
  split at h
  · simp only [Outcome.returned.injEq] at h
    subst h
    exact Reachable.new
  · split at h
    · simp only [Outcome.returned.injEq] at h
      subst h
      exact Reachable.new
    · simp only [bind_returned_iff, Outcome.returned.injEq] at h
      obtain ⟨_, _, _, _, _, _, _, _, _, _, _, _, h⟩ := h
      subst h
      repeat apply Reachable.assign
      exact Reachable.new

theorem analyzeTXT_reachable (w : World) (filePath : String) (m : Metadata)
    (h : analyzeTXT w filePath = Outcome.returned m) : Reachable m := by
  simp only [analyzeTXT, custom_assert_bind_returned] at h
  obtain ⟨_, h⟩ := h
  split at h
  · simp only [Outcome.returned.injEq] at h
    subst h
    exact Reachable.new
  · simp only [Outcome.returned.injEq] at h
    subst h
    apply Reachable.assign
    apply Reachable.assign
    apply Reachable.assign
    split
    · apply Reachable.assign
      split
      · exact Reachable.assign _ _ Reachable.new
      · exact Reachable.new
    · split
      · exact Reachable.assign _ _ Reachable.new
      · exact Reachable.new

/-- A decoder that opens the file, reads one header and stores its fields
returns a map a program can build. -/
theorem reachable_of_open_branch (w : World) (filePath : String) (m : Metadata)
    (build : List Byte → Metadata) (hbuild : ∀ content, Reachable (build content))
    (h : (match w.fs filePath with
      | none => Outcome.returned CustomMap.new
      | some content => Outcome.returned (build content)) = Outcome.returned m) :
    Reachable m := by
  split at h
  · simp only [Outcome.returned.injEq] at h
    subst h
    exact Reachable.new
  · simp only [Outcome.returned.injEq] at h
    subst h
    exact hbuild _

theorem analyzeJPEG_reachable (w : World) (filePath : String) (m : Metadata)
    (h : analyzeJPEG w filePath = Outcome.returned m) : Reachable m := by
  simp only [analyzeJPEG, custom_assert_bind_returned] at h
  refine reachable_of_open_branch w filePath m _ ?_ h.2
  intro content
  repeat apply Reachable.assign
  exact Reachable.new

theorem analyzePNG_reachable (w : World) (filePath : String) (m : Metadata)
    (h : analyzePNG w filePath = Outcome.returned m) : Reachable m := by
  simp only [analyzePNG, custom_assert_bind_returned] at h
  refine reachable_of_open_branch w filePath m _ ?_ h.2
  intro content
  repeat apply Reachable.assign
  exact Reachable.new

theorem analyzeBMP_reachable (w : World) (filePath : String) (m : Metadata)
    (h : analyzeBMP w filePath = Outcome.returned m) : Reachable m := by
  simp only [analyzeBMP, custom_assert_bind_returned] at h
  refine reachable_of_open_branch w filePath m _ ?_ h.2
  intro content
  repeat apply Reachable.assign
  exact Reachable.new

theorem analyzeWAV_reachable (w : World) (filePath : String) (m : Metadata)
    (h : analyzeWAV w filePath = Outcome.returned m) : Reachable m := by
  simp only [analyzeWAV, custom_assert_bind_returned] at h
  refine reachable_of_open_branch w filePath m _ ?_ h.2
  intro content
  repeat apply Reachable.assign
  exact Reachable.new

theorem analyzeGIF_reachable (w : World) (filePath : String) (m : Metadata)
    (h : analyzeGIF w filePath = Outcome.returned m) : Reachable m := by
  simp only [analyzeGIF, custom_assert_bind_returned] at h
  refine reachable_of_open_branch w filePath m _ ?_ h.2
  intro content
  repeat apply Reachable.assign
  exact Reachable.new

theorem analyzeLSD_reachable (w : World) (filePath : String) (m : Metadata)
    (h : analyzeLSD w filePath = Outcome.returned m) : Reachable m := by
  simp only [analyzeLSD, custom_assert_bind_returned, readGifLogicalScreenDescriptor] at h
  obtain ⟨_, h⟩ := h
  cases hopen : w.fs filePath with
  | none =>
    simp only [hopen, Outcome.returned.injEq] at h
    subst h
    exact Reachable.new
  | some content =>
    simp only [hopen, Outcome.returned.injEq] at h
    subst h
    repeat apply Reachable.assign
    exact Reachable.new

theorem analyzeZIP_reachable (w : World) (filePath : String) (m : Metadata)
    (h : analyzeZIP w filePath = Outcome.returned m) : Reachable m := by
  simp only [analyzeZIP, custom_assert_bind_returned] at h
  obtain ⟨_, h⟩ := h
  have hbase : ∀ zip : ZipArchive, Reachable
      (if zip.commentLength > 0 then
        (match zip.stat with
          | some size =>
              ((CustomMap.new : Metadata).assign "FileType" "ZIP").assign "FileSize"
                (to_string size ++ " bytes")
          | none => CustomMap.new).assign "Comment"
            (bytesToString (zip.comment.take zip.commentLength.toNat))
       else
        (match zip.stat with
          | some size =>
              ((CustomMap.new : Metadata).assign "FileType" "ZIP").assign "FileSize"
                (to_string size ++ " bytes")
          | none => CustomMap.new)) := by
    intro zip
    have hstat : Reachable
        (match zip.stat with
          | some size =>
              ((CustomMap.new : Metadata).assign "FileType" "ZIP").assign "FileSize"
                (to_string size ++ " bytes")
          | none => CustomMap.new) := by
      split
      · exact Reachable.assign _ _ (Reachable.assign _ _ Reachable.new)
      · exact Reachable.new
    split
    · exact Reachable.assign _ _ hstat
    · exact hstat
  split at h
  · simp only [Outcome.returned.injEq] at h
    subst h
    exact Reachable.new
  · rename_i zip _
    split at h
    · simp only [Outcome.returned.injEq] at h
      subst h
      exact hbase zip
    · split at h
      · exact absurd h (by simp)
      · simp only [Outcome.returned.injEq] at h
        subst h
        repeat apply Reachable.assign
        exact hbase zip

/-- The map a decoder returns is one a program can build, so its keys are
pairwise distinct. -/
theorem analyzeMetadataHelper_reachable (w : World) (T : HeaderType) (filePath : String)
    (m : Metadata) (h : analyzeMetadataHelper w T filePath = Outcome.returned m) :
    Reachable m := by
  cases T
  · exact analyzeBasic_reachable w filePath m h
  · exact analyzePDF_reachable w filePath m h
  · exact analyzeTXT_reachable w filePath m h
  · exact analyzeJPEG_reachable w filePath m h
  · exact analyzePNG_reachable w filePath m h
  · exact analyzeBMP_reachable w filePath m h
  · exact analyzeZIP_reachable w filePath m h
  · exact analyzeWAV_reachable w filePath m h
  · exact analyzeGIF_reachable w filePath m h
  · exact analyzeLSD_reachable w filePath m h

/-- The keys after `m[key] = value`. -/
theorem keys_assign (m : Metadata) (key value : String) :
    (m.assign key value).keys = if key ∈ m.keys then m.keys else m.keys ++ [key] := by
  simp only [CustomMap.keys, assign_pairs, upsert_keys]

/-- The value under `k` after `m[key] = value`. -/
theorem valueAt_assign (m : Metadata) (key value k : String) :
    (m.assign key value).valueAt k = if k = key then some value else m.valueAt k := by
  simp only [valueAt_eq_lookup, assign_pairs, lookup_upsert]

theorem keys_new : (CustomMap.new : Metadata).keys = [] := rfl

theorem valueAt_new (k : String) : (CustomMap.new : Metadata).valueAt k = none := rfl

/-- The fixed-header decoders, given the extension they assert and a file that
opens, return without raising a map with the key sequence and the format tag
of the specification, whatever the length of the file. -/
theorem fixedHeader_keys (w : World) (T : HeaderType) (filePath : String)
    (content : List Byte) (members : List Member)
    (hfixed : fixedHeader T = some members)
    (hext : expectedExtension T = some (pathExtension filePath))
    (hopen : w.fs filePath = some content) :
    ∃ m, analyzeMetadataHelper w T filePath = Outcome.returned m ∧
      m.keys = specFieldList T ∧ m.valueAt "FileType" = some (specFormatTag T) := by
  cases T <;> simp only [fixedHeader, reduceCtorEq] at hfixed <;>
    simp only [expectedExtension, Option.some.injEq] at hext
  · simp only [analyzeMetadataHelper, analyzeJPEG, ← hext, decide_True,
      custom_assert_bind_true, hopen]
    refine ⟨_, rfl, ?_, ?_⟩
    · simp only [keys_assign, keys_new, specFieldList, List.mem_cons, List.not_mem_nil,
        or_false, String.reduceEq, List.nil_append, List.cons_append, if_false,
        List.mem_singleton, or_self]
    · simp only [valueAt_assign, valueAt_new, specFormatTag, String.reduceEq, if_false,
        if_true]
  · simp only [analyzeMetadataHelper, analyzePNG, ← hext, decide_True,
      custom_assert_bind_true, hopen]
    refine ⟨_, rfl, ?_, ?_⟩
    · simp only [keys_assign, keys_new, specFieldList, List.mem_cons, List.not_mem_nil,
        or_false, String.reduceEq, List.nil_append, List.cons_append, if_false,
        List.mem_singleton, or_self]
    · simp only [valueAt_assign, valueAt_new, specFormatTag, String.reduceEq, if_false,
        if_true]
  · simp only [analyzeMetadataHelper, analyzeBMP, ← hext, decide_True,
      custom_assert_bind_true, hopen]
    refine ⟨_, rfl, ?_, ?_⟩
    · simp only [keys_assign, keys_new, specFieldList, List.mem_cons, List.not_mem_nil,
        or_false, String.reduceEq, List.nil_append, List.cons_append, if_false,
        List.mem_singleton, or_self]
    · simp only [valueAt_assign, valueAt_new, specFormatTag, String.reduceEq, if_false,
        if_true]
  · simp only [analyzeMetadataHelper, analyzeWAV, ← hext, decide_True,
      custom_assert_bind_true, hopen]
    refine ⟨_, rfl, ?_, ?_⟩
    · simp only [keys_assign, keys_new, specFieldList, List.mem_cons, List.not_mem_nil,
        or_false, String.reduceEq, List.nil_append, List.cons_append, if_false,
        List.mem_singleton, or_self]
    · simp only [valueAt_assign, valueAt_new, specFormatTag, String.reduceEq, if_false,
        if_true]
  · simp only [analyzeMetadataHelper, analyzeGIF, ← hext, decide_True,
      custom_assert_bind_true, hopen]
    refine ⟨_, rfl, ?_, ?_⟩
    · simp only [keys_assign, keys_new, specFieldList, List.mem_cons, List.not_mem_nil,
        or_false, String.reduceEq, List.nil_append, List.cons_append, if_false,
        List.mem_singleton, or_self]
    · simp only [valueAt_assign, valueAt_new, specFormatTag, String.reduceEq, if_false,
        if_true]
  · simp only [analyzeMetadataHelper, analyzeLSD, readGifLogicalScreenDescriptor, ← hext,
      decide_True, custom_assert_bind_true, hopen]
    refine ⟨_, rfl, ?_, ?_⟩
    · simp only [keys_assign, keys_new, specFieldList, List.mem_cons, List.not_mem_nil,
        or_false, String.reduceEq, List.nil_append, List.cons_append, if_false,
        List.mem_singleton, or_self]
    · simp only [valueAt_assign, valueAt_new, specFormatTag, String.reduceEq, if_false,
        if_true]

/-- With a file that holds a whole header, what a fixed-header decoder returns
is the same in any two environments that agree on the file. -/
theorem fixedHeader_full_read (w w1 : World) (T : HeaderType) (filePath : String)
    (content : List Byte) (members : List Member)
    (hfixed : fixedHeader T = some members)
    (hopen : w.fs filePath = some content) (hopen1 : w1.fs filePath = some content)
    (hlen : sizeof members ≤ content.length) :
    analyzeMetadataHelper w T filePath = analyzeMetadataHelper w1 T filePath := by
  cases T <;> simp only [fixedHeader, reduceCtorEq, Option.some.injEq] at hfixed <;>
    subst hfixed
  · simp only [analyzeMetadataHelper, analyzeJPEG, hopen, hopen1, readHeader_full _ _ _ _ hlen]
  · simp only [analyzeMetadataHelper, analyzePNG, hopen, hopen1, readHeader_full _ _ _ _ hlen]
  · simp only [analyzeMetadataHelper, analyzeBMP, hopen, hopen1, readHeader_full _ _ _ _ hlen]
  · simp only [analyzeMetadataHelper, analyzeWAV, hopen, hopen1, readHeader_full _ _ _ _ hlen]
  · simp only [analyzeMetadataHelper, analyzeGIF, hopen, hopen1, readHeader_full _ _ _ _ hlen]
  · simp only [analyzeMetadataHelper, analyzeLSD, readGifLogicalScreenDescriptor, hopen,
      hopen1, readHeader_full _ _ _ _ hlen]

/-- The bytes of a member of a header object that the file filled completely
are bytes of the file. -/
theorem memberBytes_readHeader (w : World) (filePath : String) (content : List Byte)
    (members : List Member) (i offset size : Nat)
    (hlen : sizeof members ≤ content.length)
    (hmember : ∀ object, memberBytes members object i = field object offset size)
    (hinside : offset + size ≤ sizeof members) :
    memberBytes members (readHeader w filePath content members) i =
      field content offset size := by
  rw [hmember, readHeader_full w filePath content members hlen, field_take _ _ _ _ hinside]

/-! ## The decoders: the claims -/

/-- C15 as stated fails: for a header that stores the width 800 and the height
600 as big-endian fields after the signature, the PNG decoder yields
Width = "537067520" and Height = "1476526080", not "800" and "600". -/
theorem C15_counterexample :
    be (field samplePng 8 4) = 800 ∧ be (field samplePng 12 4) = 600 ∧
    analyzeMetadataHelper (worldOf (singleFile "a.png" samplePng)) HeaderType.PNGHeader
        "a.png" =
      Outcome.returned
        ⟨[⟨"FileType", "PNG"⟩, ⟨"Signature", bytesToString PNGSignature⟩,
          ⟨"Width", "537067520"⟩, ⟨"Height", "1476526080"⟩]⟩ ∧
    "537067520" ≠ to_string 800 ∧ "1476526080" ≠ to_string 600 := by
  refine ⟨by decide, by decide, by decide, by decide, by decide⟩

/-- C15, amended: for every `.png` file of at least 16 bytes the PNG decoder
yields Width and Height as the decimal text of the four bytes at offsets 8
and 12 read in the native, little-endian order (no byte swap is applied to the
big-endian fields of the format). -/
theorem C15_png_native_order (w : World) (filePath : String) (content : List Byte)
    (hext : pathExtension filePath = ".png") (hopen : w.fs filePath = some content)
    (hlen : 16 ≤ content.length) :
    ∃ m, analyzeMetadataHelper w HeaderType.PNGHeader filePath = Outcome.returned m ∧
      m.valueAt "Width" = some (to_string (le (field content 8 4))) ∧
      m.valueAt "Height" = some (to_string (le (field content 12 4))) := by
  have hsize : sizeof PNGHeader.members ≤ content.length := by
    rw [sizeof_PNGHeader]
    exact hlen
  have hw := memberBytes_readHeader w filePath content PNGHeader.members 1 8 4 hsize
    (fun _ => rfl) (by decide)
  have hh := memberBytes_readHeader w filePath content PNGHeader.members 2 12 4 hsize
    (fun _ => rfl) (by decide)
  simp only [analyzeMetadataHelper, analyzePNG, hext, decide_True, custom_assert_bind_true,
    hopen]
  refine ⟨_, rfl, ?_, ?_⟩ <;>
    simp only [valueAt_assign, valueAt_new, String.reduceEq, if_false, if_true, memberValue,
      hw, hh]

/-- C15, amended, at the sample header. -/
theorem C15_png_native_order_witness :
    pathExtension "a.png" = ".png" ∧
    (worldOf (singleFile "a.png" samplePng)).fs "a.png" = some samplePng ∧
    16 ≤ samplePng.length ∧
    ∃ m, analyzeMetadataHelper (worldOf (singleFile "a.png" samplePng)) HeaderType.PNGHeader
        "a.png" = Outcome.returned m ∧
      m.valueAt "Width" = some "537067520" ∧ m.valueAt "Height" = some "1476526080" := by
  refine ⟨by decide, by decide, by decide, ?_⟩
  obtain ⟨m, hm, hw, hh⟩ :=
    C15_png_native_order (worldOf (singleFile "a.png" samplePng)) "a.png" samplePng
      (by decide) (by decide) (by decide)
  exact ⟨m, hm, hw.trans (by decide), hh.trans (by decide)⟩

/-- C16 as stated fails: the canonical 44-byte header with 44100 Hz, 2
channels and 16 bits, stored under the name `a.WAV`, opens and is long
enough, but the WAV decoder yields no map: its extension assertion fails. -/
theorem C16_counterexample :
    (worldOf (singleFile "a.WAV" sampleWav)).fs "a.WAV" = some sampleWav ∧
    44 ≤ sampleWav.length ∧
    le (field sampleWav 24 4) = 44100 ∧ le (field sampleWav 22 2) = 2 ∧
    le (field sampleWav 34 2) = 16 ∧
    pathExtension "a.WAV" = ".WAV" ∧
    analyzeMetadataHelper (worldOf (singleFile "a.WAV" sampleWav)) HeaderType.WAVHeader
      "a.WAV" = Outcome.raised "Assertion failed" := by
  refine ⟨by decide, by decide, by decide, by decide, by decide, by decide, by decide⟩

/-- C16, amended: for every file of at least 44 bytes whose path has the
extension ".wav", the WAV decoder yields SampleRate, NumChannels and
BitsPerSample as the exact decimal text of the little-endian fields at the
offsets 24 (4 bytes), 22 (2 bytes) and 34 (2 bytes). -/
theorem C16_wav_fields (w : World) (filePath : String) (content : List Byte)
    (hext : pathExtension filePath = ".wav") (hopen : w.fs filePath = some content)
    (hlen : 44 ≤ content.length) :
    ∃ m, analyzeMetadataHelper w HeaderType.WAVHeader filePath = Outcome.returned m ∧
      m.valueAt "SampleRate" = some (to_string (le (field content 24 4))) ∧
      m.valueAt "NumChannels" = some (to_string (le (field content 22 2))) ∧
      m.valueAt "BitsPerSample" = some (to_string (le (field content 34 2))) := by
  have hsize : sizeof WAVHeader.members ≤ content.length := by
    rw [sizeof_WAVHeader]
    exact hlen
  have hs := memberBytes_readHeader w filePath content WAVHeader.members 7 24 4 hsize
    (fun _ => rfl) (by decide)
  have hc := memberBytes_readHeader w filePath content WAVHeader.members 6 22 2 hsize
    (fun _ => rfl) (by decide)
  have hb := memberBytes_readHeader w filePath content WAVHeader.members 10 34 2 hsize
    (fun _ => rfl) (by decide)
  simp only [analyzeMetadataHelper, analyzeWAV, hext, decide_True, custom_assert_bind_true,
    hopen]
  refine ⟨_, rfl, ?_, ?_, ?_⟩ <;>
    simp only [valueAt_assign, valueAt_new, String.reduceEq, if_false, if_true, memberValue,
      hs, hc, hb]

/-- C16, amended, at the canonical header with 44100 Hz, 2 channels and 16
bits under the name `a.wav`. -/
theorem C16_wav_fields_witness :
    pathExtension "a.wav" = ".wav" ∧
    (worldOf (singleFile "a.wav" sampleWav)).fs "a.wav" = some sampleWav ∧
    44 ≤ sampleWav.length ∧
    le (field sampleWav 24 4) = 44100 ∧ le (field sampleWav 22 2) = 2 ∧
    le (field sampleWav 34 2) = 16 ∧
    ∃ m, analyzeMetadataHelper (worldOf (singleFile "a.wav" sampleWav)) HeaderType.WAVHeader
        "a.wav" = Outcome.returned m ∧
      m.valueAt "SampleRate" = some "44100" ∧ m.valueAt "NumChannels" = some "2" ∧
      m.valueAt "BitsPerSample" = some "16" := by
  refine ⟨by decide, by decide, by decide, by decide, by decide, by decide, ?_⟩
  obtain ⟨m, hm, hs, hc, hb⟩ :=
    C16_wav_fields (worldOf (singleFile "a.wav" sampleWav)) "a.wav" sampleWav
      (by decide) (by decide) (by decide)
  exact ⟨m, hm, hs.trans (by decide), hc.trans (by decide), hb.trans (by decide)⟩

/-- What the BMP decoder does with a file of at least 56 bytes: the struct has
two padding bytes behind `signature`, so FileSize, Width and Height come from
the file offsets 4, 20 and 24. -/
theorem bmp_fields_of_full_read (w : World) (filePath : String) (content : List Byte)
    (hext : pathExtension filePath = ".bmp") (hopen : w.fs filePath = some content)
    (hlen : 56 ≤ content.length) :
    ∃ m, analyzeMetadataHelper w HeaderType.BMPHeader filePath = Outcome.returned m ∧
      m.valueAt "Signature" = some (bytesToString (field content 0 2)) ∧
      m.valueAt "FileSize" = some (to_string (le (field content 4 4))) ∧
      m.valueAt "Width" = some (to_string_int (toInt32 (le (field content 20 4)))) ∧
      m.valueAt "Height" = some (to_string_int (toInt32 (le (field content 24 4)))) := by
  have hsize : sizeof BMPHeader.members ≤ content.length := by
    rw [sizeof_BMPHeader]
    exact hlen
  have h0 := memberBytes_readHeader w filePath content BMPHeader.members 0 0 2 hsize
    (fun _ => rfl) (by decide)
  have h1 := memberBytes_readHeader w filePath content BMPHeader.members 1 4 4 hsize
    (fun _ => rfl) (by decide)
  have h6 := memberBytes_readHeader w filePath content BMPHeader.members 6 20 4 hsize
    (fun _ => rfl) (by decide)
  have h7 := memberBytes_readHeader w filePath content BMPHeader.members 7 24 4 hsize
    (fun _ => rfl) (by decide)
  simp only [analyzeMetadataHelper, analyzeBMP, hext, decide_True, custom_assert_bind_true,
    hopen]
  refine ⟨_, rfl, ?_, ?_, ?_, ?_⟩ <;>
    simp only [valueAt_assign, valueAt_new, String.reduceEq, if_false, if_true, memberValue,
      h0, h1, h6, h7]

/-- What the JPEG decoder does with a file of at least 20 bytes: the struct
has a padding byte behind `identifier` and another behind `units`, so the
members from `version` on come from the file offsets 10, 12, 14, 16, 18
and 19. -/
theorem jpeg_fields_of_full_read (w : World) (filePath : String) (content : List Byte)
    (hext : pathExtension filePath = ".jpg") (hopen : w.fs filePath = some content)
    (hlen : 20 ≤ content.length) :
    ∃ m, analyzeMetadataHelper w HeaderType.JPEGHeader filePath = Outcome.returned m ∧
      m.valueAt "Marker" = some (to_string (le (field content 0 2))) ∧
      m.valueAt "Length" = some (to_string (le (field content 2 2))) ∧
      m.valueAt "Identifier" = some (bytesToString (field content 4 5)) ∧
      m.valueAt "Version" = some (to_string (le (field content 10 2))) ∧
      m.valueAt "Units" = some (to_string (le (field content 12 1))) ∧
      m.valueAt "XDensity" = some (to_string (le (field content 14 2))) ∧
      m.valueAt "YDensity" = some (to_string (le (field content 16 2))) ∧
      m.valueAt "ThumbnailWidth" = some (to_string (le (field content 18 1))) ∧
      m.valueAt "ThumbnailHeight" = some (to_string (le (field content 19 1))) := by
  have hsize : sizeof JPEGHeader.members ≤ content.length := by
    rw [sizeof_JPEGHeader]
    exact hlen
  have h0 := memberBytes_readHeader w filePath content JPEGHeader.members 0 0 2 hsize
    (fun _ => rfl) (by decide)
  have h1 := memberBytes_readHeader w filePath content JPEGHeader.members 1 2 2 hsize
    (fun _ => rfl) (by decide)
  have h2 := memberBytes_readHeader w filePath content JPEGHeader.members 2 4 5 hsize
    (fun _ => rfl) (by decide)
  have h3 := memberBytes_readHeader w filePath content JPEGHeader.members 3 10 2 hsize
    (fun _ => rfl) (by decide)
  have h4 := memberBytes_readHeader w filePath content JPEGHeader.members 4 12 1 hsize
    (fun _ => rfl) (by decide)
  have h5 := memberBytes_readHeader w filePath content JPEGHeader.members 5 14 2 hsize
    (fun _ => rfl) (by decide)
  have h6 := memberBytes_readHeader w filePath content JPEGHeader.members 6 16 2 hsize
    (fun _ => rfl) (by decide)
  have h7 := memberBytes_readHeader w filePath content JPEGHeader.members 7 18 1 hsize
    (fun _ => rfl) (by decide)
  have h8 := memberBytes_readHeader w filePath content JPEGHeader.members 8 19 1 hsize
    (fun _ => rfl) (by decide)
  simp only [analyzeMetadataHelper, analyzeJPEG, hext, decide_True, custom_assert_bind_true,
    hopen]
  refine ⟨_, rfl, ?_, ?_, ?_, ?_, ?_, ?_, ?_, ?_, ?_⟩ <;>
    simp only [valueAt_assign, valueAt_new, String.reduceEq, if_false, if_true, memberValue,
      h0, h1, h2, h3, h4, h5, h6, h7, h8]

/-- C17, evaluated where the code departs from it: for the 70-byte sample file
the file layout gives FileSize 70, Width 2 and Height 2 (offsets 2, 18
and 22), but `struct BMPHeader` has 56 bytes with `fileSize`, `width` and
`height` at the offsets 4, 20 and 24, and the decoder reports FileSize "0",
Width "131072" and Height "65536". -/
theorem C17_bmp_struct_padding :
    54 ≤ sampleBmp.length ∧
    le (field sampleBmp 2 4) = 70 ∧
    toInt32 (le (field sampleBmp 18 4)) = 2 ∧ toInt32 (le (field sampleBmp 22 4)) = 2 ∧
    sizeofWith packedAlign BMPHeader.members = 54 ∧
    sizeof BMPHeader.members = 56 ∧
    offsetof BMPHeader.members 1 = 4 ∧ offsetof BMPHeader.members 6 = 20 ∧
    offsetof BMPHeader.members 7 = 24 ∧
    analyzeMetadataHelper (worldOf (singleFile "a.bmp" sampleBmp)) HeaderType.BMPHeader
        "a.bmp" =
      Outcome.returned
        ⟨[⟨"FileType", "BMP"⟩, ⟨"Signature", "BM"⟩, ⟨"FileSize", "0"⟩,
          ⟨"Width", "131072"⟩, ⟨"Height", "65536"⟩]⟩ := by
  refine ⟨by decide, by decide, by decide, by decide, by decide, by decide, by decide,
    by decide, by decide, by decide⟩

/-- C18, evaluated where the code departs from it: for the 20-byte JFIF sample
the gap-free layout gives Version 70 (bytes 9..10), XDensity 1 (bytes 12..13)
and ThumbnailHeight 1 (byte 17), but `struct JPEGHeader` has 20 bytes with
`version` at offset 10, and the decoder reports Version "256", XDensity "256"
and ThumbnailHeight "0"; on the first 18 bytes alone the two thumbnail fields
are whatever the object held before the read. -/
theorem C18_jpeg_struct_padding :
    18 ≤ sampleJpeg.length ∧
    le (field sampleJpeg 9 2) = 70 ∧ le (field sampleJpeg 12 2) = 1 ∧
    le (field sampleJpeg 17 1) = 1 ∧
    sizeofWith packedAlign JPEGHeader.members = 18 ∧
    layoutFrom packedAlign 0 JPEGHeader.members = [0, 2, 4, 9, 11, 12, 14, 16, 17] ∧
    sizeof JPEGHeader.members = 20 ∧
    layoutFrom naturalAlign 0 JPEGHeader.members = [0, 2, 4, 10, 12, 14, 16, 18, 19] ∧
    analyzeMetadataHelper (worldOf (singleFile "a.jpg" sampleJpeg)) HeaderType.JPEGHeader
        "a.jpg" =
      Outcome.returned
        ⟨[⟨"FileType", "JPEG"⟩, ⟨"Marker", "55551"⟩, ⟨"Length", "57599"⟩,
          ⟨"Identifier", bytesToString [0x00, 0x10, 0x4A, 0x46, 0x49]⟩,
          ⟨"Version", "256"⟩, ⟨"Units", "1"⟩, ⟨"XDensity", "256"⟩, ⟨"YDensity", "256"⟩,
          ⟨"ThumbnailWidth", "0"⟩, ⟨"ThumbnailHeight", "0"⟩]⟩ ∧
    analyzeMetadataHelper (worldOf (singleFile "a.jpg" (sampleJpeg.take 18)))
        HeaderType.JPEGHeader "a.jpg" ≠
      analyzeMetadataHelper
        { worldOf (singleFile "a.jpg" (sampleJpeg.take 18)) with
          headerGarbage := fun _ _ => 7 }
        HeaderType.JPEGHeader "a.jpg" := by
  refine ⟨by decide, by decide, by decide, by decide, by decide, by decide, by decide,
    by decide, by decide, by decide⟩

/-- C19: for each fixed-header decoder, when the path has the expected
extension and the file opens, the decoder returns a map whose key sequence is
exactly the format's field list and whose FileType is the format tag; when
the file holds a full header (`sizeof` bytes), the map is moreover determined
by the path and the bytes of the file alone. -/
theorem C19_field_lists (w : World) (T : HeaderType) (filePath : String)
    (content : List Byte) (members : List Member)
    (hfixed : fixedHeader T = some members)
    (hext : expectedExtension T = some (pathExtension filePath))
    (hopen : w.fs filePath = some content) :
    (∃ m, analyzeMetadataHelper w T filePath = Outcome.returned m ∧
      m.keys = specFieldList T ∧ m.valueAt "FileType" = some (specFormatTag T)) ∧
    (sizeof members ≤ content.length →
      ∀ w1 : World, w1.fs filePath = some content →
        analyzeMetadataHelper w1 T filePath = analyzeMetadataHelper w T filePath) :=
  ⟨fixedHeader_keys w T filePath content members hfixed hext hopen,
    fun hlen w1 hopen1 =>
      fixedHeader_full_read w1 w T filePath content members hfixed hopen1 hopen hlen⟩

/-- C19 at the canonical WAV header. -/
theorem C19_field_lists_witness :
    fixedHeader HeaderType.WAVHeader = some WAVHeader.members ∧
    expectedExtension HeaderType.WAVHeader = some (pathExtension "a.wav") ∧
    (worldOf (singleFile "a.wav" sampleWav)).fs "a.wav" = some sampleWav ∧
    ∃ m, analyzeMetadataHelper (worldOf (singleFile "a.wav" sampleWav)) HeaderType.WAVHeader
        "a.wav" = Outcome.returned m ∧
      m.keys =
        ["FileType", "RIFFTag", "RIFFSize", "WAVETag", "FMTTag", "FMTSize", "AudioFormat",
          "NumChannels", "SampleRate", "ByteRate", "BlockAlign", "BitsPerSample", "DataTag",
          "DataSize"] ∧
      m.valueAt "FileType" = some "WAV" :=
  ⟨by decide, by decide, by decide,
    (C19_field_lists (worldOf (singleFile "a.wav" sampleWav)) HeaderType.WAVHeader "a.wav"
      sampleWav WAVHeader.members (by decide) (by decide) (by decide)).1⟩

/-- C20 as stated fails: run against a zero-byte `.jpg` file the JPEG decoder
returns a map with all ten keys, not an empty map. -/
theorem C20_counterexample :
    (worldOf (singleFile "a.jpg" [])).fs "a.jpg" = some [] ∧
    ∃ m, analyzeMetadataHelper (worldOf (singleFile "a.jpg" [])) HeaderType.JPEGHeader
        "a.jpg" = Outcome.returned m ∧
      m.empty = false ∧ m.size = 10 ∧ m.valueAt "FileType" = some "JPEG" :=
  ⟨by decide, _, rfl, by decide, by decide, by decide⟩

/-- C20, amended: run against an openable file with the expected extension, a
fixed-header decoder returns without raising whatever the length of the file,
a short read and a zero-byte file included, and the map is not empty: it has
the format's full key sequence with FileType set to the format tag. -/
theorem C20_short_read_populates (w : World) (T : HeaderType) (filePath : String)
    (content : List Byte) (members : List Member)
    (hfixed : fixedHeader T = some members)
    (hext : expectedExtension T = some (pathExtension filePath))
    (hopen : w.fs filePath = some content) :
    ∃ m, analyzeMetadataHelper w T filePath = Outcome.returned m ∧
      m.empty = false ∧ m.keys = specFieldList T ∧
      m.valueAt "FileType" = some (specFormatTag T) := by
  obtain ⟨m, hm, hkeys, htag⟩ := fixedHeader_keys w T filePath content members hfixed hext hopen
  refine ⟨m, hm, ?_, hkeys, htag⟩
  have hne : m.keys ≠ [] := by
    rw [hkeys]
    cases T <;> simp [fixedHeader] at hfixed <;> simp [specFieldList]
  cases hp : m.pairs with
  | nil => simp [CustomMap.keys, hp] at hne
  | cons p rest => simp [CustomMap.empty, hp]

/-- C20, amended, at a zero-byte `.gif` file. -/
theorem C20_short_read_populates_witness :
    fixedHeader HeaderType.GIFHeader = some GIFHeader.members ∧
    expectedExtension HeaderType.GIFHeader = some (pathExtension "e.gif") ∧
    (worldOf (singleFile "e.gif" [])).fs "e.gif" = some [] ∧
    ∃ m, analyzeMetadataHelper (worldOf (singleFile "e.gif" [])) HeaderType.GIFHeader
        "e.gif" = Outcome.returned m ∧
      m.empty = false ∧ m.keys = ["FileType", "Signature", "Version"] ∧
      m.valueAt "FileType" = some "GIF" :=
  ⟨by decide, by decide, by decide,
    C20_short_read_populates (worldOf (singleFile "e.gif" [])) HeaderType.GIFHeader "e.gif" []
      GIFHeader.members (by decide) (by decide) (by decide)⟩

/-! ## Facts about the coordinator and the command line -/

section Merge

variable {κ ν : Type} [DecidableEq κ]

/-- Merging an empty map changes nothing. -/
theorem mergeMap_new_right [Inhabited ν] (m : CustomMap κ ν) :
    mergeMap m CustomMap.new = m := rfl

theorem foldl_upsert_append (l s : List (Pair κ ν))
    (h : ((l ++ s).map (fun pair => pair.key)).Nodup) :
    s.foldl (fun l pair => upsert l pair.key pair.value) l = l ++ s := by
  induction s generalizing l with
  | nil => simp
  | cons p rest ih =>
    simp only [List.foldl_cons]
    have hp : p.key ∉ l.map (fun pair => pair.key) := by
      intro hmem
      rw [List.map_append, List.nodup_append] at h
      exact h.2.2 hmem (by simp)
    rw [upsert_of_not_mem l p.key p.value hp]
    have h2 : ((l ++ [p] ++ rest).map (fun pair => pair.key)).Nodup := by
      simpa using h
    have hp2 : (⟨p.key, p.value⟩ : Pair κ ν) = p := rfl
    rw [hp2, ih (l ++ [p]) h2]
    simp

/-- Merging into an empty map a map with distinct keys yields that map. -/
theorem mergeMap_new_left [Inhabited ν] (m : CustomMap κ ν) (h : m.keys.Nodup) :
    mergeMap CustomMap.new m = m := by
  apply CustomMap.eq_of_pairs
  rw [mergeMap_pairs]
  have := foldl_upsert_append ([] : List (Pair κ ν)) m.pairs (by simpa using h)
  simpa [CustomMap.new] using this

end Merge

/-- One step of the comma fold of `analyzeMetadata`. -/
theorem analyzeMetadata_snoc (w : World) (Ts : List HeaderType) (T : HeaderType)
    (filePath : String) :
    analyzeMetadata w (Ts ++ [T]) filePath =
      (analyzeMetadata w Ts filePath).bind fun metadata =>
        (analyzeMetadataHelper w T filePath).bind fun result =>
          Outcome.returned (mergeMap metadata result) := by
  simp only [analyzeMetadata, List.foldl_append, List.foldl_cons, List.foldl_nil]

/-- The comma fold started from a map `acc`, when every helper returns. -/
theorem analyzeMetadata_fold_returned (w : World) (filePath : String)
    (Ts : List HeaderType) (outputs : List Metadata) (acc : Metadata)
    (h : List.Forall₂ (fun T out => analyzeMetadataHelper w T filePath = Outcome.returned out)
      Ts outputs) :
    Ts.foldl
        (fun acc T =>
          acc.bind fun metadata =>
            (analyzeMetadataHelper w T filePath).bind fun result =>
              Outcome.returned (mergeMap metadata result))
        (Outcome.returned acc) =
      Outcome.returned (outputs.foldl mergeMap acc) := by
  induction h generalizing acc with
  | nil => rfl
  | cons hhead _ ih =>
    simp only [List.foldl_cons, Outcome.bind, hhead]
    exact ih _

/-- Once an exception is in flight the rest of the fold does nothing. -/
theorem analyzeMetadata_fold_raised (w : World) (filePath : String)
    (Ts : List HeaderType) (what : String) :
    Ts.foldl
        (fun acc T =>
          acc.bind fun metadata =>
            (analyzeMetadataHelper w T filePath).bind fun result =>
              Outcome.returned (mergeMap metadata result))
        (Outcome.raised what) =
      Outcome.raised what := by
  induction Ts with
  | nil => rfl
  | cons T rest ih =>
    simp only [List.foldl_cons, Outcome.bind]
    exact ih

/-- When every selected decoder returns, `analyzeMetadata` returns the
left-to-right merge of their outputs. -/
theorem analyzeMetadata_returned (w : World) (filePath : String)
    (Ts : List HeaderType) (outputs : List Metadata)
    (h : List.Forall₂ (fun T out => analyzeMetadataHelper w T filePath = Outcome.returned out)
      Ts outputs) :
    analyzeMetadata w Ts filePath = Outcome.returned (specMergeAll outputs) :=
  analyzeMetadata_fold_returned w filePath Ts outputs CustomMap.new h

/-- When a selected decoder raises after the earlier ones returned, the
exception leaves `analyzeMetadata`. -/
theorem analyzeMetadata_raised (w : World) (filePath : String)
    (before after : List HeaderType) (T : HeaderType) (outputs : List Metadata)
    (what : String)
    (hbefore : List.Forall₂
      (fun T out => analyzeMetadataHelper w T filePath = Outcome.returned out) before outputs)
    (hraise : analyzeMetadataHelper w T filePath = Outcome.raised what) :
    analyzeMetadata w (before ++ T :: after) filePath = Outcome.raised what := by
  simp only [analyzeMetadata, List.foldl_append, List.foldl_cons]
  rw [analyzeMetadata_fold_returned w filePath before outputs CustomMap.new hbefore]
  simp only [Outcome.bind, hraise]
  exact analyzeMetadata_fold_raised w filePath after what

/-- A single selected decoder: its output when it returns. -/
theorem analyzeMetadata_single (w : World) (T : HeaderType) (filePath : String)
    (out : Metadata) (h : analyzeMetadataHelper w T filePath = Outcome.returned out) :
    analyzeMetadata w [T] filePath = Outcome.returned out := by
  have := analyzeMetadata_returned w filePath [T] [out]
    (List.Forall₂.cons h List.Forall₂.nil)
  rw [this]
  simp only [specMergeAll, List.foldl_cons, List.foldl_nil]
  rw [mergeMap_new_left out (nodup_of_reachable out
    (analyzeMetadataHelper_reachable w T filePath out h))]

/-- What the Basic decoder returns when `std::ctime` renders the three times
it is given: its six keys, FileName and FileType taken from the path and
FileSize being `fileSize`. -/
theorem analyzeBasic_returned (w : World) (filePath : String)
    (creationTime lastModified lastAccess : String)
    (hc : w.ctime ((w.stat filePath).getD (w.statGarbage filePath)).st_ctime =
      some creationTime)
    (hm : w.ctime ((w.stat filePath).getD (w.statGarbage filePath)).st_mtime =
      some lastModified)
    (ha : w.ctime ((w.stat filePath).getD (w.statGarbage filePath)).st_atime =
      some lastAccess) :
    ∃ basic, analyzeMetadataHelper w HeaderType.BasicMetadata filePath =
        Outcome.returned basic ∧
      basic.keys =
        ["FileName", "FileSize", "FileType", "CreationTime", "LastModified", "LastAccess"] ∧
      basic.valueAt "FileName" = some (pathFilename filePath) ∧
      basic.valueAt "FileSize" =
        some (match w.stat filePath with
          | some st => to_string st.st_size ++ " bytes"
          | none => "") ∧
      basic.valueAt "FileType" = some (pathExtension filePath) := by
  simp only [analyzeMetadataHelper, analyzeBasic_eq, hc, hm, ha]
  refine ⟨_, rfl, ?_, ?_, ?_, ?_⟩
  · simp only [keys_assign, keys_new, List.mem_cons, List.not_mem_nil, or_false,
      String.reduceEq, List.nil_append, List.cons_append, if_false, List.mem_singleton,
      or_self]
  · simp only [valueAt_assign, valueAt_new, String.reduceEq, if_false, if_true]
  · simp only [valueAt_assign, valueAt_new, String.reduceEq, if_false, if_true]
  · simp only [valueAt_assign, valueAt_new, String.reduceEq, if_false, if_true]

/-- On a path that `stat` can examine the Basic decoder returns its six keys,
FileType being the extension of the path. -/
theorem analyzeBasic_of_stat (w : World) (filePath : String) (fileStat : StatBuf)
    (hstat : w.stat filePath = some fileStat) :
    ∃ basic, analyzeMetadataHelper w HeaderType.BasicMetadata filePath =
        Outcome.returned basic ∧
      basic.keys =
        ["FileName", "FileSize", "FileType", "CreationTime", "LastModified", "LastAccess"] ∧
      basic.valueAt "FileName" = some (pathFilename filePath) ∧
      basic.valueAt "FileSize" = some (to_string fileStat.st_size ++ " bytes") ∧
      basic.valueAt "FileType" = some (pathExtension filePath) := by
  obtain ⟨h1, h2, h3⟩ := w.ctime_of_stat filePath fileStat hstat
  obtain ⟨c, hc⟩ := Option.ne_none_iff_exists'.mp h1
  obtain ⟨m, hm⟩ := Option.ne_none_iff_exists'.mp h2
  obtain ⟨a, ha⟩ := Option.ne_none_iff_exists'.mp h3
  have := analyzeBasic_returned w filePath c m a (by rw [hstat]; exact hc)
    (by rw [hstat]; exact hm) (by rw [hstat]; exact ha)
  rw [hstat] at this
  exact this

/-- On a path that opens the Basic decoder returns its six keys, FileType
being the extension of the path. -/
theorem analyzeBasic_spec (w : World) (filePath : String) (content : List Byte)
    (hopen : w.fs filePath = some content) :
    ∃ basic, analyzeMetadataHelper w HeaderType.BasicMetadata filePath =
        Outcome.returned basic ∧
      basic.keys =
        ["FileName", "FileSize", "FileType", "CreationTime", "LastModified", "LastAccess"] ∧
      basic.valueAt "FileType" = some (pathExtension filePath) := by
  obtain ⟨fileStat, hstat⟩ := Option.ne_none_iff_exists'.mp
    (w.stat_of_open filePath (by rw [hopen]; exact Option.some_ne_none content))
  obtain ⟨basic, h1, h2, _, _, h3⟩ := analyzeBasic_of_stat w filePath fileStat hstat
  exact ⟨basic, h1, h2, h3⟩

/-- In the modes that run the Basic decoder first, the loop body continues
with the Basic map. -/
theorem processFile_both (w : World) (filePath : String) (basic : Metadata)
    (hbasic : analyzeMetadataHelper w HeaderType.BasicMetadata filePath =
      Outcome.returned basic) :
    processFile w filePath 3 =
      match switchFileType w
          (determineFileType w.fs (w.signatureGarbage filePath) filePath) basic filePath with
      | Outcome.returned (some result) => FileResult.printed result
      | Outcome.returned none => FileResult.unsupported
      | Outcome.raised what => FileResult.caught what
      | Outcome.libraryError what => FileResult.caught what
      | Outcome.crashed => FileResult.crashed := by
  have h1 := analyzeMetadata_single w HeaderType.BasicMetadata filePath basic hbasic
  simp only [processFile, h1]
  simp

/-- In "Both" mode, for a file classified as PDF, when the Basic decoder and
the PDF decoder return, the printed map is the output of the PDF decoder
alone: the `PDF` case assigns it to `metadata` after the merge. -/
theorem both_mode_pdf_replaces (w : World) (filePath : String) (basic pdfMap : Metadata)
    (hbasic : analyzeMetadataHelper w HeaderType.BasicMetadata filePath =
      Outcome.returned basic)
    (hclass : determineFileType w.fs (w.signatureGarbage filePath) filePath = FileType.PDF)
    (hpdf : analyzeMetadataHelper w HeaderType.popplerDocument filePath =
      Outcome.returned pdfMap) :
    processFile w filePath 3 = FileResult.printed pdfMap := by
  rw [processFile_both w filePath basic hbasic, hclass]
  simp only [switchFileType, analyzeMetadata_single w _ filePath pdfMap hpdf, Outcome.bind]

/-- Nothing behind a path that ends in the `default` case has any influence on
the run. -/
theorem runLoop_stops_at_unsupported (w : World) (filePath : String) (choice : Int)
    (h : processFile w filePath choice = FileResult.unsupported)
    (before rest : List (String × Int)) :
    runLoop w (before ++ (filePath, choice) :: rest) =
      runLoop w (before ++ [(filePath, choice)]) := by
  induction before with
  | nil => simp [runLoop, h]
  | cons head tail ih =>
    obtain ⟨p, c⟩ := head
    simp only [List.cons_append, runLoop, List.append_eq, ih]

/-! ## The coordinator and the command line: the claims -/

/-- C12 as stated fails: for a GIF file under the name `anim.GIF` the two GIF
decoders are selected, the extension assertion of the first one fails, and
the exception leaves `analyzeMetadata`. -/
theorem C12_counterexample :
    (worldOf (singleFile "anim.GIF" sampleGif)).fs "anim.GIF" = some sampleGif ∧
    analyzeMetadata (worldOf (singleFile "anim.GIF" sampleGif))
        [HeaderType.GIFHeader, HeaderType.LogicalScreenDescriptor] "anim.GIF" =
      Outcome.raised "Assertion failed" ∧
    analyzeMetadata (worldOf (singleFile "anim.GIF" sampleGif))
        [HeaderType.BasicMetadata, HeaderType.GIFHeader] "anim.GIF" =
      Outcome.raised "Assertion failed" := by
  refine ⟨by decide, by decide, by decide⟩

/-- C12, amended: for every path and every sequence of selected decoders,
(1) when every decoder returns, `analyzeMetadata` runs them in the given
order and returns the left-to-right merge of their outputs; (2) a decoder
that hits its empty-map failure case does not stop the others: the result is
the merge of the outputs of the other decoders; (3) when the extension
assertion of a decoder fails after the earlier decoders returned, that
exception leaves `analyzeMetadata` and no map is returned. -/
theorem C12_coordinator (w : World) (filePath : String) :
    (∀ Ts outputs,
      List.Forall₂ (fun T out => analyzeMetadataHelper w T filePath = Outcome.returned out)
        Ts outputs →
      analyzeMetadata w Ts filePath = Outcome.returned (specMergeAll outputs)) ∧
    (∀ before after T outputsBefore outputsAfter,
      List.Forall₂ (fun T out => analyzeMetadataHelper w T filePath = Outcome.returned out)
        before outputsBefore →
      analyzeMetadataHelper w T filePath = Outcome.returned CustomMap.new →
      List.Forall₂ (fun T out => analyzeMetadataHelper w T filePath = Outcome.returned out)
        after outputsAfter →
      analyzeMetadata w (before ++ T :: after) filePath =
        Outcome.returned (specMergeAll (outputsBefore ++ outputsAfter))) ∧
    (∀ before after T outputsBefore what,
      List.Forall₂ (fun T out => analyzeMetadataHelper w T filePath = Outcome.returned out)
        before outputsBefore →
      analyzeMetadataHelper w T filePath = Outcome.raised what →
      analyzeMetadata w (before ++ T :: after) filePath = Outcome.raised what) := by
  refine ⟨fun Ts outputs h => analyzeMetadata_returned w filePath Ts outputs h, ?_, ?_⟩
  · intro before after T outputsBefore outputsAfter hbefore hempty hafter
    have hall : List.Forall₂
        (fun T out => analyzeMetadataHelper w T filePath = Outcome.returned out)
        (before ++ T :: after) (outputsBefore ++ CustomMap.new :: outputsAfter) :=
      List.rel_append hbefore (List.Forall₂.cons hempty hafter)
    rw [analyzeMetadata_returned w filePath _ _ hall]
    simp only [specMergeAll, List.foldl_append, List.foldl_cons, mergeMap_new_right]
  · intro before after T outputsBefore what hbefore hraise
    exact analyzeMetadata_raised w filePath before after T outputsBefore what hbefore hraise

/-- C12, amended, at a path that cannot be opened: the GIF decoder returns an
empty map and the result is the output of the Basic decoder. -/
theorem C12_coordinator_witness :
    ∃ basic,
      analyzeMetadataHelper (worldOf (fun _ => none)) HeaderType.BasicMetadata "gone.gif" =
        Outcome.returned basic ∧
      analyzeMetadataHelper (worldOf (fun _ => none)) HeaderType.GIFHeader "gone.gif" =
        Outcome.returned CustomMap.new ∧
      analyzeMetadata (worldOf (fun _ => none))
          [HeaderType.BasicMetadata, HeaderType.GIFHeader] "gone.gif" =
        Outcome.returned (specMergeAll [basic]) := by
  obtain ⟨basic, hbasic, _⟩ :=
    analyzeBasic_returned (worldOf (fun _ => none)) "gone.gif" _ _ _ rfl rfl rfl
  exact ⟨basic, hbasic, by decide,
    (C12_coordinator (worldOf (fun _ => none)) "gone.gif").2.1 [HeaderType.BasicMetadata] []
      HeaderType.GIFHeader [basic] [] (List.Forall₂.cons hbasic List.Forall₂.nil) (by decide)
      List.Forall₂.nil⟩

/-- C13, evaluated where the code departs from it: a file that begins with
the PDF signature, opens, and that the PDF library cannot load, processed in
"Both" mode.  The Basic decoder returns its six keys and the PDF decoder
returns an empty map, so the merge of the two holds the six Basic keys; but
the map that reaches `printMetadata` is empty, because the `PDF` case assigns
the PDF map to `metadata` after merging it. -/
theorem C13_pdf_case_overwrites :
    determineFileType (worldOf (singleFile "doc.pdf" sampleBrokenPdf)).fs
      ((worldOf (singleFile "doc.pdf" sampleBrokenPdf)).signatureGarbage "doc.pdf")
      "doc.pdf" = FileType.PDF ∧
    (worldOf (singleFile "doc.pdf" sampleBrokenPdf)).pdf "doc.pdf" = none ∧
    (∃ basic,
      analyzeMetadataHelper (worldOf (singleFile "doc.pdf" sampleBrokenPdf))
        HeaderType.BasicMetadata "doc.pdf" = Outcome.returned basic ∧
      basic.keys =
        ["FileName", "FileSize", "FileType", "CreationTime", "LastModified", "LastAccess"] ∧
      analyzeMetadataHelper (worldOf (singleFile "doc.pdf" sampleBrokenPdf))
        HeaderType.popplerDocument "doc.pdf" = Outcome.returned CustomMap.new ∧
      (mergeMap basic CustomMap.new).keys =
        ["FileName", "FileSize", "FileType", "CreationTime", "LastModified", "LastAccess"]) ∧
    processFile (worldOf (singleFile "doc.pdf" sampleBrokenPdf)) "doc.pdf" 3 =
      FileResult.printed CustomMap.new := by
  refine ⟨by decide, rfl, ?_, by decide⟩
  obtain ⟨basic, hbasic, hkeys, _⟩ :=
    analyzeBasic_spec (worldOf (singleFile "doc.pdf" sampleBrokenPdf)) "doc.pdf"
      sampleBrokenPdf (by decide)
  refine ⟨basic, hbasic, hkeys, by decide, ?_⟩
  rw [mergeMap_new_right]
  exact hkeys

/-- C14 as stated fails: in "Specialized" mode a path that cannot be opened is
classified `UNKNOWN`, `main` returns 1 at once, and the WAV file that follows
on the command line is never processed, although on its own it is. -/
theorem C14_counterexample :
    main (worldOf (singleFile "a.wav" sampleWav)) [("missing.bin", 2), ("a.wav", 2)] =
      ([FileResult.unsupported], Exit.status 1) ∧
    ∃ m, main (worldOf (singleFile "a.wav" sampleWav)) [("a.wav", 2)] =
      ([FileResult.printed m], Exit.status 0) := by
  refine ⟨by decide, _, rfl⟩

/-- C14, amended: given an `UNKNOWN` classification (the path cannot be
opened) in "Specialized" mode, the per-file operation reports "Unsupported
file format." and `main` returns 1: the run terminates, and the paths that
follow on the command line are not processed. -/
theorem C14_unsupported_terminates (w : World) (filePath : String)
    (rest : List (String × Int)) (hopen : w.fs filePath = none) :
    determineFileType w.fs (w.signatureGarbage filePath) filePath = FileType.UNKNOWN ∧
    processFile w filePath 2 = FileResult.unsupported ∧
    main w ((filePath, 2) :: rest) = ([FileResult.unsupported], Exit.status 1) ∧
    ∀ before, main w (before ++ (filePath, 2) :: rest) =
      main w (before ++ [(filePath, 2)]) := by
  have hclass : determineFileType w.fs (w.signatureGarbage filePath) filePath =
      FileType.UNKNOWN := by
    simp [determineFileType, hopen]
  have hfile : processFile w filePath 2 = FileResult.unsupported := by
    simp [processFile, hclass, switchFileType]
  refine ⟨hclass, hfile, ?_, ?_⟩
  · simp [main, runLoop, hfile]
  · intro before
    have := runLoop_stops_at_unsupported w filePath 2 hfile before rest
    simp [main, this]

/-- C14, amended, at a missing path followed by a WAV file. -/
theorem C14_unsupported_terminates_witness :
    (worldOf (singleFile "a.wav" sampleWav)).fs "missing.bin" = none ∧
    main (worldOf (singleFile "a.wav" sampleWav)) [("missing.bin", 2), ("a.wav", 2)] =
      ([FileResult.unsupported], Exit.status 1) :=
  ⟨by decide,
    (C14_unsupported_terminates (worldOf (singleFile "a.wav" sampleWav)) "missing.bin"
      [("a.wav", 2)] (by decide)).2.2.1⟩

/-! ## Order of the keys after a merge -/

section MergeOrder

variable {κ ν : Type} [DecidableEq κ]

/-- The keys after one `upsert` per pair of `s`: the keys of `l`, then the keys
of `s` that `l` lacks, in the order of `s`. -/
theorem foldl_upsert_keys (l s : List (Pair κ ν))
    (hs : (s.map (fun pair => pair.key)).Nodup) :
    (s.foldl (fun l pair => upsert l pair.key pair.value) l).map (fun pair => pair.key) =
      l.map (fun pair => pair.key) ++
        (s.map (fun pair => pair.key)).filter
          (fun k => decide (k ∉ l.map (fun pair => pair.key))) := by
  induction s generalizing l with
  | nil => simp
  | cons p rest ih =>
    simp only [List.map_cons, List.nodup_cons] at hs
    simp only [List.foldl_cons, List.map_cons]
    rw [ih _ hs.2, upsert_keys]
    by_cases hp : p.key ∈ l.map (fun pair => pair.key)
    · rw [if_pos hp, List.filter_cons_of_neg]
      simp [hp]
    · simp only [hp, if_false, not_false_eq_true, decide_True, List.filter_cons_of_pos,
        List.append_assoc, List.singleton_append]
      congr 2
      apply List.filter_congr
      intro k hk
      have hne : k ≠ p.key := fun e => hs.1 (e ▸ hk)
      simp [hne]

end MergeOrder

/-- C27: `mergeMap` is order-preserving: for all maps `dest` and `src` with
unique keys, the key sequence after `mergeMap(dest, src)` is the key sequence
of `dest` followed by the keys of `src` that were absent from `dest`, in the
order of `src`; hence the size is that of `dest` plus the number of new keys,
merging an empty `src` leaves `dest` unchanged, and merging into an empty
`dest` yields a map equal to `src`; the keys stay unique. -/
theorem C27_mergeMap_order {κ ν : Type} [DecidableEq κ] [Inhabited ν]
    (dest src : CustomMap κ ν) (hdest : dest.keys.Nodup) (hsrc : src.keys.Nodup) :
    (mergeMap dest src).keys =
      dest.keys ++ src.keys.filter (fun k => decide (k ∉ dest.keys)) ∧
    (mergeMap dest src).keys.Nodup ∧
    (mergeMap dest src).size =
      dest.size + (src.keys.filter (fun k => decide (k ∉ dest.keys))).length ∧
    mergeMap dest CustomMap.new = dest ∧
    mergeMap CustomMap.new src = src := by
  have hkeys : (mergeMap dest src).keys =
      dest.keys ++ src.keys.filter (fun k => decide (k ∉ dest.keys)) := by
    simp only [CustomMap.keys, mergeMap_pairs]
    exact foldl_upsert_keys dest.pairs src.pairs hsrc
  have hnodup : (mergeMap dest src).keys.Nodup := by
    simp only [CustomMap.keys, mergeMap_pairs]
    exact foldl_upsert_nodup _ _ hdest
  refine ⟨hkeys, hnodup, ?_, mergeMap_new_right dest, mergeMap_new_left src hsrc⟩
  have hsize : ∀ m : CustomMap κ ν, m.size = m.keys.length := by
    intro m
    simp [CustomMap.size, CustomMap.keys]
  rw [hsize, hkeys, List.length_append, ← hsize]

/-- C27 at a Basic-like map merged with a PNG-like map. -/
theorem C27_mergeMap_order_witness :
    (insertAll [("FileName", "a.png"), ("FileType", ".png")]).keys.Nodup ∧
    (insertAll [("FileType", "PNG"), ("Width", "800")]).keys.Nodup ∧
    (mergeMap (insertAll [("FileName", "a.png"), ("FileType", ".png")])
      (insertAll [("FileType", "PNG"), ("Width", "800")])).keys =
        ["FileName", "FileType", "Width"] :=
  ⟨by decide, by decide,
    (C27_mergeMap_order (insertAll [("FileName", "a.png"), ("FileType", ".png")])
      (insertAll [("FileType", "PNG"), ("Width", "800")]) (by decide) (by decide)).1.trans
        (by decide)⟩

/-! ## The signature tests are mutually exclusive -/

/-- Searching a list in which at most one element satisfies the predicate
gives the same answer in any order of the list. -/
theorem find?_perm_of_unique {α : Type} (p : α → Bool) (l1 l2 : List α)
    (hperm : l1.Perm l2)
    (hunique : ∀ a ∈ l1, ∀ b ∈ l1, p a = true → p b = true → a = b) :
    l1.find? p = l2.find? p := by
  cases h1 : l1.find? p with
  | none =>
    rw [List.find?_eq_none] at h1
    symm
    rw [List.find?_eq_none]
    intro x hx
    exact h1 x (hperm.mem_iff.mpr hx)
  | some a =>
    have ha : p a = true := List.find?_some h1
    have hmem : a ∈ l1 := List.mem_of_find?_eq_some h1
    cases h2 : l2.find? p with
    | none =>
      rw [List.find?_eq_none] at h2
      exact absurd ha (h2 a (hperm.mem_iff.mp hmem))
    | some b =>
      have hb : p b = true := List.find?_some h2
      have hmemb : b ∈ l1 := hperm.mem_iff.mpr (List.mem_of_find?_eq_some h2)
      rw [hunique a hmem b hmemb ha hb]

/-- The conditional chain of `determineFileType` is the chain over
`signatureTests`. -/
theorem determineFileType_eq_classifyIn (fs : FileSystem) (stale : Fin 8 → Byte)
    (filePath : String) (content : List Byte) (hopen : fs filePath = some content) :
    determineFileType fs stale filePath =
      classifyIn signatureTests (istreamRead (List.ofFn stale) content 8) := by
  simp only [determineFileType, hopen]
  generalize istreamRead (List.ofFn stale) content 8 = buf
  simp only [classifyIn, signatureTests, List.find?_cons]
  by_cases c1 : memcmp buf JPEGSignature JPEGSignature.length = 0
  · simp only [c1, decide_True, if_true, Option.map_some', Option.getD_some]
  by_cases c2 : memcmp buf PNGSignature PNGSignature.length = 0
  · simp only [c1, c2, decide_True, decide_False, if_true, if_false, Option.map_some',
      Option.getD_some]
  by_cases c3 : memcmp buf BMPSignature BMPSignature.length = 0
  · simp only [c1, c2, c3, decide_True, decide_False, if_true, if_false, Option.map_some',
      Option.getD_some]
  by_cases c4 : buf.getD 0 0 = 0x25 ∧ buf.getD 1 0 = 0x50 ∧ buf.getD 2 0 = 0x44 ∧
      buf.getD 3 0 = 0x46
  · simp only [c1, c2, c3, c4, and_self, decide_True, decide_False, if_true, if_false,
      Option.map_some', Option.getD_some]
  by_cases c5 : memcmp buf ZIPSignature ZIPSignature.length = 0
  · simp only [c1, c2, c3, c4, c5, decide_True, decide_False, if_true, if_false,
      Option.map_some', Option.getD_some]
  by_cases c6 : memcmp buf WAVSignature WAVSignature.length = 0
  · simp only [c1, c2, c3, c4, c5, c6, decide_True, decide_False, if_true, if_false,
      Option.map_some', Option.getD_some]
  by_cases c7 : memcmp buf GIFSignature GIFSignature.length = 0
  · simp only [c1, c2, c3, c4, c5, c6, c7, decide_True, decide_False, if_true, if_false,
      Option.map_some', Option.getD_some]
  · simp only [c1, c2, c3, c4, c5, c6, c7, decide_False, if_false, List.find?_nil,
      Option.map_none', Option.getD_none]

/-- Two regions that differ in their first byte compare unequal. -/
theorem memcmp_cons_ne (a b : Byte) (s1 s2 : List Byte) (n : Nat) (h : a ≠ b) :
    memcmp (a :: s1) (b :: s2) (n + 1) ≠ 0 := by
  simp only [memcmp, if_neg h]
  intro e
  apply h
  apply Fin.ext
  omega

/-- A test of the chain succeeds only on an array whose first byte is the
first byte of its pattern. -/
theorem signatureTest_first_byte (signature : List Byte) (hlen : signature.length = 8)
    (test : (List Byte → Bool) × FileType) (hmem : test ∈ signatureTests)
    (hpass : test.1 signature = true) :
    (test.2 = FileType.JPEG ∧ signature.getD 0 0 = 0xFF) ∨
    (test.2 = FileType.PNG ∧ signature.getD 0 0 = 0x89) ∨
    (test.2 = FileType.BMP ∧ signature.getD 0 0 = 0x42) ∨
    (test.2 = FileType.PDF ∧ signature.getD 0 0 = 0x25) ∨
    (test.2 = FileType.ZIP ∧ signature.getD 0 0 = 0x50) ∨
    (test.2 = FileType.WAV ∧ signature.getD 0 0 = 0x52) ∨
    (test.2 = FileType.GIF ∧ signature.getD 0 0 = 0x47) := by
  rcases signature with _ | ⟨b0, rest⟩
  · simp at hlen
  · simp only [signatureTests, List.mem_cons, List.mem_singleton, List.not_mem_nil,
      or_false] at hmem
    rcases hmem with rfl | rfl | rfl | rfl | rfl | rfl | rfl
    · refine Or.inl ⟨rfl, ?_⟩
      by_contra hne
      exact memcmp_cons_ne b0 0xFF rest [0xD8, 0xFF] 2 hne (of_decide_eq_true hpass)
    · refine Or.inr (Or.inl ⟨rfl, ?_⟩)
      by_contra hne
      exact memcmp_cons_ne b0 0x89 rest [0x50, 0x4E, 0x47, 0x0D, 0x0A, 0x1A, 0x0A] 7 hne
        (of_decide_eq_true hpass)
    · refine Or.inr (Or.inr (Or.inl ⟨rfl, ?_⟩))
      by_contra hne
      exact memcmp_cons_ne b0 0x42 rest [0x4D] 1 hne (of_decide_eq_true hpass)
    · refine Or.inr (Or.inr (Or.inr (Or.inl ⟨rfl, ?_⟩)))
      exact (of_decide_eq_true hpass).1
    · refine Or.inr (Or.inr (Or.inr (Or.inr (Or.inl ⟨rfl, ?_⟩))))
      by_contra hne
      exact memcmp_cons_ne b0 0x50 rest [0x4B, 0x03, 0x04] 3 hne (of_decide_eq_true hpass)
    · refine Or.inr (Or.inr (Or.inr (Or.inr (Or.inr (Or.inl ⟨rfl, ?_⟩)))))
      by_contra hne
      exact memcmp_cons_ne b0 0x52 rest [0x49, 0x46, 0x46] 3 hne (of_decide_eq_true hpass)
    · refine Or.inr (Or.inr (Or.inr (Or.inr (Or.inr (Or.inr ⟨rfl, ?_⟩)))))
      by_contra hne
      exact memcmp_cons_ne b0 0x47 rest [0x49, 0x46] 2 hne (of_decide_eq_true hpass)

/-- On an array of eight bytes two tests of the chain that both succeed are
the same test. -/
theorem signatureTests_exclusive (signature : List Byte) (hlen : signature.length = 8)
    (t1 : (List Byte → Bool) × FileType) (h1 : t1 ∈ signatureTests)
    (t2 : (List Byte → Bool) × FileType) (h2 : t2 ∈ signatureTests)
    (p1 : t1.1 signature = true) (p2 : t2.1 signature = true) : t1 = t2 := by
  have f1 := signatureTest_first_byte signature hlen t1 h1 p1
  have f2 := signatureTest_first_byte signature hlen t2 h2 p2
  have htag : t1.2 = t2.2 := by
    rcases f1 with ⟨e1, b1⟩ | ⟨e1, b1⟩ | ⟨e1, b1⟩ | ⟨e1, b1⟩ | ⟨e1, b1⟩ | ⟨e1, b1⟩ | ⟨e1, b1⟩ <;>
    rcases f2 with ⟨e2, b2⟩ | ⟨e2, b2⟩ | ⟨e2, b2⟩ | ⟨e2, b2⟩ | ⟨e2, b2⟩ | ⟨e2, b2⟩ | ⟨e2, b2⟩ <;>
    first
      | (rw [b1] at b2; exact absurd b2 (by decide))
      | (rw [e1, e2])
  simp only [signatureTests, List.mem_cons, List.mem_singleton, List.not_mem_nil,
    or_false] at h1 h2
  rcases h1 with rfl | rfl | rfl | rfl | rfl | rfl | rfl <;>
  rcases h2 with rfl | rfl | rfl | rfl | rfl | rfl | rfl <;>
  first
    | exact absurd htag (by decide)
    | rfl

/-- The seven tests are seven different members of the chain. -/
theorem signatureTests_nodup : signatureTests.Nodup :=
  List.Nodup.of_map (fun test => test.2) (by decide)

/-- A list without repetition whose members are all equal has at most one
member. -/
theorem length_le_one_of_all_eq {α : Type} (l : List α) (hnodup : l.Nodup)
    (hall : ∀ a ∈ l, ∀ b ∈ l, a = b) : l.length ≤ 1 := by
  rcases l with _ | ⟨a, _ | ⟨b, rest⟩⟩
  · simp
  · simp
  · exfalso
    have hab : a = b := hall a (by simp) b (by simp)
    rw [hab] at hnodup
    simp at hnodup

/-- C25: the seven signature tests of `determineFileType` are mutually
exclusive: on every 8-byte array at most one of the JPEG, PNG, BMP, PDF, ZIP,
WAV and GIF comparisons succeeds, because each can succeed only on its own
first byte and the seven first bytes differ; hence a chain that evaluates the
tests in any other order yields the same classification as the chain of the
source, and `determineFileType` returns that classification. -/
theorem C25_tests_exclusive (signature : List Byte) (hlen : signature.length = 8) :
    (signatureTests.filter (fun test => test.1 signature)).length ≤ 1 ∧
    (∀ t1 ∈ signatureTests, ∀ t2 ∈ signatureTests,
      t1.1 signature = true → t2.1 signature = true → t1 = t2) ∧
    (∀ order : List ((List Byte → Bool) × FileType), order.Perm signatureTests →
      classifyIn order signature = classifyIn signatureTests signature) ∧
    (∀ (fs : FileSystem) (stale : Fin 8 → Byte) (filePath : String) (content : List Byte),
      fs filePath = some content → istreamRead (List.ofFn stale) content 8 = signature →
      ∀ order : List ((List Byte → Bool) × FileType), order.Perm signatureTests →
        determineFileType fs stale filePath = classifyIn order signature) := by
  have hexcl := signatureTests_exclusive signature hlen
  have horder : ∀ order : List ((List Byte → Bool) × FileType), order.Perm signatureTests →
      classifyIn order signature = classifyIn signatureTests signature := by
    intro order hperm
    simp only [classifyIn]
    rw [find?_perm_of_unique (fun test => test.1 signature) signatureTests order hperm.symm
      (fun a ha b hb pa pb => hexcl a ha b hb pa pb)]
  refine ⟨?_, fun t1 h1 t2 h2 p1 p2 => hexcl t1 h1 t2 h2 p1 p2, horder, ?_⟩
  · apply length_le_one_of_all_eq
    · exact signatureTests_nodup.filter _
    · intro a ha b hb
      rw [List.mem_filter] at ha hb
      exact hexcl a ha.1 b hb.1 ha.2 hb.2
  · intro fs stale filePath content hopen hread order hperm
    rw [determineFileType_eq_classifyIn fs stale filePath content hopen, hread,
      horder order hperm]

/-- C25 at the first eight bytes of the GIF sample, with the tests taken in
the reverse order. -/
theorem C25_tests_exclusive_witness :
    (sampleGif.take 8).length = 8 ∧
    classifyIn signatureTests.reverse (sampleGif.take 8) = FileType.GIF ∧
    determineFileType (singleFile "a.gif" sampleGif) zeroBuffer "a.gif" = FileType.GIF :=
  ⟨by decide,
    ((C25_tests_exclusive (sampleGif.take 8) (by decide)).2.2.1 signatureTests.reverse
      (List.reverse_perm signatureTests)).trans (by decide),
    ((C25_tests_exclusive (sampleGif.take 8) (by decide)).2.2.2
      (singleFile "a.gif" sampleGif) zeroBuffer "a.gif" sampleGif (by decide) (by decide)
      signatureTests.reverse (List.reverse_perm signatureTests)).trans (by decide)⟩

/-! ## The GIF screen-descriptor decoder -/

/-- The first six bytes of a header object filled from a file that begins with
the six bytes given. -/
theorem readHeader_six (w : World) (filePath : String) (b0 b1 b2 b3 b4 b5 : Byte)
    (rest : List Byte) (offset size : Nat) (hinside : offset + size ≤ 6) :
    field (readHeader w filePath (b0 :: b1 :: b2 :: b3 :: b4 :: b5 :: rest)
        LogicalScreenDescriptor.members) offset size =
      field [b0, b1, b2, b3, b4, b5] offset size := by
  have hread : readHeader w filePath (b0 :: b1 :: b2 :: b3 :: b4 :: b5 :: rest)
      LogicalScreenDescriptor.members =
      [b0, b1, b2, b3, b4, b5] ++ (rest.take 2 ++
        (uninitialised (w.headerGarbage filePath) 8).drop
          ((b0 :: b1 :: b2 :: b3 :: b4 :: b5 :: rest).take 8).length) := by
    simp [readHeader, istreamRead, sizeof_LogicalScreenDescriptor]
  rw [hread]
  simp only [field]
  rw [List.drop_append_of_le_length (by simp; omega), List.take_append_of_le_length]
  simp only [List.length_drop, List.length_cons, List.length_nil]
  omega

/-- C26: the GIF screen-descriptor decoder reads its record from file offset
0, not from offset 6 behind the signature: for every `.gif` file of at least
8 bytes Width and Height are the little-endian 16-bit values of the bytes
0..1 and 2..3 (and PackedFields, BackgroundColorIndex, PixelAspectRatio are
the bytes 4, 5 and 6); so for every file that begins with the ASCII bytes
"GIF89a" it yields Width "18759", Height "14406", PackedFields "57" and
BackgroundColorIndex "97", whatever logical screen size the file declares. -/
theorem C26_gif_descriptor_from_offset_zero (w : World) (filePath : String)
    (content : List Byte)
    (hext : pathExtension filePath = ".gif") (hopen : w.fs filePath = some content) :
    (8 ≤ content.length →
      ∃ m, analyzeMetadataHelper w HeaderType.LogicalScreenDescriptor filePath =
          Outcome.returned m ∧
        m.valueAt "Width" = some (to_string (le (field content 0 2))) ∧
        m.valueAt "Height" = some (to_string (le (field content 2 2))) ∧
        m.valueAt "PackedFields" = some (to_string (le (field content 4 1))) ∧
        m.valueAt "BackgroundColorIndex" = some (to_string (le (field content 5 1))) ∧
        m.valueAt "PixelAspectRatio" = some (to_string (le (field content 6 1)))) ∧
    ([0x47, 0x49, 0x46, 0x38, 0x39, 0x61] <+: content →
      ∃ m, analyzeMetadataHelper w HeaderType.LogicalScreenDescriptor filePath =
          Outcome.returned m ∧
        m.valueAt "Width" = some "18759" ∧ m.valueAt "Height" = some "14406" ∧
        m.valueAt "PackedFields" = some "57" ∧
        m.valueAt "BackgroundColorIndex" = some "97") := by
  constructor
  · intro hlen
    have hsize : sizeof LogicalScreenDescriptor.members ≤ content.length := by
      rw [sizeof_LogicalScreenDescriptor]
      exact hlen
    have h0 := memberBytes_readHeader w filePath content LogicalScreenDescriptor.members
      0 0 2 hsize (fun _ => rfl) (by decide)
    have h1 := memberBytes_readHeader w filePath content LogicalScreenDescriptor.members
      1 2 2 hsize (fun _ => rfl) (by decide)
    have h2 := memberBytes_readHeader w filePath content LogicalScreenDescriptor.members
      2 4 1 hsize (fun _ => rfl) (by decide)
    have h3 := memberBytes_readHeader w filePath content LogicalScreenDescriptor.members
      3 5 1 hsize (fun _ => rfl) (by decide)
    have h4 := memberBytes_readHeader w filePath content LogicalScreenDescriptor.members
      4 6 1 hsize (fun _ => rfl) (by decide)
    simp only [analyzeMetadataHelper, analyzeLSD, readGifLogicalScreenDescriptor, hext,
      decide_True, custom_assert_bind_true, hopen]
    refine ⟨_, rfl, ?_, ?_, ?_, ?_, ?_⟩ <;>
      simp only [valueAt_assign, valueAt_new, String.reduceEq, if_false, if_true,
        memberValue, h0, h1, h2, h3, h4]
  · rintro ⟨rest, rfl⟩
    have m0 : ∀ object, memberBytes LogicalScreenDescriptor.members object 0 =
        field object 0 2 := fun _ => rfl
    have m1 : ∀ object, memberBytes LogicalScreenDescriptor.members object 1 =
        field object 2 2 := fun _ => rfl
    have m2 : ∀ object, memberBytes LogicalScreenDescriptor.members object 2 =
        field object 4 1 := fun _ => rfl
    have m3 : ∀ object, memberBytes LogicalScreenDescriptor.members object 3 =
        field object 5 1 := fun _ => rfl
    have h0 := readHeader_six w filePath 0x47 0x49 0x46 0x38 0x39 0x61 rest 0 2 (by decide)
    have h1 := readHeader_six w filePath 0x47 0x49 0x46 0x38 0x39 0x61 rest 2 2 (by decide)
    have h2 := readHeader_six w filePath 0x47 0x49 0x46 0x38 0x39 0x61 rest 4 1 (by decide)
    have h3 := readHeader_six w filePath 0x47 0x49 0x46 0x38 0x39 0x61 rest 5 1 (by decide)
    simp only [List.cons_append, List.nil_append] at hopen
    simp only [analyzeMetadataHelper, analyzeLSD, readGifLogicalScreenDescriptor, hext,
      decide_True, custom_assert_bind_true, hopen]
    refine ⟨_, rfl, ?_, ?_, ?_, ?_⟩ <;>
      simp only [valueAt_assign, valueAt_new, String.reduceEq, if_false, if_true,
        memberValue, m0, m1, m2, m3, h0, h1, h2, h3] <;>
      decide

/-- C26 at two GIF files with logical screens of 10 by 10 and of 320 by 240:
both yield Width "18759" and Height "14406". -/
theorem C26_gif_descriptor_from_offset_zero_witness :
    le (field sampleGif 6 2) = 10 ∧ le (field sampleGifWide 6 2) = 320 ∧
    (∃ m, analyzeMetadataHelper (worldOf (singleFile "a.gif" sampleGif))
        HeaderType.LogicalScreenDescriptor "a.gif" = Outcome.returned m ∧
      m.valueAt "Width" = some "18759" ∧ m.valueAt "Height" = some "14406") ∧
    (∃ m, analyzeMetadataHelper (worldOf (singleFile "a.gif" sampleGifWide))
        HeaderType.LogicalScreenDescriptor "a.gif" = Outcome.returned m ∧
      m.valueAt "Width" = some "18759" ∧ m.valueAt "Height" = some "14406") := by
  refine ⟨by decide, by decide, ?_, ?_⟩
  · obtain ⟨m, hm, hw, hh, _⟩ :=
      (C26_gif_descriptor_from_offset_zero (worldOf (singleFile "a.gif" sampleGif)) "a.gif"
        sampleGif (by decide) (by decide)).2 (by decide)
    exact ⟨m, hm, hw, hh⟩
  · obtain ⟨m, hm, hw, hh, _⟩ :=
      (C26_gif_descriptor_from_offset_zero (worldOf (singleFile "a.gif" sampleGifWide))
        "a.gif" sampleGifWide (by decide) (by decide)).2 (by decide)
    exact ⟨m, hm, hw, hh⟩

/-! ## The extension assertion and the unopenable file -/

/-- A sequence of two steps is left by a `std::runtime_error` exactly when the
first step is, or the first step returns and the second one is. -/
theorem bind_raised_iff {α β : Type} (o : Outcome α) (f : α → Outcome β) (what : String) :
    o.bind f = Outcome.raised what ↔
      o = Outcome.raised what ∨ ∃ a, o = Outcome.returned a ∧ f a = Outcome.raised what := by
  cases o <;> simp [Outcome.bind]

/-- The Basic decoder is never left by a `std::runtime_error`. -/
theorem analyzeBasic_not_raised (w : World) (filePath : String) (what : String) :
    analyzeMetadataHelper w HeaderType.BasicMetadata filePath ≠ Outcome.raised what := by
  rw [analyzeMetadataHelper, analyzeBasic_eq]
  split <;> simp

/-- Building a string from the iterators of two temporaries may end in many
ways, but not in a `std::runtime_error`. -/
theorem stringFromMixedRange_not_raised (w : World) (filePath key what : String) :
    stringFromMixedRange w filePath key ≠ Outcome.raised what := by
  unfold stringFromMixedRange
  split <;> simp

/-- With the extension it asserts, a format decoder is not left by a
`std::runtime_error`. -/
theorem format_not_raised_of_extension (w : World) (T : HeaderType) (filePath : String)
    (ext : String) (hT : expectedExtension T = some ext)
    (hext : pathExtension filePath = ext) (what : String) :
    analyzeMetadataHelper w T filePath ≠ Outcome.raised what := by
  intro h
  cases T <;> simp only [expectedExtension, reduceCtorEq, Option.some.injEq] at hT <;>
    subst hT <;>
    simp only [analyzeMetadataHelper, analyzePDF, analyzeTXT, analyzeJPEG, analyzePNG,
      analyzeBMP, analyzeZIP, analyzeWAV, analyzeGIF, analyzeLSD,
      readGifLogicalScreenDescriptor, hext, decide_True, custom_assert_bind_true] at h
  · split at h
    · exact absurd h (by simp)
    · split at h
      · exact absurd h (by simp)
      · simp only [bind_raised_iff, stringFromMixedRange_not_raised, false_or, reduceCtorEq,
          and_false, exists_false] at h
  · split at h <;> exact absurd h (by simp)
  · split at h <;> exact absurd h (by simp)
  · split at h <;> exact absurd h (by simp)
  · split at h <;> exact absurd h (by simp)
  · split at h
    · exact absurd h (by simp)
    · split at h
      · exact absurd h (by simp)
      · split at h <;> exact absurd h (by simp)
  · split at h <;> exact absurd h (by simp)
  · split at h <;> exact absurd h (by simp)
  · cases hopen : w.fs filePath <;> simp [hopen] at h

/-- With any other extension, a format decoder raises the assertion failure
before it touches the file. -/
theorem format_raised_of_extension (w : World) (T : HeaderType) (filePath : String)
    (ext : String) (hT : expectedExtension T = some ext)
    (hext : pathExtension filePath ≠ ext) :
    analyzeMetadataHelper w T filePath = Outcome.raised "Assertion failed" := by
  cases T <;> simp only [expectedExtension, reduceCtorEq, Option.some.injEq] at hT <;>
    subst hT <;>
    simp only [analyzeMetadataHelper, analyzePDF, analyzeTXT, analyzeJPEG, analyzePNG,
      analyzeBMP, analyzeZIP, analyzeWAV, analyzeGIF, analyzeLSD, hext, decide_False,
      custom_assert_bind_false]

/-- C22: each format-specific decoder asserts, before opening the file, that
the extension of the path is the expected one (PDF ".pdf", TXT ".txt", JPEG
".jpg", PNG ".png", BMP ".bmp", ZIP ".zip", WAV ".wav", both GIF decoders
".gif"): the decoder ends in the assertion failure, the `std::runtime_error`
"Assertion failed" of `custom_assert`, if and only if the extension string
differs from the expected one; with a different extension it does so in
every environment, whatever the file holds, and with the expected extension
it does so in none.  The Basic decoder performs no such check: for no path
and in no environment does it end in the assertion failure.  (Exceptions of
other classes, thrown inside the standard library by the Basic and the PDF
decoder, are not assertion failures and are not the subject here.) -/
theorem C22_extension_assertion (w : World) (T : HeaderType) (filePath : String) :
    (∀ ext, expectedExtension T = some ext →
      (analyzeMetadataHelper w T filePath = Outcome.raised "Assertion failed" ↔
        pathExtension filePath ≠ ext) ∧
      (pathExtension filePath ≠ ext →
        ∀ w1 : World, analyzeMetadataHelper w1 T filePath =
          Outcome.raised "Assertion failed") ∧
      (pathExtension filePath = ext →
        ∀ w1 : World, analyzeMetadataHelper w1 T filePath ≠
          Outcome.raised "Assertion failed")) ∧
    (expectedExtension T = none →
      T = HeaderType.BasicMetadata ∧
        ∀ (w1 : World) (anyPath : String),
          analyzeMetadataHelper w1 T anyPath ≠ Outcome.raised "Assertion failed") ∧
    expectedExtension HeaderType.popplerDocument = some ".pdf" ∧
    expectedExtension HeaderType.ifstream = some ".txt" ∧
    expectedExtension HeaderType.JPEGHeader = some ".jpg" ∧
    expectedExtension HeaderType.PNGHeader = some ".png" ∧
    expectedExtension HeaderType.BMPHeader = some ".bmp" ∧
    expectedExtension HeaderType.ZIPHeader = some ".zip" ∧
    expectedExtension HeaderType.WAVHeader = some ".wav" ∧
    expectedExtension HeaderType.GIFHeader = some ".gif" ∧
    expectedExtension HeaderType.LogicalScreenDescriptor = some ".gif" := by
  refine ⟨?_, ?_, rfl, rfl, rfl, rfl, rfl, rfl, rfl, rfl, rfl⟩
  · intro ext hT
    refine ⟨⟨?_, ?_⟩, ?_, ?_⟩
    · intro hraised heq
      exact format_not_raised_of_extension w T filePath ext hT heq _ hraised
    · intro hne
      exact format_raised_of_extension w T filePath ext hT hne
    · intro hne w1
      exact format_raised_of_extension w1 T filePath ext hT hne
    · intro heq w1
      exact format_not_raised_of_extension w1 T filePath ext hT heq _
  · intro hT
    have hbasic : T = HeaderType.BasicMetadata := by
      cases T <;> simp [expectedExtension] at hT
      rfl
    subst hbasic
    exact ⟨rfl, fun w1 anyPath => analyzeBasic_not_raised w1 anyPath _⟩

/-- C22 at a JPEG file whose name ends in the upper-case extension. -/
theorem C22_extension_assertion_witness :
    expectedExtension HeaderType.JPEGHeader = some ".jpg" ∧
    pathExtension "photo.JPG" ≠ ".jpg" ∧
    analyzeMetadataHelper (worldOf (singleFile "photo.JPG" sampleJpeg)) HeaderType.JPEGHeader
      "photo.JPG" = Outcome.raised "Assertion failed" :=
  ⟨by decide, by decide,
    ((C22_extension_assertion (worldOf (singleFile "photo.JPG" sampleJpeg))
      HeaderType.JPEGHeader "photo.JPG").1 ".jpg" (by decide)).2.1 (by decide)
      (worldOf (singleFile "photo.JPG" sampleJpeg))⟩

/-- What the TXT decoder does with every `.txt` file that opens: the whole
stream is drained into `buffer` before the first `getline`, both calls of
`getline` leave `line` empty, and the map holds FileName, FileSize and
FileType only. -/
theorem analyzeTXT_of_open (w : World) (filePath : String) (content : List Byte)
    (hext : pathExtension filePath = ".txt") (hopen : w.fs filePath = some content) :
    analyzeMetadataHelper w HeaderType.ifstream filePath =
      Outcome.returned
        ⟨[⟨"FileName", pathFilename filePath⟩,
          ⟨"FileSize", to_string content.length ++ " bytes"⟩,
          ⟨"FileType", "TXT"⟩]⟩ := by
  simp only [analyzeMetadataHelper, analyzeTXT, hext, decide_True, custom_assert_bind_true,
    hopen, IStream.drain, getline, List.takeWhile_nil, List.dropWhile_nil, ne_eq,
    not_true_eq_false, if_false, if_true, Bool.false_eq_true]
  rfl

/-- C23, evaluated where the code departs from it: for the three-line sample
file, whose first line is "My Title" and whose second line is "An Author", the
TXT decoder returns FileName, FileSize and FileType but neither Title nor
Author. -/
theorem C23_txt_title_never_set :
    (getline { rest := sampleTxt, good := true } []).1 = asciiBytes "My Title" ∧
    (getline (getline { rest := sampleTxt, good := true } []).2 []).1 =
      asciiBytes "An Author" ∧
    analyzeMetadataHelper (worldOf (singleFile "a.txt" sampleTxt)) HeaderType.ifstream
        "a.txt" =
      Outcome.returned
        ⟨[⟨"FileName", "a.txt"⟩, ⟨"FileSize", "24 bytes"⟩, ⟨"FileType", "TXT"⟩]⟩ ∧
    (∀ m, analyzeMetadataHelper (worldOf (singleFile "a.txt" sampleTxt)) HeaderType.ifstream
        "a.txt" = Outcome.returned m →
      m.valueAt "Title" = none ∧ m.valueAt "Author" = none) := by
  refine ⟨by decide, by decide, by decide, ?_⟩
  intro m hm
  have hrun : analyzeMetadataHelper (worldOf (singleFile "a.txt" sampleTxt))
      HeaderType.ifstream "a.txt" =
      Outcome.returned
        ⟨[⟨"FileName", "a.txt"⟩, ⟨"FileSize", "24 bytes"⟩, ⟨"FileType", "TXT"⟩]⟩ := by
    decide
  rw [hrun] at hm
  simp only [Outcome.returned.injEq] at hm
  subst hm
  exact ⟨by decide, by decide⟩

/-- C24 as stated fails: after a failed `zip_stat` the ZIP decoder still
stores the archive comment, and still stores the seven fields of the first
entry, so the map is not empty. -/
theorem C24_counterexample :
    sampleZipCommentOnly.stat = none ∧
    analyzeMetadataHelper (zipWorld sampleZipCommentOnly) HeaderType.ZIPHeader "a.zip" =
      Outcome.returned ⟨[⟨"Comment", "backup"⟩]⟩ ∧
    sampleZipEntryOnly.stat = none ∧
    analyzeMetadataHelper (zipWorld sampleZipEntryOnly) HeaderType.ZIPHeader "a.zip" =
      Outcome.returned
        ⟨[⟨"FileName", ""⟩, ⟨"CompressedSize", "0 bytes"⟩, ⟨"CompressionMethod", "0"⟩,
          ⟨"LastModificationTime", "0"⟩, ⟨"LastModificationDate", "0"⟩, ⟨"CRC32", "0"⟩,
          ⟨"UncompressedSize", "0 bytes"⟩]⟩ := by
  refine ⟨rfl, by decide, rfl, by decide⟩

/-- C24, amended: with the PDF and ZIP libraries as services, on a path with
the expected extension the PDF decoder returns an empty map when the document
fails to load or is locked, and the ZIP decoder returns an empty map when the
archive fails to open.  When the archive opens and its stat call fails, only
FileType and FileSize are left out: the comment is stored when the archive
has one, and the seven fields of the first entry are stored when entry 0
opens, so that the map is empty exactly when there is neither. -/
theorem C24_service_failures (w : World) (filePath : String) :
    (pathExtension filePath = ".pdf" →
      (w.pdf filePath = none ∨ ∃ doc, w.pdf filePath = some doc ∧ doc.is_locked = true) →
      analyzeMetadataHelper w HeaderType.popplerDocument filePath =
        Outcome.returned CustomMap.new) ∧
    (pathExtension filePath = ".zip" → w.zip filePath = none →
      analyzeMetadataHelper w HeaderType.ZIPHeader filePath =
        Outcome.returned CustomMap.new) ∧
    (pathExtension filePath = ".zip" →
      ∀ zip, w.zip filePath = some zip → zip.stat = none →
        (zip.firstEntry = none →
          ∃ m, analyzeMetadataHelper w HeaderType.ZIPHeader filePath = Outcome.returned m) ∧
        ∀ m, analyzeMetadataHelper w HeaderType.ZIPHeader filePath = Outcome.returned m →
          m.keys =
            (if zip.commentLength > 0 then ["Comment"] else []) ++
            (if zip.firstEntry.isSome then
              ["FileName", "CompressedSize", "CompressionMethod", "LastModificationTime",
                "LastModificationDate", "CRC32", "UncompressedSize"]
             else [])) := by
  refine ⟨?_, ?_, ?_⟩
  · intro hext hfail
    rcases hfail with hnone | ⟨doc, hdoc, hlocked⟩
    · simp only [analyzeMetadataHelper, analyzePDF, hext, decide_True,
        custom_assert_bind_true, hnone]
    · simp only [analyzeMetadataHelper, analyzePDF, hext, decide_True,
        custom_assert_bind_true, hdoc, hlocked, if_true]
  · intro hext hnone
    simp only [analyzeMetadataHelper, analyzeZIP, hext, decide_True, custom_assert_bind_true,
      hnone]
  · intro hext zip hzip hstat
    constructor
    · intro hentry
      simp only [analyzeMetadataHelper, analyzeZIP, hext, decide_True,
        custom_assert_bind_true, hzip, hstat, hentry]
      exact ⟨_, rfl⟩
    · intro m hm
      simp only [analyzeMetadataHelper, analyzeZIP, hext, decide_True,
        custom_assert_bind_true, hzip, hstat] at hm
      by_cases hcomment : zip.commentLength > 0
      · simp only [hcomment, if_true] at hm ⊢
        cases hentry : zip.firstEntry with
        | none =>
          simp only [hentry, Outcome.returned.injEq] at hm
          subst hm
          simp only [keys_assign, keys_new, List.not_mem_nil, if_false, List.nil_append,
            Option.isSome_none, Bool.false_eq_true, List.append_nil]
        | some data =>
          simp only [hentry] at hm
          split at hm
          · exact absurd hm (by simp)
          · simp only [Outcome.returned.injEq] at hm
            subst hm
            simp only [keys_assign, keys_new, List.mem_cons, List.not_mem_nil, or_false,
              String.reduceEq, List.nil_append, List.cons_append, if_false,
              List.mem_singleton, or_self, Option.isSome_some, if_true]
      · simp only [hcomment, if_false] at hm ⊢
        cases hentry : zip.firstEntry with
        | none =>
          simp only [hentry, Outcome.returned.injEq] at hm
          subst hm
          simp only [keys_new, Option.isSome_none, Bool.false_eq_true, if_false,
            List.append_nil]
        | some data =>
          simp only [hentry] at hm
          split at hm
          · exact absurd hm (by simp)
          · simp only [Outcome.returned.injEq] at hm
            subst hm
            simp only [keys_assign, keys_new, List.mem_cons, List.not_mem_nil, or_false,
              String.reduceEq, List.nil_append, List.cons_append, if_false,
              List.mem_singleton, or_self, Option.isSome_some, if_true]

/-- C24, amended, at a `.pdf` path that the PDF library cannot load and at the
archive with a comment only. -/
theorem C24_service_failures_witness :
    pathExtension "x.pdf" = ".pdf" ∧ (worldOf (fun _ => none)).pdf "x.pdf" = none ∧
    analyzeMetadataHelper (worldOf (fun _ => none)) HeaderType.popplerDocument "x.pdf" =
      Outcome.returned CustomMap.new ∧
    pathExtension "a.zip" = ".zip" ∧
    (zipWorld sampleZipCommentOnly).zip "a.zip" = some sampleZipCommentOnly ∧
    sampleZipCommentOnly.stat = none ∧
    ∀ m, analyzeMetadataHelper (zipWorld sampleZipCommentOnly) HeaderType.ZIPHeader "a.zip" =
        Outcome.returned m → m.keys = ["Comment"] :=
  ⟨by decide, rfl,
    (C24_service_failures (worldOf (fun _ => none)) "x.pdf").1 (by decide) (Or.inl rfl),
    by decide, by decide, rfl,
    fun m hm =>
      (((C24_service_failures (zipWorld sampleZipCommentOnly) "a.zip").2.2 (by decide)
        sampleZipCommentOnly (by decide) rfl).2 m hm).trans (by decide)⟩

end FileMeta
